import Mathlib

/-!
# Poll lifecycle of flavor-of-the-week

A shallow embedding of `functions/command/poll.go`: name truncation and
recovery, candidate-set generation, winner determination and the start/end
poll commands, followed by the properties established about them.

Conventions of the embedding.

* A Go `string` is its sequence of bytes (`GoString`): `len` is the number of
  bytes and `s[i:j]` slices bytes.
* A Go `(T, error)` result is an `Except GoError T`; an `error` result alone
  is an `Option GoError` (`none` is `nil`).
* Every collaborator of the command package (guild store, activity catalog,
  Discord session) lives outside the package.  A collaborator is a function of
  the history of collaborator calls made so far, so its answers may change from
  one call to the next; every call is appended to the history together with
  its result.
* A run-time panic (nil dereference, index out of range) is an explicit
  outcome.
* The record of a group (active poll pointer, favorite, nomination pool) is
  read off the history: a successful write takes effect, every other call
  leaves the record as it is.
-/

namespace FlavorOfTheWeek

/-! ## Strings and errors -/

/-- A Go string: a sequence of bytes. -/
abbrev GoString := List UInt8

/-- The bytes (UTF-8) of a string literal of the source. -/
def lit (s : String) : GoString := s.data.flatMap String.utf8EncodeChar

/-- Modelled from the spec: the error types are declared outside src.  Go error
values, as far as the command package tells them apart: a `*discordgo.RESTError`
carries an HTTP status code, `fmt.Errorf` wraps a cause under a format string,
and every other error is an unanalysed value. -/
inductive GoError where
  | RESTError (StatusCode : Int)
  | Other (tag : Nat)
  | New (text : String)
  | Errorf (format : String) (cause : GoError)
  deriving DecidableEq, Repr

/-- Modelled from the spec: the constant `http.StatusNotFound` ("not found"),
declared outside src. -/
def StatusNotFound : Int := 404

/-! ## Discord data, as far as the package reads or writes it -/

/-- Modelled from the spec: the type `discordgo.PollMedia` (a display answer:
text and optional emoji), declared outside src; of the emoji only its name is
set. -/
structure PollMedia where
  Text : GoString
  Emoji : Option GoString
  deriving DecidableEq, Repr

/-- Modelled from the spec: the type `discordgo.PollAnswer`, declared outside
src; `Media` is a pointer. -/
structure PollAnswer where
  AnswerID : Int
  Media : Option PollMedia
  deriving DecidableEq, Repr

/-- Modelled from the spec: the type `discordgo.PollAnswerCount` (answer ID and
vote count), declared outside src. -/
structure PollAnswerCount where
  ID : Int
  Count : Int
  deriving DecidableEq, Repr

/-- Modelled from the spec: the type `discordgo.PollResults` (finalized flag
and answer counts), declared outside src; `AnswerCounts` is a slice of
pointers, `none` being the nil slice. -/
structure PollResults where
  Finalized : Bool
  AnswerCounts : Option (List (Option PollAnswerCount))
  deriving DecidableEq, Repr

/-- Modelled from the spec: the type `discordgo.Poll`, declared outside src;
`Results` is a pointer. -/
structure Poll where
  Question : PollMedia
  Answers : List PollAnswer
  AllowMultiselect : Bool
  LayoutType : Int
  Duration : Int
  Results : Option PollResults
  deriving DecidableEq, Repr

/-- Modelled from the spec: the type `discordgo.Message`, declared outside src;
`Poll` is a pointer. -/
structure Message where
  ID : GoString
  Poll : Option Poll
  deriving DecidableEq, Repr

/-- Modelled from the spec: the type `guild.PollInfo` (the active poll pointer:
channel ID and message ID), declared outside src. -/
structure PollInfo where
  ChannelID : GoString
  MessageID : GoString
  deriving DecidableEq, Repr

/-- Modelled from the spec: the type `discordgo.WebhookEdit` (a user-facing
text response) as built by `utils.NewWebhookEdit`, declared outside src. -/
structure WebhookEdit where
  Content : GoString
  deriving DecidableEq, Repr

/-- Modelled from the spec: the constant `discordgo.PollLayoutTypeDefault`,
declared outside src. -/
def PollLayoutTypeDefault : Int := 1

/-! ## Collaborators and the history of their calls -/

/-- One collaborator call together with its arguments and its result. -/
inductive Event where
  | GetGuild (guildID : GoString) (r : Option GoError)
  | GetPollChannel (guildID : GoString) (r : Except GoError (Option GoString))
  | GetActivePoll (guildID : GoString) (r : Except GoError (Option PollInfo))
  | SetActivePoll (guildID : GoString) (info : PollInfo) (r : Option GoError)
  | ClearActivePoll (guildID : GoString) (r : Option GoError)
  | GetFow (guildID : GoString) (r : Except GoError (Option GoString))
  | SetFow (guildID : GoString) (name : GoString) (r : Option GoError)
  | GetTopNominations (guildID : GoString) (limit : Int) (r : Except GoError (List GoString))
  | GetRandomActivities (guildID : GoString) (limit : Int) (r : Except GoError (List GoString))
  | RecoverActivity (guildID : GoString) (truncated : GoString) (r : Except GoError GoString)
  | ClearNominations (guildID : GoString) (r : Option GoError)
  | Discord (r : Option GoError)
  | ChannelMessageSendComplex (channelID : GoString) (poll : Poll) (r : Except GoError Message)
  | ChannelMessage (channelID : GoString) (messageID : GoString) (r : Except GoError Message)
  | PollExpire (channelID : GoString) (messageID : GoString) (r : Except GoError Message)

/-- The collaborator calls made so far, oldest first. -/
abbrev History := List Event

/-- Modelled from the spec: the collaborators reached through `guild`,
`activity` and the Discord session, none of them under src, taken as
parameters.  Each answers from the history of the calls made before it.
`backoffRetries` is the number of further attempts the exponential back-off
schedule (initial interval 750ms, 30s in all) allows after a failed first
attempt. -/
structure Clients where
  GetGuild : History → GoString → Option GoError
  GetPollChannel : History → GoString → Except GoError (Option GoString)
  GetActivePoll : History → GoString → Except GoError (Option PollInfo)
  SetActivePoll : History → GoString → PollInfo → Option GoError
  ClearActivePoll : History → GoString → Option GoError
  GetFow : History → GoString → Except GoError (Option GoString)
  SetFow : History → GoString → GoString → Option GoError
  GetTopNominations : History → GoString → Int → Except GoError (List GoString)
  GetRandomActivities : History → GoString → Int → Except GoError (List GoString)
  RecoverActivity : History → GoString → GoString → Except GoError GoString
  ClearNominations : History → GoString → Option GoError
  Discord : History → Option GoError
  ChannelMessageSendComplex : History → GoString → Poll → Except GoError Message
  ChannelMessage : History → GoString → GoString → Except GoError Message
  PollExpire : History → GoString → GoString → Except GoError Message
  backoffRetries : Nat

/-! ## Name truncation and recovery -/

/-- The function `truncateActivityName`. -/
def truncateActivityName (name : GoString) : GoString :=
  if name.length > 55 then
    name.take 52 ++ lit "..."
  else
    name

/-- The function `recoverTruncatedActivity`: the result and the history
extended by the calls made. -/
def recoverTruncatedActivity (cl : Clients) (name guildID : GoString) (h : History) :
    Except GoError GoString × History :=
  if name.length = 55 ∧ name.drop 52 = lit "..." then
    let r := cl.RecoverActivity h guildID (name.take 52)
    let h1 := h ++ [Event.RecoverActivity guildID (name.take 52) r]
    match r with
    | .error err => (.error (.Errorf "RecoverActivity: %v" err), h1)
    | .ok fullName => (.ok fullName, h1)
  else
    (.ok name, h)

/-! ## Candidate-set generation -/

/-- The constant `MAX_POLL_ENTRIES`. -/
def MAX_POLL_ENTRIES : Int := 7

/-- Modelled from the spec: the type `orderedmap.OrderedMap[string, int]` of the
orderedmap library, not under src (an insertion-order-preserving map with
integer values): the key/value pairs in insertion order, each key once. -/
abbrev OrderedMap := List (GoString × Int)

/-- Modelled from the spec: the method `OrderedMap.Len` of the orderedmap
library. -/
def OrderedMap.Len (m : OrderedMap) : Int := m.length

/-- Modelled from the spec: the method `OrderedMap.GetOrDefault` of the
orderedmap library: the value stored under the key, or the default when the
key is absent. -/
def OrderedMap.GetOrDefault (m : OrderedMap) (key : GoString) (defaultValue : Int) : Int :=
  match m.lookup key with
  | some v => v
  | none => defaultValue

/-- Modelled from the spec: the method `OrderedMap.Set` of the orderedmap
library: a key already present keeps its place and takes the new value; a new
key is appended at the back. -/
def OrderedMap.Set : OrderedMap → GoString → Int → OrderedMap
  | [], key, value => [(key, value)]
  | (k, v) :: rest, key, value =>
    if k = key then (key, value) :: rest else (k, v) :: OrderedMap.Set rest key value

/-- The loops `for _, nom := range names { answers.Set(nom, answers.GetOrDefault(nom, 0)+1) }`
of `GeneratePollEntries` (one over the nominations, one over each random draw). -/
def mergeNames (answers : OrderedMap) (names : List GoString) : OrderedMap :=
  names.foldl
    (fun acc nom => OrderedMap.Set acc nom (OrderedMap.GetOrDefault acc nom 0 + 1)) answers

/-- The scan `for el := answers.Back(); el != nil; el = el.Prev()` of
`GeneratePollEntries`: whether some element has a value above 5 (`break out`). -/
def repeating (answers : OrderedMap) : Bool :=
  answers.reverse.any (fun el => decide (el.2 > 5))

/-- The loop labelled `out` of `GeneratePollEntries`, entered with
`loop_count = 5 - remaining`: the map it leaves, or the error it returns. -/
def fallbackRounds (cl : Clients) (guildID : GoString) :
    Nat → OrderedMap → History → Except GoError OrderedMap × History
  | 0, answers, h => (.ok answers, h)
  | remaining + 1, answers, h =>
    if OrderedMap.Len answers < MAX_POLL_ENTRIES then
      let limit := MAX_POLL_ENTRIES - OrderedMap.Len answers
      let r := cl.GetRandomActivities h guildID limit
      let h1 := h ++ [Event.GetRandomActivities guildID limit r]
      match r with
      | .error err => (.error (.Errorf "GetRandomActivities: %v" err), h1)
      | .ok randomsChoices =>
        let answers1 := mergeNames answers randomsChoices
        if repeating answers1 then
          (.ok answers1, h1)
        else
          fallbackRounds cl guildID remaining answers1 h1
    else
      (.ok answers, h)

/-- The first part of `GeneratePollEntries` (up to the end of the loop `out`):
the ordered map `answers` it assembles, or the error it returns. -/
def collectAnswers (cl : Clients) (guildID : GoString) (h : History) :
    Except GoError OrderedMap × History :=
  let answers : OrderedMap := []
  let rf := cl.GetFow h guildID
  let h1 := h ++ [Event.GetFow guildID rf]
  match rf with
  | .error err => (.error (.Errorf "GetFow: %v" err), h1)
  | .ok fow =>
    let answers1 : OrderedMap :=
      match fow with
      | some f => OrderedMap.Set answers f 1
      | none => answers
    let limit := MAX_POLL_ENTRIES - OrderedMap.Len answers1
    let rn := cl.GetTopNominations h1 guildID limit
    let h2 := h1 ++ [Event.GetTopNominations guildID limit rn]
    match rn with
    | .error err => (.error (.Errorf "GetTopNominations: %v" err), h2)
    | .ok nominations =>
      let answers2 := mergeNames answers1 nominations
      fallbackRounds cl guildID 5 answers2 h2

/-- The fixed last answer of every poll. -/
def rerollAnswer : PollAnswer :=
  { AnswerID := 0, Media := some { Text := lit "Reroll", Emoji := some (lit "🎲") } }

/-- The last part of `GeneratePollEntries`: one answer per element of the map,
front to back, then the "Reroll" answer. -/
def renderEntries (answers : OrderedMap) : List PollAnswer :=
  answers.map
      (fun el => { AnswerID := 0, Media := some { Text := truncateActivityName el.1, Emoji := none } })
    ++ [rerollAnswer]

/-- The function `GeneratePollEntries`; the guild handle is its guild ID. -/
def GeneratePollEntries (cl : Clients) (guildID : GoString) (h : History) :
    Except GoError (List PollAnswer) × History :=
  let r := collectAnswers cl guildID h
  match r.1 with
  | .error err => (.error err, r.2)
  | .ok answers => (.ok (renderEntries answers), r.2)

/-! ## Winner determination -/

/-- Modelled from the spec: the function `cmp.Compare` of the Go standard
library on `int`: -1, 0 or +1. -/
def cmpCompare (x y : Int) : Int :=
  if x < y then -1 else if x > y then 1 else 0

/-- The comparison function `determinePollWinner` sorts by: nil entries last,
the others by descending count. -/
def answerCountCmp (a b : Option PollAnswerCount) : Int :=
  match a, b with
  | none, some _ => 1
  | some _, none => -1
  | none, none => 0
  | some x, some y => -cmpCompare x.Count y.Count

/-- Modelled from the spec: the type of `slices.SortFunc` of the Go standard
library at `[]*discordgo.PollAnswerCount`; the sort is taken as a parameter. -/
abbrev SortFunc :=
  (Option PollAnswerCount → Option PollAnswerCount → Int) →
    List (Option PollAnswerCount) → List (Option PollAnswerCount)

/-- Modelled from the spec: the contract of `slices.SortFunc` for the comparison
of `determinePollWinner`:
the result is a rearrangement of the slice in which no element compares greater
than a later one.  The sort is not stable, so the order of elements that
compare equal is left open. -/
def SortFunc.Sorts (sortFunc : SortFunc) : Prop :=
  ∀ l, (sortFunc answerCountCmp l).Perm l ∧
    (sortFunc answerCountCmp l).Pairwise (fun a b => answerCountCmp a b ≤ 0)

/-- A sort meeting the contract: insertion sort. -/
def insertionSortFunc : SortFunc :=
  fun c l => l.insertionSort (fun a b => c a b ≤ 0)

/-- The last two lines of `determinePollWinner`: the text of the first answer
whose ID is that of the top entry.  A nil top entry, an ID no answer has
(index -1) and an answer without media panic (`none`). -/
def winnerText (poll : Poll) (top : Option PollAnswerCount) : Option (GoString × Bool) :=
  match top with
  | none => none
  | some t =>
    match poll.Answers.find? (fun a => decide (a.AnswerID = t.ID)) with
    | none => none
    | some a =>
      match a.Media with
      | none => none
      | some media => some (media.Text, false)

/-- The function `determinePollWinner`: `some (winner, tie)`, or `none` when it
panics. -/
def determinePollWinner (sortFunc : SortFunc) (poll : Poll) : Option (GoString × Bool) :=
  match poll.Results with
  | none => none
  | some results =>
    match sortFunc answerCountCmp (results.AnswerCounts.getD []) with
    | [] => some (lit "", true)
    | [top] => winnerText poll top
    | top :: second :: _ =>
      match top, second with
      | some t, some s => if t.Count = s.Count then some (lit "", true) else winnerText poll top
      | _, _ => none

/-! ## The start and end commands -/

/-- What a command's `Execute` does: it returns a response and an error (either
may be nil), or it panics. -/
inductive Outcome where
  | Return (response : Option WebhookEdit) (err : Option GoError)
  | Panic
  deriving DecidableEq, Repr

/-- Modelled from the spec: the function `utils.NewWebhookEdit`, not under
src: a response with the given text. -/
def NewWebhookEdit (content : GoString) : WebhookEdit := { Content := content }

/-- The type `StartPollCommand`. -/
structure StartPollCommand where
  GuildID : GoString
  skipActivePollCheck : Bool
  deriving DecidableEq, Repr

/-- The function `NewStartPollCommand`. -/
def NewStartPollCommand (guildID : GoString) : StartPollCommand :=
  { GuildID := guildID, skipActivePollCheck := false }

/-- The method `StartPollCommand.SkipActivePollCheck`. -/
def StartPollCommand.SkipActivePollCheck (c : StartPollCommand) (skip : Bool) : StartPollCommand :=
  { c with skipActivePollCheck := skip }

/-- The poll `StartPollCommand.Execute` sends to the poll channel. -/
def newPoll (entries : List PollAnswer) : Poll :=
  { Question := { Text := lit "What should the flavor of the week be?", Emoji := none }
    Answers := entries
    AllowMultiselect := true
    LayoutType := PollLayoutTypeDefault
    Duration := 48
    Results := none }

/-- The link `https://discord.com/channels/%v/%v/%v` of `StartPollCommand.Execute`. -/
def msgLink (guildID chanID msgID : GoString) : GoString :=
  lit "https://discord.com/channels/" ++ guildID ++ lit "/" ++ chanID ++ lit "/" ++ msgID

/-- The method `StartPollCommand.Execute`. -/
def StartPollCommand.Execute (c : StartPollCommand) (cl : Clients) (h : History) :
    Outcome × History :=
  let rg := cl.GetGuild h c.GuildID
  let h1 := h ++ [Event.GetGuild c.GuildID rg]
  match rg with
  | some err => (.Return none (some (.Errorf "GetGuild: %v" err)), h1)
  | none =>
    let rc := cl.GetPollChannel h1 c.GuildID
    let h2 := h1 ++ [Event.GetPollChannel c.GuildID rc]
    match rc with
    | .error err => (.Return none (some (.Errorf "GetPollChannel: %v" err)), h2)
    | .ok none =>
      (.Return (some (NewWebhookEdit (lit "The poll channel has not been set"))) none, h2)
    | .ok (some chanID) =>
      let rp := cl.GetActivePoll h2 c.GuildID
      let h3 := h2 ++ [Event.GetActivePoll c.GuildID rp]
      match rp with
      | .error err => (.Return none (some (.Errorf "GetActivePollID: %v" err)), h3)
      | .ok pollID =>
        if !c.skipActivePollCheck && pollID.isSome then
          (.Return (some (NewWebhookEdit (lit "There is already an active poll"))) none, h3)
        else
          let rd := cl.Discord h3
          let h4 := h3 ++ [Event.Discord rd]
          match rd with
          | some err => (.Return none (some (.Errorf "Discord: %v" err)), h4)
          | none =>
            let rg := GeneratePollEntries cl c.GuildID h4
            match rg.1 with
            | .error err =>
              (.Return none (some (.Errorf "GeneratePollEntries: %v" err)), rg.2)
            | .ok entries =>
              let rm := cl.ChannelMessageSendComplex rg.2 chanID (newPoll entries)
              let h6 := rg.2 ++ [Event.ChannelMessageSendComplex chanID (newPoll entries) rm]
              match rm with
              | .error err =>
                (.Return none (some (.Errorf "ChannelMessageSendComplex: %v" err)), h6)
              | .ok msg =>
                let info : PollInfo := { ChannelID := chanID, MessageID := msg.ID }
                let rs := cl.SetActivePoll h6 c.GuildID info
                let h7 := h6 ++ [Event.SetActivePoll c.GuildID info rs]
                match rs with
                | some err => (.Return none (some (.Errorf "SetActivePoll: %v" err)), h7)
                | none =>
                  (.Return (some (NewWebhookEdit
                      (lit "Poll created: " ++ msgLink c.GuildID chanID msg.ID))) none, h7)

/-- The type `EndPollCommand`. -/
structure EndPollCommand where
  GuildID : GoString
  deriving DecidableEq, Repr

/-- The function `NewEndPollCommand`. -/
def NewEndPollCommand (guildID : GoString) : EndPollCommand := { GuildID := guildID }

/-- The test `Results == nil || !Results.Finalized || Results.AnswerCounts == nil`
of `EndPollCommand.Execute`. -/
def notFinalized (poll : Poll) : Bool :=
  match poll.Results with
  | none => true
  | some results => !results.Finalized || results.AnswerCounts.isNone

/-- The closure `waitForResults` of `EndPollCommand.Execute`: one more fetch of
the message; the message it leaves in `msg` when it returns nil. -/
def waitForResults (cl : Clients) (pollID : PollInfo) (h : History) :
    Except GoError Message × History :=
  let r := cl.ChannelMessage h pollID.ChannelID pollID.MessageID
  let h1 := h ++ [Event.ChannelMessage pollID.ChannelID pollID.MessageID r]
  match r with
  | .error err => (.error (.Errorf "ChannelMessage: %v" err), h1)
  | .ok msg =>
    match msg.Poll with
    | none => (.error (.New "ChannelMessage: <nil>"), h1)
    | some poll =>
      if notFinalized poll then (.error (.New "Poll not finalized"), h1) else (.ok msg, h1)

/-- Modelled from the spec: the call `backoff.Retry(waitForResults, ...)` of the
backoff library: the closure is run once and, while it fails, again for as
many times as the schedule allows; the error is that of the last attempt. -/
def backoffRetry (cl : Clients) (pollID : PollInfo) :
    Nat → History → Except GoError Message × History
  | 0, h => waitForResults cl pollID h
  | retries + 1, h =>
    let r := waitForResults cl pollID h
    match r.1 with
    | .ok msg => (.ok msg, r.2)
    | .error _ => backoffRetry cl pollID retries r.2

/-- The block of `EndPollCommand.Execute` run when the poll fetched is not
finalized: expire the poll, wait for its results, check them again.  The poll
handed on, or the outcome returned before that. -/
def expireAndWait (cl : Clients) (pollID : PollInfo) (h : History) :
    (Outcome ⊕ Poll) × History :=
  let re := cl.PollExpire h pollID.ChannelID pollID.MessageID
  let h1 := h ++ [Event.PollExpire pollID.ChannelID pollID.MessageID re]
  match re with
  | .error err =>
    (.inl (.Return (some (NewWebhookEdit (lit "⚠️ Unable to end the poll")))
      (some (.Errorf "PollExpire: %v" err))), h1)
  | .ok _ =>
    let rb := backoffRetry cl pollID cl.backoffRetries h1
    match rb.1 with
    | .error err =>
      (.inl (.Return (some (NewWebhookEdit (lit "Failed to end the poll")))
        (some (.Errorf "waitForResults: %v" err))), rb.2)
    | .ok msg =>
      match msg.Poll with
      | none => (.inl .Panic, rb.2)
      | some poll =>
        if notFinalized poll then
          (.inl (.Return
            (some (NewWebhookEdit (lit "Failed to get the poll results"))) none), rb.2)
        else
          (.inr poll, rb.2)

/-- The first part of `EndPollCommand.Execute` (up to the call of
`determinePollWinner`): the poll handed to `determinePollWinner`, or the
outcome returned before that. -/
def fetchFinalizedPoll (c : EndPollCommand) (cl : Clients) (h : History) :
    (Outcome ⊕ Poll) × History :=
  let rg := cl.GetGuild h c.GuildID
  let h1 := h ++ [Event.GetGuild c.GuildID rg]
  match rg with
  | some err => (.inl (.Return none (some (.Errorf "GetGuild: %v" err))), h1)
  | none =>
    let rp := cl.GetActivePoll h1 c.GuildID
    let h2 := h1 ++ [Event.GetActivePoll c.GuildID rp]
    match rp with
    | .error err => (.inl (.Return none (some (.Errorf "GetActivePollID: %v" err))), h2)
    | .ok none =>
      (.inl (.Return (some (NewWebhookEdit (lit "There is no active poll to end"))) none), h2)
    | .ok (some pollID) =>
      let rd := cl.Discord h2
      let h3 := h2 ++ [Event.Discord rd]
      match rd with
      | some err => (.inl (.Return none (some (.Errorf "Discord: %v" err))), h3)
      | none =>
        let rm := cl.ChannelMessage h3 pollID.ChannelID pollID.MessageID
        let h4 := h3 ++ [Event.ChannelMessage pollID.ChannelID pollID.MessageID rm]
        match rm with
        | .error err =>
          let unable := some (NewWebhookEdit (lit "⚠️ Unable to retrieve the poll"))
          match err with
          | .RESTError status =>
            if status = StatusNotFound then
              let rc := cl.ClearActivePoll h4 c.GuildID
              let h5 := h4 ++ [Event.ClearActivePoll c.GuildID rc]
              match rc with
              | some err1 => (.inl (.Return none (some (.Errorf "ClearActivePoll: %v" err1))), h5)
              | none => (.inl (.Return unable (some (.Errorf "ChannelMessage: %v" err))), h5)
            else
              (.inl (.Return unable (some (.Errorf "ChannelMessage: %v" err))), h4)
          | _ => (.inl (.Return unable (some (.Errorf "ChannelMessage: %v" err))), h4)
        | .ok msg =>
          match msg.Poll with
          | none =>
            (.inl (.Return (some (NewWebhookEdit (lit "⚠️ No poll associated with the message")))
              (some (.New "Missing poll"))), h4)
          | some poll =>
            if notFinalized poll then
              expireAndWait cl pollID h4
            else
              (.inr poll, h4)

/-- The last statements of `EndPollCommand.Execute`, shared by the tie and the
winner paths: clear the active poll, clear the nominations, return the
response. -/
def finishEndPoll (c : EndPollCommand) (cl : Clients) (response : WebhookEdit) (h : History) :
    Outcome × History :=
  let rc := cl.ClearActivePoll h c.GuildID
  let h1 := h ++ [Event.ClearActivePoll c.GuildID rc]
  match rc with
  | some err => (.Return none (some (.Errorf "ClearActivePoll: %v" err)), h1)
  | none =>
    let rn := cl.ClearNominations h1 c.GuildID
    let h2 := h1 ++ [Event.ClearNominations c.GuildID rn]
    match rn with
    | some err => (.Return none (some (.Errorf "ClearNominations: %v" err)), h2)
    | none => (.Return (some response) none, h2)

/-- The method `EndPollCommand.Execute`. -/
def EndPollCommand.Execute (sortFunc : SortFunc) (c : EndPollCommand) (cl : Clients)
    (h : History) : Outcome × History :=
  let rf := fetchFinalizedPoll c cl h
  match rf.1 with
  | .inl outcome => (outcome, rf.2)
  | .inr poll =>
    match determinePollWinner sortFunc poll with
    | none => (.Panic, rf.2)
    | some (winner, tie) =>
      if tie then
        finishEndPoll c cl (NewWebhookEdit (lit "Ended the poll with a tie")) rf.2
      else if winner = lit "Reroll" then
        let pollCmd := (NewStartPollCommand c.GuildID).SkipActivePollCheck true
        pollCmd.Execute cl rf.2
      else
        let rr := recoverTruncatedActivity cl winner c.GuildID rf.2
        match rr.1 with
        | .error err =>
          (.Return none (some (.Errorf "recoverTruncatedActivity: %v" err)), rr.2)
        | .ok winner1 =>
          let rs := cl.SetFow rr.2 c.GuildID winner1
          let h3 := rr.2 ++ [Event.SetFow c.GuildID winner1 rs]
          match rs with
          | some err => (.Return none (some (.Errorf "SetFow: %v" err)), h3)
          | none =>
            finishEndPoll c cl
              (NewWebhookEdit (lit "Poll ended\nWinner: " ++ winner1)) h3

/-! ## Notions used to state the properties -/

/-- The names a collaborator call handed to `GeneratePollEntries`: the favorite
read, the nominations returned, the random activities returned. -/
def Event.names : Event → List GoString
  | .GetFow _ (.ok (some fow)) => [fow]
  | .GetTopNominations _ _ (.ok nominations) => nominations
  | .GetRandomActivities _ _ (.ok randomsChoices) => randomsChoices
  | _ => []

/-- The names handed to `GeneratePollEntries` over a stretch of history, in the
order received. -/
def fetchedNames (evs : History) : List GoString := evs.flatMap Event.names

/-- Whether the call is one of the three fetches of `GeneratePollEntries`. -/
def Event.isFetch : Event → Bool
  | .GetFow _ _ => true
  | .GetTopNominations _ _ _ => true
  | .GetRandomActivities _ _ _ => true
  | _ => false

/-- Whether the call is a request for random activities. -/
def Event.isRandomRequest : Event → Bool
  | .GetRandomActivities _ _ _ => true
  | _ => false

/-- Whether the call is a write of the favorite. -/
def Event.isSetFow : Event → Bool
  | .SetFow _ _ _ => true
  | _ => false

/-- Whether the collaborator call returned an error. -/
def Event.failed : Event → Bool
  | .GetGuild _ r => r.isSome
  | .GetPollChannel _ r => !r.toBool
  | .GetActivePoll _ r => !r.toBool
  | .SetActivePoll _ _ r => r.isSome
  | .ClearActivePoll _ r => r.isSome
  | .GetFow _ r => !r.toBool
  | .SetFow _ _ r => r.isSome
  | .GetTopNominations _ _ r => !r.toBool
  | .GetRandomActivities _ _ r => !r.toBool
  | .RecoverActivity _ _ r => !r.toBool
  | .ClearNominations _ r => r.isSome
  | .Discord r => r.isSome
  | .ChannelMessageSendComplex _ _ r => !r.toBool
  | .ChannelMessage _ _ r => !r.toBool
  | .PollExpire _ _ r => !r.toBool

/-- The nomination and catalog sources never return more names than the limit
they are asked for (a limit is never negative). -/
def RespectsLimit (cl : Clients) : Prop :=
  (∀ h g limit l, 0 ≤ limit → cl.GetTopNominations h g limit = .ok l →
    (l.length : Int) ≤ limit) ∧
  (∀ h g limit l, 0 ≤ limit → cl.GetRandomActivities h g limit = .ok l →
    (l.length : Int) ≤ limit)

/-- The distinct names of a sequence, in order of first occurrence. -/
def firstOccurrences : List GoString → List GoString
  | [] => []
  | a :: l => a :: (firstOccurrences l).filter (fun x => decide (x ≠ a))

/-- The candidate set a sequence of names stands for: each distinct name, in
order of first occurrence, weighted by the number of times it occurs. -/
def tally (names : List GoString) : OrderedMap :=
  (firstOccurrences names).map (fun n => (n, (names.count n : Int)))

/-- The two largest of a list of vote counts are equal: the largest value is
there at least twice. -/
def TopTwoEqual (counts : List Int) : Prop :=
  ∃ m ∈ counts, (∀ c ∈ counts, c ≤ m) ∧ 2 ≤ counts.count m

/-- Whether `determinePollWinner` reported a tie. -/
def reportsTie (r : Option (GoString × Bool)) : Prop :=
  ∃ winner, r = some (winner, true)

/-- The texts of a list of poll answers (an answer without media has none). -/
def answerTexts (entries : List PollAnswer) : List (Option GoString) :=
  entries.map (fun a => a.Media.map (fun m => m.Text))

/-! ## Example collaborators -/

/-- Collaborators of a group with nothing stored: no poll channel, no active
poll, no favorite, no nominations, an empty catalog; every call succeeds. -/
def emptyPool : Clients :=
  { GetGuild := fun _ _ => none
    GetPollChannel := fun _ _ => .ok none
    GetActivePoll := fun _ _ => .ok none
    SetActivePoll := fun _ _ _ => none
    ClearActivePoll := fun _ _ => none
    GetFow := fun _ _ => .ok none
    SetFow := fun _ _ _ => none
    GetTopNominations := fun _ _ _ => .ok []
    GetRandomActivities := fun _ _ _ => .ok []
    RecoverActivity := fun _ _ truncated => .ok truncated
    ClearNominations := fun _ _ => none
    Discord := fun _ => none
    ChannelMessageSendComplex := fun _ _ poll => .ok { ID := lit "1", Poll := some poll }
    ChannelMessage := fun _ _ _ => .error (.RESTError StatusNotFound)
    PollExpire := fun _ _ _ => .error (.RESTError StatusNotFound)
    backoffRetries := 0 }

/-- Collaborators whose nomination and catalog sources always return the same
single name; there is no favorite. -/
def singleName (x : GoString) : Clients :=
  { emptyPool with
    GetTopNominations := fun _ _ _ => .ok [x]
    GetRandomActivities := fun _ _ _ => .ok [x] }

/-- Collaborators of the scenario: favorite "Chess", top nominations "Go" and
"Chess" (cut to the limit asked for), nothing further from the catalog. -/
def chessGo : Clients :=
  { emptyPool with
    GetFow := fun _ _ => .ok (some (lit "Chess"))
    GetTopNominations := fun _ _ limit => .ok ([lit "Go", lit "Chess"].take limit.toNat) }

/-- Collaborators whose catalog fails on every request for random activities. -/
def failingCatalog : Clients :=
  { emptyPool with GetRandomActivities := fun _ _ _ => .error (.Other 0) }

/-- A nomination source that ignores the limit and returns nine names. -/
def overfull : Clients :=
  { emptyPool with
    GetTopNominations := fun _ _ _ => .ok ((List.range 9).map (fun i => [UInt8.ofNat (65 + i)])) }

/-- A name of 56 bytes. -/
def longName : GoString := List.replicate 56 65

/-- A poll with one answer per text (answer IDs 1, 2, ...) and the given vote
counts, listed by answer ID, as its finalized results. -/
def pollWith (texts : List GoString) (counts : List (Int × Int)) : Poll :=
  { newPoll ((List.range texts.length).zipWith
      (fun i t => { AnswerID := (i : Int) + 1, Media := some { Text := t, Emoji := none } }) texts) with
    Results := some
      { Finalized := true
        AnswerCounts := some (counts.map (fun c => some { ID := c.1, Count := c.2 })) } }

/-- The outcome of `determinePollWinner` read off its sorted entries when none
of them is nil. -/
def verdict (poll : Poll) : List PollAnswerCount → Option (GoString × Bool)
  | [] => some (lit "", true)
  | [top] => winnerText poll (some top)
  | top :: second :: _ =>
    if top.Count = second.Count then some (lit "", true) else winnerText poll (some top)

/-- The history `h'` continues the history `h` by calls that all satisfy `p`. -/
def ExtendsBy (p : Event → Bool) (h h' : History) : Prop :=
  ∃ evs : History, h' = h ++ evs ∧ ∀ e ∈ evs, p e = true

/-- Collaborators of a group whose active poll has finalized results in which
the "Reroll" answer (ID 2) has the most votes; a poll channel is set. -/
def rerollWins : Clients :=
  { emptyPool with
    GetPollChannel := fun _ _ => .ok (some (lit "c"))
    GetActivePoll := fun _ _ => .ok (some { ChannelID := lit "c", MessageID := lit "0" })
    ChannelMessage := fun _ _ _ =>
      .ok { ID := lit "0", Poll := some (pollWith [lit "Chess", lit "Reroll"] [(1, 1), (2, 4)]) } }

/-! ## The record of a group, read off the history -/

/-- Modelled from the spec: the persisted record of a group, kept by the guild
store and the nomination source (neither is under src): the active poll
pointer, the favorite and the nomination pool. -/
structure GroupState where
  activePoll : Option PollInfo
  favorite : Option GoString
  nominations : List GoString
  deriving DecidableEq, Repr

/-- Modelled from the spec: what a collaborator call does to the record of the
group `guildID`: a successful write by that group takes effect; a failed
write, a write by another group and every other call leave the record as it
is. -/
def GroupState.apply (guildID : GoString) (s : GroupState) : Event → GroupState
  | .SetActivePoll g info none => if g = guildID then { s with activePoll := some info } else s
  | .ClearActivePoll g none => if g = guildID then { s with activePoll := none } else s
  | .SetFow g name none => if g = guildID then { s with favorite := some name } else s
  | .ClearNominations g none => if g = guildID then { s with nominations := [] } else s
  | _ => s

/-- The record of the group after a stretch of history. -/
def GroupState.replay (guildID : GoString) (s : GroupState) (evs : History) : GroupState :=
  evs.foldl (GroupState.apply guildID) s

/-- Whether the call is a write to the record of a group. -/
def Event.isWrite : Event → Bool
  | .SetActivePoll _ _ _ => true
  | .ClearActivePoll _ _ => true
  | .SetFow _ _ _ => true
  | .ClearNominations _ _ => true
  | _ => false

/-- Whether the call creates or expires a poll. -/
def Event.isPollAction : Event → Bool
  | .ChannelMessageSendComplex _ _ _ => true
  | .PollExpire _ _ _ => true
  | _ => false

/-- Whether the call is a request to the catalog to recover a name. -/
def Event.isRecover : Event → Bool
  | .RecoverActivity _ _ _ => true
  | _ => false

/-- The calls made after the history `h` in a run that ended with history `h'`. -/
def callsSince (h h' : History) : History := h'.drop h.length

/-- The property `ExtendsBy p h` of the runs of the first part of
`EndPollCommand.Execute` that hand on a poll. -/
def ExtendsWhenPoll (p : Event → Bool) (h : History) (r : (Outcome ⊕ Poll) × History) : Prop :=
  match r.1 with
  | .inl _ => True
  | .inr _ => ExtendsBy p h r.2

/-- Collaborators of a group with an active poll in channel "c" whose fetched
message carries the given poll; a poll channel is set and every call succeeds. -/
def withPoll (poll : Poll) : Clients :=
  { emptyPool with
    GetPollChannel := fun _ _ => .ok (some (lit "c"))
    GetActivePoll := fun _ _ => .ok (some { ChannelID := lit "c", MessageID := lit "0" })
    ChannelMessage := fun _ _ _ => .ok { ID := lit "0", Poll := some poll } }

/-- A record of a group: an active poll, the favorite "Go", two nominations. -/
def sampleState : GroupState :=
  { activePoll := some { ChannelID := lit "c", MessageID := lit "0" }
    favorite := some (lit "Go")
    nominations := [lit "Chess", lit "Go"] }

/-- The truncation of a name of 56 bytes: 52 bytes and "...". -/
def truncatedName : GoString := truncateActivityName longName

/-- Collaborators of a group whose active poll carries the given poll and whose
catalog cannot recover any name. -/
def lostName (poll : Poll) : Clients :=
  { withPoll poll with RecoverActivity := fun _ _ _ => .error (.Other 7) }

/-- Collaborators of a group whose active poll pointer names a message that
Discord reports as not found; every other call succeeds. -/
def stalePointer : Clients :=
  { emptyPool with
    GetActivePoll := fun _ _ => .ok (some { ChannelID := lit "c", MessageID := lit "0" }) }

/-- Collaborators of a group with such a stale pointer whose store fails to
clear the active poll. -/
def brokenStore : Clients :=
  { stalePointer with ClearActivePoll := fun _ _ => some (.Other 1) }

/-- Collaborators of a group with an active poll whose message cannot be
fetched for another reason than "not found" (status 500). -/
def serverError : Clients :=
  { stalePointer with ChannelMessage := fun _ _ _ => .error (.RESTError 500) }

/-- The response of `EndPollCommand.Execute` when the poll message cannot be
fetched. -/
def unableToRetrieve : WebhookEdit := NewWebhookEdit (lit "⚠️ Unable to retrieve the poll")

/-- A run that ends in an informational response: the response with the given
text and no error, after calls that neither write to the record of a group nor
create or expire a poll, so that the record of the group is as before. -/
def SoftResponse (guildID : GoString) (h : History) (r : Outcome × History)
    (text : GoString) : Prop :=
  r.1 = .Return (some (NewWebhookEdit text)) none ∧
    ExtendsBy (fun e => !e.isWrite && !e.isPollAction) h r.2 ∧
    ∀ s : GroupState, GroupState.replay guildID s (callsSince h r.2) = s

/-- Collaborators of a group with a poll channel and an active poll; every
call succeeds. -/
def activeGroup : Clients :=
  { emptyPool with
    GetPollChannel := fun _ _ => .ok (some (lit "c"))
    GetActivePoll := fun _ _ => .ok (some { ChannelID := lit "c", MessageID := lit "0" }) }

/-- Collaborators of a group with a poll channel "c" and no active poll; every
call succeeds and the message created has ID "1". -/
def readyGroup : Clients :=
  { emptyPool with GetPollChannel := fun _ _ => .ok (some (lit "c")) }

/-- Collaborators of such a group when Discord refuses to create the poll. -/
def noPermission : Clients :=
  { readyGroup with ChannelMessageSendComplex := fun _ _ _ => .error (.RESTError 403) }

/-- A record of a group without an active poll: the favorite "Go", one
nomination. -/
def idleState : GroupState :=
  { activePoll := none, favorite := some (lit "Go"), nominations := [lit "Chess"] }

/-- A name of exactly 55 bytes that ends in "...". -/
def dottedName : GoString := List.replicate 52 65 ++ lit "..."

/-- No response of the nomination or catalog source lists the same name twice. -/
def NoRepeats (cl : Clients) : Prop :=
  (∀ h g limit l, cl.GetTopNominations h g limit = .ok l → l.Nodup) ∧
  (∀ h g limit l, cl.GetRandomActivities h g limit = .ok l → l.Nodup)

/-! ## Characters, as opposed to bytes -/

/-- Whether the byte is a continuation byte of a UTF-8 character (10xxxxxx). -/
def isContinuation (b : UInt8) : Bool := decide (128 ≤ b.toNat ∧ b.toNat < 192)

/-- The number of characters of a string: its bytes that do not continue a
character. -/
def charCount (s : GoString) : Nat := s.countP (fun b => !isContinuation b)

/-- A name of 28 characters and 56 bytes: 28 times "é". -/
def accentedName : GoString := lit "éééééééééééééééééééééééééééé"

/-- Collaborators of a group whose favorite is "Go" and whose nomination and
catalog sources always return the single name "Go". -/
def goEverywhere : Clients :=
  { emptyPool with
    GetFow := fun _ _ => .ok (some (lit "Go"))
    GetTopNominations := fun _ _ _ => .ok [lit "Go"]
    GetRandomActivities := fun _ _ _ => .ok [lit "Go"] }

/-! # Properties -/

/-! ## Name truncation and recovery -/

theorem lit_dots : lit "..." = [46, 46, 46] := by decide

theorem lit_dots_length : (lit "...").length = 3 := by decide

/-- C1, refuted as stated: the name of 28 times "é" has 28 characters, at most
55, yet `truncateActivityName` does not return it unchanged: its 56 bytes are
cut to the first 52 bytes and "...", which is 29 characters, not the first 52
characters of the name. -/
theorem truncateActivityName_characters_counterexample :
    charCount accentedName = 28 ∧ accentedName.length = 56 ∧
      truncateActivityName accentedName ≠ accentedName ∧
      truncateActivityName accentedName = accentedName.take 52 ++ lit "..." ∧
      charCount (truncateActivityName accentedName) = 29 := by
  refine ⟨by decide, by decide, by decide, by decide, by decide⟩

/-- C1, amended (lengths and positions in bytes): `truncateActivityName` leaves a
name of at most 55 bytes unchanged; a longer name becomes its first 52 bytes
followed by "...", which has length exactly 55 bytes and ends in "..."; so the
output never has more than 55 bytes. -/
theorem truncateActivityName_spec (name : GoString) :
    (name.length ≤ 55 → truncateActivityName name = name) ∧
    (name.length > 55 →
      truncateActivityName name = name.take 52 ++ lit "..." ∧
      (truncateActivityName name).length = 55 ∧
      lit "..." <:+ truncateActivityName name) ∧
    (truncateActivityName name).length ≤ 55 := by
  refine ⟨?_, ?_, ?_⟩
  · intro hle
    simp [truncateActivityName, Nat.not_lt.mpr hle]
  · intro hgt
    have hT : truncateActivityName name = name.take 52 ++ lit "..." := by
      simp [truncateActivityName, hgt]
    refine ⟨hT, ?_, ?_⟩
    · rw [hT, List.length_append, List.length_take, lit_dots_length]
      omega
    · rw [hT]
      exact List.suffix_append _ _
  · by_cases hgt : name.length > 55
    · have hT : truncateActivityName name = name.take 52 ++ lit "..." := by
        simp [truncateActivityName, hgt]
      rw [hT, List.length_append, List.length_take, lit_dots_length]
      omega
    · simp only [truncateActivityName, hgt, if_false]
      omega

/-- C1 (amended) at a name of 56 bytes: the output is the first 52 bytes and
"...". -/
theorem truncateActivityName_spec_witness :
    truncateActivityName longName = longName.take 52 ++ lit "..." ∧
      (truncateActivityName longName).length = 55 ∧
      lit "..." <:+ truncateActivityName longName :=
  (truncateActivityName_spec longName).2.1 (by decide)

/-- C2, refuted as stated: the truncation of 28 times "é" has 29 characters, not
55, so as worded it is one of the texts returned unchanged without consulting
the catalog; yet `recoverTruncatedActivity` asks the catalog to recover its
first 52 bytes (26 characters) and returns the catalog's answer, not the
text. -/
theorem recoverTruncatedActivity_characters_counterexample :
    charCount (truncateActivityName accentedName) = 29 ∧
      (recoverTruncatedActivity emptyPool (truncateActivityName accentedName) (lit "g") []).2 =
        [Event.RecoverActivity (lit "g") (accentedName.take 52)
          (.ok (accentedName.take 52))] ∧
      charCount (accentedName.take 52) = 26 ∧
      recoverTruncatedActivity emptyPool (truncateActivityName accentedName) (lit "g") [] ≠
        (.ok (truncateActivityName accentedName), []) := by
  refine ⟨by decide, rfl, by decide, ?_⟩
  intro hcon
  have h2 := congrArg (fun r => r.2.length) hcon
  revert h2
  decide

/-- C2, amended (lengths and positions in bytes): when the text has 55 bytes and
ends in "...", `recoverTruncatedActivity` makes exactly one call, asking the
catalog to recover the first 52 bytes, returns the catalog's name when that
call succeeds and fails exactly when the call fails; for every other text it
returns the text unchanged without any call. -/
theorem recoverTruncatedActivity_spec (cl : Clients) (text guildID : GoString) (h : History) :
    (text.length = 55 ∧ text.drop 52 = lit "..." →
      (recoverTruncatedActivity cl text guildID h).2 =
          h ++ [Event.RecoverActivity guildID (text.take 52)
            (cl.RecoverActivity h guildID (text.take 52))] ∧
        (∀ fullName, cl.RecoverActivity h guildID (text.take 52) = .ok fullName →
          (recoverTruncatedActivity cl text guildID h).1 = .ok fullName) ∧
        ((∃ err, (recoverTruncatedActivity cl text guildID h).1 = .error err) ↔
          ∃ err, cl.RecoverActivity h guildID (text.take 52) = .error err)) ∧
    (¬(text.length = 55 ∧ text.drop 52 = lit "...") →
      recoverTruncatedActivity cl text guildID h = (.ok text, h)) := by
  constructor
  · intro hc
    unfold recoverTruncatedActivity
    rw [if_pos hc]
    cases hr : cl.RecoverActivity h guildID (text.take 52) with
    | error e => simp
    | ok v => simp
  · intro hc
    unfold recoverTruncatedActivity
    rw [if_neg hc]

/-- C2 (amended) at the truncation of a name of 56 bytes (one catalog call) and at the
text "Chess" (no call). -/
theorem recoverTruncatedActivity_spec_witness :
    (recoverTruncatedActivity emptyPool (truncateActivityName longName) (lit "g") []).2 =
        [Event.RecoverActivity (lit "g") (longName.take 52) (.ok (longName.take 52))] ∧
      recoverTruncatedActivity emptyPool (lit "Chess") (lit "g") [] = (.ok (lit "Chess"), []) :=
  ⟨((recoverTruncatedActivity_spec emptyPool (truncateActivityName longName) (lit "g") []).1
      (by decide)).1,
   (recoverTruncatedActivity_spec emptyPool (lit "Chess") (lit "g") []).2 (by decide)⟩

/-! ## Winner determination -/

theorem answerCountCmp_some_le (a b : PollAnswerCount) :
    answerCountCmp (some a) (some b) ≤ 0 ↔ b.Count ≤ a.Count := by
  unfold answerCountCmp cmpCompare
  simp only
  split_ifs <;> constructor <;> intro h <;> omega

theorem all_some_eq_map (l : List (Option PollAnswerCount)) (h : ∀ x ∈ l, ∃ c, x = some c) :
    l = (l.filterMap id).map some := by
  induction l with
  | nil => rfl
  | cons x l ih =>
    obtain ⟨c, hc⟩ := h x (List.mem_cons_self x l)
    subst hc
    have ih' := ih (fun y hy => h y (List.mem_cons_of_mem _ hy))
    simp only [List.filterMap_cons, id, List.map_cons]
    rw [← ih']

/-- What the contract of the sort gives when no entry is nil: the sorted slice
holds the same entries, by descending count. -/
theorem sorted_view (sortFunc : SortFunc) (hsf : sortFunc.Sorts) (counts : List PollAnswerCount) :
    ∃ s0 : List PollAnswerCount,
      sortFunc answerCountCmp (counts.map some) = s0.map some ∧ s0.Perm counts ∧
        s0.Pairwise (fun a b => b.Count ≤ a.Count) := by
  obtain ⟨hp, hs⟩ := hsf (counts.map some)
  have hall : ∀ x ∈ sortFunc answerCountCmp (counts.map some), ∃ c, x = some c := by
    intro x hx
    have hx' := hp.subset hx
    obtain ⟨c, _, hc⟩ := List.mem_map.mp hx'
    exact ⟨c, hc.symm⟩
  have heq := all_some_eq_map _ hall
  refine ⟨(sortFunc answerCountCmp (counts.map some)).filterMap id, heq, ?_, ?_⟩
  · have h1 := hp.filterMap id
    have h2 : (counts.map some).filterMap id = counts := by
      induction counts with
      | nil => rfl
      | cons c cs ih => simp
    rw [h2] at h1
    exact h1
  · rw [heq, List.pairwise_map] at hs
    exact hs.imp (fun {a b} hab => (answerCountCmp_some_le a b).mp hab)

/-- The outcome of `determinePollWinner` is the verdict on some arrangement of
the entries by descending count. -/
theorem determinePollWinner_eq_verdict (sortFunc : SortFunc) (hsf : sortFunc.Sorts)
    (poll : Poll) (results : PollResults) (counts : List PollAnswerCount)
    (hR : poll.Results = some results)
    (hA : results.AnswerCounts.getD [] = counts.map some) :
    ∃ s0 : List PollAnswerCount, s0.Perm counts ∧
      s0.Pairwise (fun a b => b.Count ≤ a.Count) ∧
      determinePollWinner sortFunc poll = verdict poll s0 := by
  obtain ⟨s0, hs0, hperm, hsorted⟩ := sorted_view sortFunc hsf counts
  refine ⟨s0, hperm, hsorted, ?_⟩
  unfold determinePollWinner
  rw [hR]
  simp only [hA, hs0]
  match s0 with
  | [] => rfl
  | [t] => rfl
  | t :: s :: rest => rfl

theorem winnerText_not_tie (poll : Poll) (top : Option PollAnswerCount) :
    ¬ reportsTie (winnerText poll top) := by
  rintro ⟨w, hw⟩
  unfold winnerText at hw
  split at hw
  · simp at hw
  · split at hw
    · simp at hw
    · split at hw
      · simp at hw
      · simp at hw

theorem TopTwoEqual_perm {l1 l2 : List Int} (hp : l1.Perm l2) (h : TopTwoEqual l1) :
    TopTwoEqual l2 := by
  obtain ⟨m, hm, hmax, hc⟩ := h
  refine ⟨m, hp.subset hm, fun c hcm => hmax c (hp.symm.subset hcm), ?_⟩
  rw [← hp.count_eq]
  exact hc

theorem TopTwoEqual_sorted (a b : Int) (rest : List Int)
    (hs : (a :: b :: rest).Pairwise (fun x y => y ≤ x)) :
    TopTwoEqual (a :: b :: rest) ↔ a = b := by
  rw [List.pairwise_cons, List.pairwise_cons] at hs
  obtain ⟨ha, hb, _⟩ := hs
  constructor
  · rintro ⟨m, hm, hmax, hc⟩
    have ham : a ≤ m := hmax a (by simp)
    have hma : m ≤ a := by
      rcases List.mem_cons.mp hm with rfl | hm'
      · exact le_refl _
      · exact ha m hm'
    have hma' : m = a := le_antisymm hma ham
    subst hma'
    by_contra hne
    have hba : b ≤ m := ha b (by simp)
    have hcount : List.count m rest = 0 := by
      rw [List.count_eq_zero]
      intro hmem
      have := hb m hmem
      omega
    rw [List.count_cons_self, List.count_cons_of_ne hne, hcount] at hc
    omega
  · rintro rfl
    refine ⟨a, by simp, ?_, ?_⟩
    · intro c hc
      rcases List.mem_cons.mp hc with rfl | hc'
      · exact le_refl _
      · exact ha c hc'
    · rw [List.count_cons_self, List.count_cons_self]
      omega

/-- The verdict is a tie exactly when there is no entry, or at least two and the
two largest counts are equal. -/
theorem verdict_tie_iff (poll : Poll) (s0 : List PollAnswerCount)
    (hs : s0.Pairwise (fun a b => b.Count ≤ a.Count)) :
    reportsTie (verdict poll s0) ↔
      s0 = [] ∨ (2 ≤ s0.length ∧ TopTwoEqual (s0.map (fun c => c.Count))) := by
  match s0, hs with
  | [], _ =>
    simp only [verdict, true_or, iff_true]
    exact ⟨_, rfl⟩
  | [t], _ =>
    simp only [verdict]
    constructor
    · intro h
      exact absurd h (winnerText_not_tie _ _)
    · rintro (h | ⟨h, _⟩)
      · simp at h
      · simp at h
  | t :: s :: rest, hs =>
    have hs' : ((t :: s :: rest).map (fun c => c.Count)).Pairwise (fun x y => y ≤ x) := by
      rw [List.pairwise_map]
      exact hs
    simp only [List.map_cons] at hs'
    have key := TopTwoEqual_sorted t.Count s.Count (rest.map (fun c => c.Count)) hs'
    simp only [List.map_cons] at key ⊢
    simp only [verdict]
    constructor
    · intro h
      right
      refine ⟨by simp, key.mpr ?_⟩
      by_contra hne
      rw [if_neg hne] at h
      exact winnerText_not_tie _ _ h
    · rintro (h | ⟨_, h⟩)
      · simp at h
      · rw [if_pos (key.mp h)]
        exact ⟨_, rfl⟩

/-- Insertion sort meets the contract of `slices.SortFunc`. -/
theorem insertionSortFunc_sorts : insertionSortFunc.Sorts := by
  intro l
  refine ⟨List.perm_insertionSort _ l, ?_⟩
  have htotal : IsTotal (Option PollAnswerCount) (fun a b => answerCountCmp a b ≤ 0) := by
    constructor
    intro a b
    cases a <;> cases b <;> simp only [answerCountCmp, cmpCompare] <;> omega
  have htrans : IsTrans (Option PollAnswerCount) (fun a b => answerCountCmp a b ≤ 0) := by
    constructor
    intro a b c
    cases a <;> cases b <;> cases c <;> simp only [answerCountCmp, cmpCompare] <;> omega
  exact List.sorted_insertionSort (fun a b => answerCountCmp a b ≤ 0) l

/-- C3: for a poll with results whose answer-count entries are all non-nil, and
any sort meeting the contract of `slices.SortFunc`, `determinePollWinner` reports
a tie if and only if there is no entry, or there are at least two and the two
largest vote counts are equal. -/
theorem determinePollWinner_tie_iff (sortFunc : SortFunc) (hsf : sortFunc.Sorts)
    (poll : Poll) (results : PollResults) (counts : List PollAnswerCount)
    (hR : poll.Results = some results)
    (hA : results.AnswerCounts.getD [] = counts.map some) :
    reportsTie (determinePollWinner sortFunc poll) ↔
      counts = [] ∨ (2 ≤ counts.length ∧ TopTwoEqual (counts.map (fun c => c.Count))) := by
  obtain ⟨s0, hperm, hsorted, heq⟩ :=
    determinePollWinner_eq_verdict sortFunc hsf poll results counts hR hA
  rw [heq, verdict_tie_iff poll s0 hsorted]
  have hlen := hperm.length_eq
  have hmap := hperm.map (fun c => c.Count)
  constructor
  · rintro (h | ⟨h2, ht⟩)
    · left
      subst h
      exact List.Perm.nil_eq hperm |>.symm
    · right
      exact ⟨by omega, TopTwoEqual_perm hmap ht⟩
  · rintro (h | ⟨h2, ht⟩)
    · left
      subst h
      exact List.Perm.eq_nil hperm
    · right
      exact ⟨by omega, TopTwoEqual_perm hmap.symm ht⟩

/-- C3 at the counts [5,5] (tie), [] (tie) and [7,3,3] (no tie). -/
theorem determinePollWinner_tie_iff_witness :
    reportsTie (determinePollWinner insertionSortFunc
        (pollWith [lit "A", lit "B"] [(1, 5), (2, 5)])) ∧
      reportsTie (determinePollWinner insertionSortFunc (pollWith [lit "A", lit "B"] [])) ∧
      ¬ reportsTie (determinePollWinner insertionSortFunc
        (pollWith [lit "A", lit "B", lit "C"] [(1, 7), (2, 3), (3, 3)])) :=
  ⟨(determinePollWinner_tie_iff insertionSortFunc insertionSortFunc_sorts
      (pollWith [lit "A", lit "B"] [(1, 5), (2, 5)]) _ [⟨1, 5⟩, ⟨2, 5⟩] rfl rfl).mpr
      (Or.inr ⟨by decide, 5, by decide, by decide, by decide⟩),
   (determinePollWinner_tie_iff insertionSortFunc insertionSortFunc_sorts
      (pollWith [lit "A", lit "B"] []) _ [] rfl rfl).mpr (Or.inl rfl),
   fun h =>
    ((determinePollWinner_tie_iff insertionSortFunc insertionSortFunc_sorts
      (pollWith [lit "A", lit "B", lit "C"] [(1, 7), (2, 3), (3, 3)]) _
      [⟨1, 7⟩, ⟨2, 3⟩, ⟨3, 3⟩] rfl rfl).mp h).elim (fun h0 => by simp at h0)
      (fun h2 => by
        obtain ⟨_, m, hm, hmax, hc⟩ := h2
        have h7 : (7 : Int) ≤ m := hmax 7 (by decide)
        simp at hm
        rcases hm with rfl | rfl
        · revert hc; decide
        · omega)⟩

/-- A verdict that is not a tie comes from a top entry whose count is strictly
above every other count. -/
theorem verdict_winner (poll : Poll) (s0 : List PollAnswerCount)
    (hs : s0.Pairwise (fun a b => b.Count ≤ a.Count))
    (hnt : ¬ reportsTie (verdict poll s0)) :
    ∃ top rest, s0 = top :: rest ∧ (∀ c ∈ rest, c.Count < top.Count) ∧
      verdict poll s0 = winnerText poll (some top) := by
  match s0, hs with
  | [], _ => exact absurd ⟨_, rfl⟩ hnt
  | [t], _ => exact ⟨t, [], rfl, by simp, rfl⟩
  | t :: s :: rest, hs =>
    rw [List.pairwise_cons, List.pairwise_cons] at hs
    obtain ⟨ht, hsr, _⟩ := hs
    have hne : t.Count ≠ s.Count := by
      intro heq
      apply hnt
      simp only [verdict, if_pos heq]
      exact ⟨_, rfl⟩
    have hst : s.Count < t.Count := lt_of_le_of_ne (ht s (by simp)) (Ne.symm hne)
    refine ⟨t, s :: rest, rfl, ?_, ?_⟩
    · intro c hc
      rcases List.mem_cons.mp hc with rfl | hc'
      · exact hst
      · exact lt_of_le_of_lt (hsr c hc') hst
    · simp only [verdict, if_neg hne]

/-- Two arrangements of the same entries by descending count get the same
verdict. -/
theorem verdict_perm (poll : Poll) (s1 s2 : List PollAnswerCount) (hp : s1.Perm s2)
    (h1 : s1.Pairwise (fun a b => b.Count ≤ a.Count))
    (h2 : s2.Pairwise (fun a b => b.Count ≤ a.Count)) :
    verdict poll s1 = verdict poll s2 := by
  have htie : reportsTie (verdict poll s1) ↔ reportsTie (verdict poll s2) := by
    rw [verdict_tie_iff poll s1 h1, verdict_tie_iff poll s2 h2]
    have hlen := hp.length_eq
    have hmap := hp.map (fun c => c.Count)
    constructor
    · rintro (h | ⟨hl, ht⟩)
      · left
        subst h
        exact (List.Perm.nil_eq hp).symm
      · right
        exact ⟨by omega, TopTwoEqual_perm hmap ht⟩
    · rintro (h | ⟨hl, ht⟩)
      · left
        subst h
        exact List.Perm.eq_nil hp
      · right
        exact ⟨by omega, TopTwoEqual_perm hmap.symm ht⟩
  by_cases ht : reportsTie (verdict poll s1)
  · have ht2 := htie.mp ht
    have tie_val : ∀ s, reportsTie (verdict poll s) → verdict poll s = some (lit "", true) := by
      intro s hs
      match s with
      | [] => rfl
      | [t] => exact absurd hs (winnerText_not_tie poll (some t))
      | t :: u :: rest =>
        simp only [verdict] at hs ⊢
        split_ifs at hs ⊢
        · rfl
        · exact absurd hs (winnerText_not_tie _ _)
    rw [tie_val s1 ht, tie_val s2 ht2]
  · have ht2 : ¬ reportsTie (verdict poll s2) := fun h => ht (htie.mpr h)
    obtain ⟨t1, r1, hs1, hd1, hv1⟩ := verdict_winner poll s1 h1 ht
    obtain ⟨t2, r2, hs2, hd2, hv2⟩ := verdict_winner poll s2 h2 ht2
    have heq : t1 = t2 := by
      have hm1 : t1 ∈ s2 := hp.subset (by rw [hs1]; simp)
      have hm2 : t2 ∈ s1 := hp.symm.subset (by rw [hs2]; simp)
      rw [hs2] at hm1
      rw [hs1] at hm2
      rcases List.mem_cons.mp hm1 with h | h
      · exact h
      · rcases List.mem_cons.mp hm2 with h' | h'
        · exact h'.symm
        · have := hd1 t2 h'
          have := hd2 t1 h
          omega
    rw [hv1, hv2, heq]

/-- When one entry has a count strictly above every other, `determinePollWinner`
returns the text of the first answer with that entry's ID. -/
theorem determinePollWinner_of_top (sortFunc : SortFunc) (hsf : sortFunc.Sorts)
    (poll : Poll) (results : PollResults) (top : PollAnswerCount) (l1 l2 : List PollAnswerCount)
    (hR : poll.Results = some results)
    (hA : results.AnswerCounts.getD [] = (l1 ++ top :: l2).map some)
    (hdom : ∀ c ∈ l1 ++ l2, c.Count < top.Count) :
    determinePollWinner sortFunc poll = winnerText poll (some top) := by
  obtain ⟨s0, hperm, hsorted, heq⟩ :=
    determinePollWinner_eq_verdict sortFunc hsf poll results _ hR hA
  rw [heq]
  have hmid : (l1 ++ top :: l2).Perm (top :: (l1 ++ l2)) := List.perm_middle
  have hp2 : s0.Perm (top :: (l1 ++ l2)) := hperm.trans hmid
  match s0, hsorted, hp2 with
  | [], _, hp2 => exact absurd (List.Perm.nil_eq hp2) (by simp)
  | t :: r, hsorted, hp2 =>
    rw [List.pairwise_cons] at hsorted
    have htop : t = top := by
      have hm1 : top ∈ t :: r := hp2.symm.subset (by simp)
      have hm2 : t ∈ top :: (l1 ++ l2) := hp2.subset (by simp)
      rcases List.mem_cons.mp hm2 with h | h
      · exact h
      · rcases List.mem_cons.mp hm1 with h' | h'
        · exact h'.symm
        · have := hdom t h
          have := hsorted.1 top h'
          omega
    subst htop
    have hr : r.Perm (l1 ++ l2) := hp2.cons_inv
    match r, hr with
    | [], _ => rfl
    | s :: rest, hr =>
      have hlt : s.Count < t.Count := hdom s (hr.subset (by simp))
      have hne : t.Count ≠ s.Count := by omega
      simp only [verdict, if_neg hne]

/-- C4: for a poll with results whose answer-count entries are all non-nil and
carry IDs of the poll's answers, and any sort meeting the contract: whenever
`determinePollWinner` does not report a tie, one entry has a count strictly
above the count of every other entry and the result is the text of the first
answer with that entry's ID (a panic if that answer has no media); and the
result is the same for every rearrangement of the entries and every sort
meeting the contract. -/
theorem determinePollWinner_winner (sortFunc : SortFunc) (hsf : sortFunc.Sorts)
    (poll : Poll) (results : PollResults) (counts : List PollAnswerCount)
    (hR : poll.Results = some results)
    (hA : results.AnswerCounts.getD [] = counts.map some)
    (hIDs : ∀ c ∈ counts, ∃ a ∈ poll.Answers, a.AnswerID = c.ID) :
    (¬ reportsTie (determinePollWinner sortFunc poll) →
      ∃ top l1 l2 a, counts = l1 ++ top :: l2 ∧ (∀ c ∈ l1 ++ l2, c.Count < top.Count) ∧
        poll.Answers.find? (fun a => decide (a.AnswerID = top.ID)) = some a ∧
        determinePollWinner sortFunc poll = a.Media.map (fun m => (m.Text, false))) ∧
    (∀ (sortFunc' : SortFunc) (entries' : List (Option PollAnswerCount)),
      sortFunc'.Sorts → entries'.Perm (counts.map some) →
      determinePollWinner sortFunc'
          { poll with Results := some { results with AnswerCounts := some entries' } } =
        determinePollWinner sortFunc poll) := by
  obtain ⟨s0, hperm, hsorted, heq⟩ :=
    determinePollWinner_eq_verdict sortFunc hsf poll results counts hR hA
  constructor
  · intro hnt
    rw [heq] at hnt
    obtain ⟨top, rest, hs0, hdom, hv⟩ := verdict_winner poll s0 hsorted hnt
    have hmem : top ∈ counts := hperm.subset (by rw [hs0]; simp)
    obtain ⟨l1, l2, hsplit⟩ := List.append_of_mem hmem
    have hrest : rest.Perm (l1 ++ l2) := by
      have h1 : (top :: rest).Perm (top :: (l1 ++ l2)) := by
        rw [← hs0]
        exact hperm.trans (hsplit ▸ List.perm_middle)
      exact h1.cons_inv
    obtain ⟨a0, ha0, hid⟩ := hIDs top hmem
    have hsome : (poll.Answers.find? (fun a => decide (a.AnswerID = top.ID))).isSome := by
      rw [List.find?_isSome]
      exact ⟨a0, ha0, by simpa using hid⟩
    obtain ⟨a, ha⟩ := Option.isSome_iff_exists.mp hsome
    refine ⟨top, l1, l2, a, hsplit, fun c hc => hdom c (hrest.symm.subset hc), ha, ?_⟩
    rw [heq, hv]
    simp only [winnerText, ha]
    cases a.Media <;> rfl
  · intro sortFunc' entries' hsf' hp'
    obtain ⟨cs', hcs', hpc⟩ : ∃ cs' : List PollAnswerCount,
        entries' = cs'.map some ∧ cs'.Perm counts := by
      have hall : ∀ x ∈ entries', ∃ c, x = some c := by
        intro x hx
        obtain ⟨c, _, hc⟩ := List.mem_map.mp (hp'.subset hx)
        exact ⟨c, hc.symm⟩
      refine ⟨entries'.filterMap id, all_some_eq_map _ hall, ?_⟩
      have h1 := hp'.filterMap id
      have h2 : (counts.map some).filterMap id = counts := by
        clear hA hIDs hperm h1 hp'
        induction counts with
        | nil => rfl
        | cons c cs ih => simp
      rw [h2] at h1
      exact h1
    obtain ⟨s1, hperm1, hsorted1, heq1⟩ :=
      determinePollWinner_eq_verdict sortFunc' hsf'
        { poll with Results := some { results with AnswerCounts := some entries' } }
        { results with AnswerCounts := some entries' } cs' rfl hcs'
    rw [heq, heq1]
    have hv : ∀ s, verdict { poll with
        Results := some { results with AnswerCounts := some entries' } } s = verdict poll s := by
      intro s
      match s with
      | [] => rfl
      | [t] => rfl
      | t :: u :: rest => rfl
    rw [hv]
    exact verdict_perm poll s1 s0 (hperm1.trans (hpc.trans hperm.symm)) hsorted1 hsorted

/-- C4 at the counts [3,7,3] over the answers "A", "B", "C": the winner is
"B", whose entry has the only largest count. -/
theorem determinePollWinner_winner_witness :
    ∃ top l1 l2 a, [(⟨1, 3⟩ : PollAnswerCount), ⟨2, 7⟩, ⟨3, 3⟩] = l1 ++ top :: l2 ∧
      (∀ c ∈ l1 ++ l2, c.Count < top.Count) ∧
      (pollWith [lit "A", lit "B", lit "C"] [(1, 3), (2, 7), (3, 3)]).Answers.find?
        (fun a => decide (a.AnswerID = top.ID)) = some a ∧
      determinePollWinner insertionSortFunc
          (pollWith [lit "A", lit "B", lit "C"] [(1, 3), (2, 7), (3, 3)]) =
        a.Media.map (fun m => (m.Text, false)) :=
  (determinePollWinner_winner insertionSortFunc insertionSortFunc_sorts
    (pollWith [lit "A", lit "B", lit "C"] [(1, 3), (2, 7), (3, 3)]) _
    [⟨1, 3⟩, ⟨2, 7⟩, ⟨3, 3⟩] rfl rfl (by decide)).1
    (by
      rintro ⟨w, hw⟩
      have hB : determinePollWinner insertionSortFunc
          (pollWith [lit "A", lit "B", lit "C"] [(1, 3), (2, 7), (3, 3)]) =
            some (lit "B", false) := by decide
      rw [hB] at hw
      simp at hw)

/-! ## The ordered map and the tally of a sequence of names -/

theorem mem_firstOccurrences (l : List GoString) (x : GoString) :
    x ∈ firstOccurrences l ↔ x ∈ l := by
  induction l with
  | nil => simp [firstOccurrences]
  | cons a l ih =>
    simp only [firstOccurrences, List.mem_cons, List.mem_filter, ih, decide_eq_true_eq]
    constructor
    · rintro (h | ⟨h, _⟩)
      · exact Or.inl h
      · exact Or.inr h
    · intro h
      by_cases hxa : x = a
      · exact Or.inl hxa
      · rcases h with h | h
        · exact Or.inl h
        · exact Or.inr ⟨h, hxa⟩

theorem nodup_firstOccurrences (l : List GoString) : (firstOccurrences l).Nodup := by
  induction l with
  | nil => simp [firstOccurrences]
  | cons a l ih =>
    simp only [firstOccurrences, List.nodup_cons, List.mem_filter, decide_eq_true_eq]
    exact ⟨fun h => h.2 rfl, ih.filter _⟩

theorem firstOccurrences_append_singleton (l : List GoString) (a : GoString) :
    firstOccurrences (l ++ [a]) =
      if a ∈ l then firstOccurrences l else firstOccurrences l ++ [a] := by
  induction l with
  | nil => simp [firstOccurrences]
  | cons b l ih =>
    have hcons : firstOccurrences (b :: l ++ [a]) =
        b :: (firstOccurrences (l ++ [a])).filter (fun x => decide (x ≠ b)) := rfl
    rw [hcons, ih]
    by_cases hab : a = b
    · subst hab
      by_cases hmem : a ∈ l
      · simp [hmem, firstOccurrences]
      · simp [hmem, firstOccurrences, List.filter_append]
    · by_cases hmem : a ∈ l
      · simp [hmem, hab, firstOccurrences]
      · simp [hmem, hab, firstOccurrences, List.filter_append]

theorem lookup_map_pair (K : List GoString) (f : GoString → Int) (a : GoString) :
    (K.map (fun n => (n, f n))).lookup a = if a ∈ K then some (f a) else none := by
  induction K with
  | nil => simp
  | cons k K ih =>
    simp only [List.map_cons, List.lookup_cons, List.mem_cons]
    by_cases hak : a = k
    · subst hak
      simp
    · have : (a == k) = false := by simpa using hak
      simp only [this, ih, hak, false_or]

theorem Set_map_pair (K : List GoString) (hK : K.Nodup) (f : GoString → Int) (a : GoString)
    (v : Int) :
    OrderedMap.Set (K.map (fun n => (n, f n))) a v =
      if a ∈ K then K.map (fun n => (n, if n = a then v else f n))
      else K.map (fun n => (n, f n)) ++ [(a, v)] := by
  induction K with
  | nil => simp [OrderedMap.Set]
  | cons k K ih =>
    rw [List.nodup_cons] at hK
    simp only [List.map_cons, OrderedMap.Set, List.mem_cons]
    by_cases hka : k = a
    · subst hka
      simp only [if_true, true_or, List.cons.injEq, true_and]
      apply List.map_congr_left
      intro n hn
      have : n ≠ k := fun h => hK.1 (h ▸ hn)
      simp [this]
    · have hak : ¬ a = k := fun h => hka h.symm
      simp only [hka, if_false, ih hK.2, hak, false_or]
      split_ifs <;> simp

/-- Merging one more name into the tally of a sequence gives the tally of the
sequence extended by that name. -/
theorem Set_tally (ns : List GoString) (a : GoString) :
    OrderedMap.Set (tally ns) a (OrderedMap.GetOrDefault (tally ns) a 0 + 1) =
      tally (ns ++ [a]) := by
  unfold tally OrderedMap.GetOrDefault
  rw [Set_map_pair _ (nodup_firstOccurrences ns), lookup_map_pair,
    firstOccurrences_append_singleton]
  simp only [mem_firstOccurrences]
  by_cases hmem : a ∈ ns
  · simp only [hmem, if_true]
    apply List.map_congr_left
    intro n _
    by_cases hna : n = a
    · subst hna
      simp [List.count_append]
    · simp [hna, List.count_append, List.count_singleton]
  · simp only [hmem, if_false, List.map_append, List.map_cons, List.map_nil]
    congr 1
    · apply List.map_congr_left
      intro n hn
      have hna : n ≠ a := fun h => hmem (h ▸ (mem_firstOccurrences ns n).mp hn)
      simp [List.count_append, List.count_singleton, hna]
    · simp [List.count_append, List.count_eq_zero_of_not_mem hmem]

/-- Merging a list of names into the tally of a sequence gives the tally of the
sequence extended by the list. -/
theorem mergeNames_tally (ns l : List GoString) :
    mergeNames (tally ns) l = tally (ns ++ l) := by
  induction l generalizing ns with
  | nil => simp [mergeNames]
  | cons a l ih =>
    have h := ih (ns ++ [a])
    simp only [mergeNames, List.foldl_cons] at h ⊢
    rw [Set_tally, h, List.append_assoc, List.singleton_append]

theorem length_Set_le (m : OrderedMap) (key : GoString) (value : Int) :
    (OrderedMap.Set m key value).length ≤ m.length + 1 := by
  induction m with
  | nil => simp [OrderedMap.Set]
  | cons p m ih =>
    obtain ⟨k, v⟩ := p
    simp only [OrderedMap.Set]
    split_ifs
    · simp
    · simp only [List.length_cons]
      omega

theorem length_mergeNames_le (m : OrderedMap) (names : List GoString) :
    (mergeNames m names).length ≤ m.length + names.length := by
  induction names generalizing m with
  | nil => simp [mergeNames]
  | cons a l ih =>
    have h := ih (OrderedMap.Set m a (OrderedMap.GetOrDefault m a 0 + 1))
    have h2 := length_Set_le m a (OrderedMap.GetOrDefault m a 0 + 1)
    simp only [mergeNames, List.foldl_cons, List.length_cons] at h ⊢
    omega

/-! ## Candidate-set generation -/

theorem fetchedNames_cons (e : Event) (evs : History) :
    fetchedNames (e :: evs) = e.names ++ fetchedNames evs := by
  simp [fetchedNames]

theorem fetchedNames_nil : fetchedNames [] = [] := rfl

/-- The fallback loop: it only requests random activities, at most once per
round left and not at all when the map is full; when it ends without error no
request failed and the map is the tally of the names so far followed by the
names drawn; when it returns an error a request failed. -/
theorem fallbackRounds_spec (cl : Clients) (guildID : GoString) :
    ∀ (remaining : Nat) (ns : List GoString) (h : History),
      ∃ evs : History,
        (fallbackRounds cl guildID remaining (tally ns) h).2 = h ++ evs ∧
        (∀ e ∈ evs, e.isRandomRequest = true) ∧
        evs.length ≤ remaining ∧
        (MAX_POLL_ENTRIES ≤ OrderedMap.Len (tally ns) → evs = []) ∧
        (∀ answers, (fallbackRounds cl guildID remaining (tally ns) h).1 = .ok answers →
          answers = tally (ns ++ fetchedNames evs) ∧ ∀ e ∈ evs, e.failed = false) ∧
        (∀ err, (fallbackRounds cl guildID remaining (tally ns) h).1 = .error err →
          ∃ e ∈ evs, e.failed = true) := by
  intro remaining
  induction remaining with
  | zero =>
    intro ns h
    refine ⟨[], by simp [fallbackRounds], by simp, by simp, fun _ => rfl, ?_, ?_⟩
    · intro answers ha
      simp only [fallbackRounds, Except.ok.injEq] at ha
      simp [fetchedNames_nil, ha]
    · intro err he
      simp [fallbackRounds] at he
  | succ n ih =>
    intro ns h
    by_cases hlen : OrderedMap.Len (tally ns) < MAX_POLL_ENTRIES
    · cases hr : cl.GetRandomActivities h guildID (MAX_POLL_ENTRIES - OrderedMap.Len (tally ns)) with
      | error err0 =>
        refine ⟨[Event.GetRandomActivities guildID
          (MAX_POLL_ENTRIES - OrderedMap.Len (tally ns)) (.error err0)], ?_, ?_, ?_, ?_, ?_, ?_⟩
        · simp [fallbackRounds, hlen, hr]
        · simp [Event.isRandomRequest]
        · simp
        · intro hfull
          omega
        · intro answers ha
          simp [fallbackRounds, hlen, hr] at ha
        · intro err _
          exact ⟨_, List.mem_singleton_self _, by simp [Event.failed, Except.toBool]⟩
      | ok l =>
        by_cases hrep : repeating (tally (ns ++ l)) = true
        · refine ⟨[Event.GetRandomActivities guildID
            (MAX_POLL_ENTRIES - OrderedMap.Len (tally ns)) (.ok l)], ?_, ?_, ?_, ?_, ?_, ?_⟩
          · simp [fallbackRounds, hlen, hr, mergeNames_tally, hrep]
          · simp [Event.isRandomRequest]
          · simp
          · intro hfull
            omega
          · intro answers ha
            simp only [fallbackRounds, hlen, hr, mergeNames_tally, hrep, if_true,
              Except.ok.injEq] at ha
            refine ⟨?_, by simp [Event.failed, Except.toBool]⟩
            simp [fetchedNames, Event.names, ha]
          · intro err he
            simp [fallbackRounds, hlen, hr, mergeNames_tally, hrep] at he
        · obtain ⟨evs, hh, hrand, hlen', _, hok, herr⟩ := ih (ns ++ l)
            (h ++ [Event.GetRandomActivities guildID
              (MAX_POLL_ENTRIES - OrderedMap.Len (tally ns)) (.ok l)])
          have hstep : fallbackRounds cl guildID (n + 1) (tally ns) h =
              fallbackRounds cl guildID n (tally (ns ++ l))
                (h ++ [Event.GetRandomActivities guildID
                  (MAX_POLL_ENTRIES - OrderedMap.Len (tally ns)) (.ok l)]) := by
            simp [fallbackRounds, hlen, hr, mergeNames_tally, hrep]
          rw [hstep]
          refine ⟨Event.GetRandomActivities guildID
            (MAX_POLL_ENTRIES - OrderedMap.Len (tally ns)) (.ok l) :: evs, ?_, ?_, ?_, ?_, ?_, ?_⟩
          · rw [hh]
            simp
          · intro e he
            rcases List.mem_cons.mp he with rfl | he'
            · rfl
            · exact hrand e he'
          · simp only [List.length_cons]
            omega
          · intro hfull
            omega
          · intro answers ha
            obtain ⟨h1, h2⟩ := hok answers ha
            refine ⟨?_, ?_⟩
            · rw [h1, fetchedNames_cons]
              simp [Event.names]
            · intro e he
              rcases List.mem_cons.mp he with rfl | he'
              · simp [Event.failed, Except.toBool]
              · exact h2 e he'
          · intro err he
            obtain ⟨e, hmem, hf⟩ := herr err he
            exact ⟨e, List.mem_cons_of_mem _ hmem, hf⟩
    · refine ⟨[], by simp [fallbackRounds, hlen], by simp, by simp, fun _ => rfl, ?_, ?_⟩
      · intro answers ha
        simp only [fallbackRounds, hlen, if_false, Except.ok.injEq] at ha
        simp [fetchedNames_nil, ha]
      · intro err he
        simp [fallbackRounds, hlen] at he

/-- The fallback loop never lets the map grow beyond seven entries when the
catalog respects the limit it is given. -/
theorem fallbackRounds_length_le (cl : Clients) (guildID : GoString) (hcl : RespectsLimit cl) :
    ∀ (remaining : Nat) (answers : OrderedMap) (h : History) (answers' : OrderedMap),
      answers.length ≤ 7 →
      (fallbackRounds cl guildID remaining answers h).1 = .ok answers' →
      answers'.length ≤ 7 := by
  intro remaining
  induction remaining with
  | zero =>
    intro answers h answers' hle ha
    simp only [fallbackRounds, Except.ok.injEq] at ha
    rw [← ha]
    exact hle
  | succ n ih =>
    intro answers h answers' hle ha
    by_cases hlen : OrderedMap.Len answers < MAX_POLL_ENTRIES
    · cases hr : cl.GetRandomActivities h guildID (MAX_POLL_ENTRIES - OrderedMap.Len answers) with
      | error err0 => simp [fallbackRounds, hlen, hr] at ha
      | ok l =>
        have hpos : 0 ≤ MAX_POLL_ENTRIES - OrderedMap.Len answers := by omega
        have hl := hcl.2 _ _ _ _ hpos hr
        have hm := length_mergeNames_le answers l
        have hbound : (mergeNames answers l).length ≤ 7 := by
          simp only [OrderedMap.Len, MAX_POLL_ENTRIES] at hl hlen
          omega
        by_cases hrep : repeating (mergeNames answers l) = true
        · simp only [fallbackRounds, hlen, hr, hrep, if_true, Except.ok.injEq] at ha
          rw [← ha]
          exact hbound
        · simp only [fallbackRounds, hlen, hr, hrep, if_true] at ha
          exact ih _ _ _ hbound ha
    · simp only [fallbackRounds, hlen, if_false, Except.ok.injEq] at ha
      rw [← ha]
      exact hle

theorem tally_toList (fow : Option GoString) :
    (match fow with
      | some f => OrderedMap.Set [] f 1
      | none => ([] : OrderedMap)) = tally fow.toList := by
  cases fow with
  | none => rfl
  | some f => simp [OrderedMap.Set, tally, firstOccurrences]

/-- After a successful read of the favorite and a successful fetch of the
nominations, `GeneratePollEntries` enters the fallback loop with the tally of
the favorite and the nominations. -/
theorem collectAnswers_eq (cl : Clients) (guildID : GoString) (h : History)
    (fow : Option GoString) (noms : List GoString)
    (hf : cl.GetFow h guildID = .ok fow)
    (hn : cl.GetTopNominations (h ++ [Event.GetFow guildID (.ok fow)]) guildID
      (MAX_POLL_ENTRIES - OrderedMap.Len (tally fow.toList)) = .ok noms) :
    collectAnswers cl guildID h =
      fallbackRounds cl guildID 5 (tally (fow.toList ++ noms))
        (h ++ [Event.GetFow guildID (.ok fow)] ++
          [Event.GetTopNominations guildID
            (MAX_POLL_ENTRIES - OrderedMap.Len (tally fow.toList)) (.ok noms)]) := by
  unfold collectAnswers
  simp only [hf, tally_toList, hn, mergeNames_tally]

/-- The assembly of the candidate set: it makes fetches only, at most five of
them requests for random activities; when it succeeds, the calls are the read
of the favorite, the fetch of the nominations and the random requests, none
failed, and the map is the tally of the names received; when it returns an
error, a fetch failed. -/
theorem collectAnswers_spec (cl : Clients) (guildID : GoString) (h : History) :
    ∃ evs : History,
      (collectAnswers cl guildID h).2 = h ++ evs ∧
      (∀ e ∈ evs, e.isFetch = true) ∧
      evs.countP Event.isRandomRequest ≤ 5 ∧
      (∀ answers, (collectAnswers cl guildID h).1 = .ok answers →
        answers = tally (fetchedNames evs) ∧ (∀ e ∈ evs, e.failed = false) ∧
          ∃ fow limit noms rounds,
            evs = Event.GetFow guildID (.ok fow) ::
              Event.GetTopNominations guildID limit (.ok noms) :: rounds ∧
            ∀ e ∈ rounds, e.isRandomRequest = true) ∧
      (∀ err, (collectAnswers cl guildID h).1 = .error err → ∃ e ∈ evs, e.failed = true) := by
  cases hf : cl.GetFow h guildID with
  | error err0 =>
    refine ⟨[Event.GetFow guildID (.error err0)], ?_, ?_, ?_, ?_, ?_⟩
    · simp [collectAnswers, hf]
    · simp [Event.isFetch]
    · simp [Event.isRandomRequest]
    · intro answers ha
      simp [collectAnswers, hf] at ha
    · intro err _
      exact ⟨_, List.mem_singleton_self _, by simp [Event.failed, Except.toBool]⟩
  | ok fow =>
    cases hn : cl.GetTopNominations (h ++ [Event.GetFow guildID (.ok fow)]) guildID
        (MAX_POLL_ENTRIES - OrderedMap.Len (tally fow.toList)) with
    | error err0 =>
      refine ⟨[Event.GetFow guildID (.ok fow), Event.GetTopNominations guildID
        (MAX_POLL_ENTRIES - OrderedMap.Len (tally fow.toList)) (.error err0)], ?_, ?_, ?_, ?_, ?_⟩
      · simp [collectAnswers, hf, tally_toList, hn]
      · simp [Event.isFetch]
      · simp [Event.isRandomRequest]
      · intro answers ha
        simp [collectAnswers, hf, tally_toList, hn] at ha
      · intro err _
        exact ⟨_, List.mem_cons_of_mem _ (List.mem_singleton_self _),
          by simp [Event.failed, Except.toBool]⟩
    | ok noms =>
      rw [collectAnswers_eq cl guildID h fow noms hf hn]
      obtain ⟨evs, hh, hrand, hlen, _, hok, herr⟩ := fallbackRounds_spec cl guildID 5
        (fow.toList ++ noms) (h ++ [Event.GetFow guildID (.ok fow)] ++
          [Event.GetTopNominations guildID
            (MAX_POLL_ENTRIES - OrderedMap.Len (tally fow.toList)) (.ok noms)])
      refine ⟨Event.GetFow guildID (.ok fow) :: Event.GetTopNominations guildID
        (MAX_POLL_ENTRIES - OrderedMap.Len (tally fow.toList)) (.ok noms) :: evs, ?_, ?_, ?_, ?_, ?_⟩
      · rw [hh]
        simp
      · intro e he
        simp only [List.mem_cons] at he
        rcases he with rfl | rfl | he
        · rfl
        · rfl
        · have := hrand e he
          cases e <;> simp_all [Event.isFetch, Event.isRandomRequest]
      · have hc : evs.countP Event.isRandomRequest ≤ evs.length := List.countP_le_length _
        simp only [List.countP_cons, Event.isRandomRequest]
        simp only [Bool.false_eq_true, if_false]
        omega
      · intro answers ha
        obtain ⟨h1, h2⟩ := hok answers ha
        refine ⟨?_, ?_, fow, _, noms, evs, rfl, hrand⟩
        · rw [h1, fetchedNames_cons, fetchedNames_cons]
          cases fow <;> simp [Event.names]
        · intro e he
          simp only [List.mem_cons] at he
          rcases he with rfl | rfl | he
          · simp [Event.failed, Except.toBool]
          · simp [Event.failed, Except.toBool]
          · exact h2 e he
      · intro err he
        obtain ⟨e, hmem, hfail⟩ := herr err he
        exact ⟨e, List.mem_cons_of_mem _ (List.mem_cons_of_mem _ hmem), hfail⟩

/-- The candidate set never holds more than seven names when the nomination
and catalog sources respect the limit they are given. -/
theorem collectAnswers_length_le (cl : Clients) (guildID : GoString) (h : History)
    (hcl : RespectsLimit cl) (answers : OrderedMap)
    (ha : (collectAnswers cl guildID h).1 = .ok answers) : answers.length ≤ 7 := by
  cases hf : cl.GetFow h guildID with
  | error err0 => simp [collectAnswers, hf] at ha
  | ok fow =>
    cases hn : cl.GetTopNominations (h ++ [Event.GetFow guildID (.ok fow)]) guildID
        (MAX_POLL_ENTRIES - OrderedMap.Len (tally fow.toList)) with
    | error err0 => simp [collectAnswers, hf, tally_toList, hn] at ha
    | ok noms =>
      rw [collectAnswers_eq cl guildID h fow noms hf hn] at ha
      have h1 : (tally fow.toList).length ≤ 1 := by
        cases fow <;> simp [tally, firstOccurrences]
      have hpos : 0 ≤ MAX_POLL_ENTRIES - OrderedMap.Len (tally fow.toList) := by
        simp only [OrderedMap.Len, MAX_POLL_ENTRIES]
        omega
      have hl := hcl.1 _ _ _ _ hpos hn
      have hm := length_mergeNames_le (tally fow.toList) noms
      rw [mergeNames_tally] at hm
      have hbound : (tally (fow.toList ++ noms)).length ≤ 7 := by
        simp only [OrderedMap.Len, MAX_POLL_ENTRIES] at hl
        omega
      exact fallbackRounds_length_le cl guildID hcl 5 _ _ _ hbound ha

theorem GeneratePollEntries_ok (cl : Clients) (guildID : GoString) (h : History)
    (entries : List PollAnswer) (hok : (GeneratePollEntries cl guildID h).1 = .ok entries) :
    ∃ answers, (collectAnswers cl guildID h).1 = .ok answers ∧ entries = renderEntries answers := by
  unfold GeneratePollEntries at hok
  cases hc : (collectAnswers cl guildID h).1 with
  | error err =>
    simp only [hc] at hok
    exact absurd hok (by simp)
  | ok answers =>
    simp only [hc, Except.ok.injEq] at hok
    exact ⟨answers, rfl, hok.symm⟩

theorem GeneratePollEntries_history (cl : Clients) (guildID : GoString) (h : History) :
    (GeneratePollEntries cl guildID h).2 = (collectAnswers cl guildID h).2 := by
  unfold GeneratePollEntries
  cases hc : (collectAnswers cl guildID h).1 <;> simp only [hc]

theorem GeneratePollEntries_error (cl : Clients) (guildID : GoString) (h : History)
    (err : GoError) :
    (GeneratePollEntries cl guildID h).1 = .error err ↔
      (collectAnswers cl guildID h).1 = .error err := by
  unfold GeneratePollEntries
  cases hc : (collectAnswers cl guildID h).1 <;> simp [hc]

theorem chessGo_respectsLimit : RespectsLimit chessGo := by
  constructor
  · intro h g limit l hpos hl
    simp only [chessGo, Except.ok.injEq] at hl
    rw [← hl, List.length_take]
    have : ((min limit.toNat 2 : Nat) : Int) ≤ limit.toNat := by
      exact_mod_cast Nat.min_le_left _ _
    simp only [List.length_cons, List.length_nil]
    omega
  · intro h g limit l hpos hl
    simp only [chessGo, emptyPool, Except.ok.injEq] at hl
    rw [← hl]
    simpa using hpos

theorem firstOccurrences_prefix (ns l : List GoString) :
    firstOccurrences ns <+: firstOccurrences (ns ++ l) := by
  induction l generalizing ns with
  | nil => simp
  | cons a l ih =>
    have h1 : firstOccurrences ns <+: firstOccurrences (ns ++ [a]) := by
      rw [firstOccurrences_append_singleton]
      split_ifs
      · exact List.prefix_refl _
      · exact List.prefix_append _ _
    have h2 := ih (ns ++ [a])
    rw [List.append_assoc, List.singleton_append] at h2
    exact h1.trans h2

theorem length_renderEntries (answers : OrderedMap) :
    (renderEntries answers).length = answers.length + 1 := by
  simp [renderEntries]

/-- C5: every list a successful `GeneratePollEntries` returns ends with the
"Reroll" answer and has at least one entry; when the nomination and catalog
sources return no more names than the limit requested, it has at most
`MAX_POLL_ENTRIES + 1 = 8` entries, at most 7 of them before the last. -/
theorem GeneratePollEntries_size (cl : Clients) (guildID : GoString) (h : History)
    (entries : List PollAnswer) (hok : (GeneratePollEntries cl guildID h).1 = .ok entries) :
    entries.getLast? = some rerollAnswer ∧ 1 ≤ entries.length ∧
      (RespectsLimit cl →
        (entries.length : Int) ≤ MAX_POLL_ENTRIES + 1 ∧ entries.length ≤ 8 ∧
          entries.dropLast.length ≤ 7) := by
  obtain ⟨answers, ha, rfl⟩ := GeneratePollEntries_ok cl guildID h entries hok
  refine ⟨by simp [renderEntries], by simp [renderEntries], ?_⟩
  intro hcl
  have hle := collectAnswers_length_le cl guildID h hcl answers ha
  have hlen := length_renderEntries answers
  refine ⟨?_, by omega, ?_⟩
  · simp only [MAX_POLL_ENTRIES]
    omega
  · rw [List.length_dropLast]
    omega

/-- C5 at the scenario with favorite "Chess" and nominations "Go", "Chess". -/
theorem GeneratePollEntries_size_witness :
    ∃ entries, (GeneratePollEntries chessGo (lit "g") []).1 = .ok entries ∧
      entries.getLast? = some rerollAnswer ∧ 1 ≤ entries.length ∧ entries.length ≤ 8 :=
  ⟨_, rfl,
    (GeneratePollEntries_size chessGo (lit "g") [] _ rfl).1,
    (GeneratePollEntries_size chessGo (lit "g") [] _ rfl).2.1,
    ((GeneratePollEntries_size chessGo (lit "g") [] _ rfl).2.2 chessGo_respectsLimit).2.1⟩

/-- C6, refuted as stated: with no favorite, no nominations and an empty
catalog every fetch succeeds and the list is the "Reroll" answer alone (length
1, not 2); and a nomination source that returns nine names for a limit of seven
gives a list of length 10 (not at most 8). -/
theorem GeneratePollEntries_length_counterexample :
    ((GeneratePollEntries emptyPool (lit "g") []).1 = .ok [rerollAnswer] ∧
      (∀ e ∈ (GeneratePollEntries emptyPool (lit "g") []).2, e.failed = false)) ∧
    (∃ entries, (GeneratePollEntries overfull (lit "g") []).1 = .ok entries ∧
      (∀ e ∈ (GeneratePollEntries overfull (lit "g") []).2, e.failed = false) ∧
      entries.length = 10) :=
  ⟨⟨rfl, by decide⟩, ⟨_, rfl, by decide, by decide⟩⟩

/-- C6, amended: when the nomination and catalog sources return no more names
than the limit requested, the list a successful `GeneratePollEntries` returns
has between 1 and `MAX_POLL_ENTRIES + 1` entries, and it has at least 2 (a
candidate besides "Reroll") exactly when a name was received: a favorite, a
nomination or a random activity. -/
theorem GeneratePollEntries_length_bounds (cl : Clients) (guildID : GoString) (h : History)
    (entries : List PollAnswer) (hok : (GeneratePollEntries cl guildID h).1 = .ok entries)
    (hcl : RespectsLimit cl) :
    1 ≤ entries.length ∧ (entries.length : Int) ≤ MAX_POLL_ENTRIES + 1 ∧
      (2 ≤ entries.length ↔
        fetchedNames ((GeneratePollEntries cl guildID h).2.drop h.length) ≠ []) := by
  obtain ⟨answers, ha, rfl⟩ := GeneratePollEntries_ok cl guildID h entries hok
  have hle := collectAnswers_length_le cl guildID h hcl answers ha
  have hlen := length_renderEntries answers
  obtain ⟨evs, hh, _, _, hgood, _⟩ := collectAnswers_spec cl guildID h
  obtain ⟨htally, _, _⟩ := hgood answers ha
  rw [GeneratePollEntries_history, hh, List.drop_left]
  refine ⟨by omega, ?_, ?_⟩
  · simp only [MAX_POLL_ENTRIES]
    omega
  · rw [hlen, htally]
    cases hn : fetchedNames evs with
    | nil => simp [tally, firstOccurrences]
    | cons a l => simp [tally, firstOccurrences]

/-- C6 (amended) at the scenario with favorite "Chess" and nominations "Go",
"Chess": three entries. -/
theorem GeneratePollEntries_length_bounds_witness :
    ∃ entries, (GeneratePollEntries chessGo (lit "g") []).1 = .ok entries ∧
      1 ≤ entries.length ∧ (entries.length : Int) ≤ MAX_POLL_ENTRIES + 1 ∧
      (2 ≤ entries.length ↔
        fetchedNames ((GeneratePollEntries chessGo (lit "g") []).2.drop ([] : History).length)
          ≠ []) :=
  ⟨_, rfl, GeneratePollEntries_length_bounds chessGo (lit "g") [] _ rfl chessGo_respectsLimit⟩

/-- C7, refuted as stated: when the nomination and catalog sources always return
the same name of 56 bytes, the first answer returned is not that name (it is
its truncation). -/
theorem GeneratePollEntries_fallback_counterexample :
    (GeneratePollEntries (singleName longName) (lit "g") []).1.toOption.map answerTexts ≠
        some [some longName, some (lit "Reroll")] ∧
      (GeneratePollEntries (singleName longName) (lit "g") []).1.toOption.map answerTexts =
        some [some (truncateActivityName longName), some (lit "Reroll")] := by
  constructor
  · decide
  · decide

/-- C7, amended: `GeneratePollEntries` always returns, after at most 5 requests
for random activities, and makes none when the map already holds
`MAX_POLL_ENTRIES` names once the nominations are merged; when there is no
favorite and the nomination and catalog sources always return the same single
name `x`, it makes exactly 5 requests and returns the truncation of `x` (which
is `x` itself when `x` has at most 55 bytes) followed by "Reroll". -/
theorem GeneratePollEntries_fallback_rounds (cl : Clients) (guildID : GoString) (h : History) :
    (∃ evs, (GeneratePollEntries cl guildID h).2 = h ++ evs ∧
      evs.countP Event.isRandomRequest ≤ 5) ∧
    (∀ fow noms, cl.GetFow h guildID = .ok fow →
      cl.GetTopNominations (h ++ [Event.GetFow guildID (.ok fow)]) guildID
        (MAX_POLL_ENTRIES - OrderedMap.Len (tally fow.toList)) = .ok noms →
      MAX_POLL_ENTRIES ≤ OrderedMap.Len (tally (fow.toList ++ noms)) →
      ((GeneratePollEntries cl guildID h).2.drop h.length).countP Event.isRandomRequest = 0) ∧
    (∀ x, (∀ h' g', cl.GetFow h' g' = .ok none) →
      (∀ h' g' limit, cl.GetTopNominations h' g' limit = .ok [x]) →
      (∀ h' g' limit, cl.GetRandomActivities h' g' limit = .ok [x]) →
      (GeneratePollEntries cl guildID h).1 =
          .ok [{ AnswerID := 0, Media := some { Text := truncateActivityName x, Emoji := none } },
            rerollAnswer] ∧
        (x.length ≤ 55 → (GeneratePollEntries cl guildID h).1.toOption.map answerTexts =
          some [some x, some (lit "Reroll")]) ∧
        ((GeneratePollEntries cl guildID h).2.drop h.length).countP
          Event.isRandomRequest = 5) := by
  refine ⟨?_, ?_, ?_⟩
  · obtain ⟨evs, hh, _, hc, _, _⟩ := collectAnswers_spec cl guildID h
    exact ⟨evs, by rw [GeneratePollEntries_history, hh], hc⟩
  · intro fow noms hf hn hfull
    rw [GeneratePollEntries_history, collectAnswers_eq cl guildID h fow noms hf hn]
    obtain ⟨evs, hh, _, _, hnil, _, _⟩ := fallbackRounds_spec cl guildID 5 (fow.toList ++ noms)
      (h ++ [Event.GetFow guildID (.ok fow)] ++
        [Event.GetTopNominations guildID
          (MAX_POLL_ENTRIES - OrderedMap.Len (tally fow.toList)) (.ok noms)])
    rw [hh, hnil hfull]
    simp [Event.isRandomRequest]
  · intro x hF hN hR
    have hc : collectAnswers cl guildID h =
        (.ok [(x, 6)], h ++ [Event.GetFow guildID (.ok none),
          Event.GetTopNominations guildID 7 (.ok [x]),
          Event.GetRandomActivities guildID 6 (.ok [x]),
          Event.GetRandomActivities guildID 6 (.ok [x]),
          Event.GetRandomActivities guildID 6 (.ok [x]),
          Event.GetRandomActivities guildID 6 (.ok [x]),
          Event.GetRandomActivities guildID 6 (.ok [x])]) := by
      simp [collectAnswers, hF, hN, hR, fallbackRounds, mergeNames, OrderedMap.Set,
        OrderedMap.GetOrDefault, OrderedMap.Len, MAX_POLL_ENTRIES, repeating]
    have hg : GeneratePollEntries cl guildID h =
        (.ok (renderEntries [(x, 6)]), h ++ [Event.GetFow guildID (.ok none),
          Event.GetTopNominations guildID 7 (.ok [x]),
          Event.GetRandomActivities guildID 6 (.ok [x]),
          Event.GetRandomActivities guildID 6 (.ok [x]),
          Event.GetRandomActivities guildID 6 (.ok [x]),
          Event.GetRandomActivities guildID 6 (.ok [x]),
          Event.GetRandomActivities guildID 6 (.ok [x])]) := by
      simp only [GeneratePollEntries, hc]
    rw [hg]
    refine ⟨rfl, ?_, ?_⟩
    · intro hx
      have ht : truncateActivityName x = x := by
        simp [truncateActivityName, Nat.not_lt.mpr hx]
      simp [renderEntries, answerTexts, Except.toOption, ht, rerollAnswer]
    · simp [Event.isRandomRequest]

/-- C7 (amended) at the source that always returns "Go": five requests for
random activities, answers "Go" and "Reroll". -/
theorem GeneratePollEntries_fallback_rounds_witness :
    (GeneratePollEntries (singleName (lit "Go")) (lit "g") []).1.toOption.map answerTexts =
        some [some (lit "Go"), some (lit "Reroll")] ∧
      ((GeneratePollEntries (singleName (lit "Go")) (lit "g") []).2.drop
        ([] : History).length).countP Event.isRandomRequest = 5 :=
  ⟨((GeneratePollEntries_fallback_rounds (singleName (lit "Go")) (lit "g") []).2.2 (lit "Go")
      (fun _ _ => rfl) (fun _ _ _ => rfl) (fun _ _ _ => rfl)).2.1 (by decide),
   ((GeneratePollEntries_fallback_rounds (singleName (lit "Go")) (lit "g") []).2.2 (lit "Go")
      (fun _ _ => rfl) (fun _ _ _ => rfl) (fun _ _ _ => rfl)).2.2⟩

/-- C8: for every successful `GeneratePollEntries`, the calls made are the read
of the favorite, the fetch of the nominations and then the random requests of
the fallback rounds; the map assembled is the tally of the names received in
that order (each distinct name once, in order of first occurrence, weighted by
its number of occurrences), and the answers are the truncations of those names
in that order, followed by "Reroll".  Merging further names into a tally keeps
the names already there in place and adds the new occurrences to their
weights. -/
theorem GeneratePollEntries_content (cl : Clients) (guildID : GoString) (h : History)
    (entries : List PollAnswer) (hok : (GeneratePollEntries cl guildID h).1 = .ok entries) :
    (∃ fow limit noms rounds,
      (GeneratePollEntries cl guildID h).2 =
          h ++ Event.GetFow guildID (.ok fow) ::
            Event.GetTopNominations guildID limit (.ok noms) :: rounds ∧
        (∀ e ∈ rounds, e.isRandomRequest = true ∧ e.failed = false) ∧
        (collectAnswers cl guildID h).1 =
          .ok (tally (fow.toList ++ noms ++ fetchedNames rounds)) ∧
        entries =
          (firstOccurrences (fow.toList ++ noms ++ fetchedNames rounds)).map
              (fun n =>
                { AnswerID := 0
                  Media := some { Text := truncateActivityName n, Emoji := none } }) ++
            [rerollAnswer]) ∧
    (∀ ns l : List GoString,
      mergeNames (tally ns) l = tally (ns ++ l) ∧
        firstOccurrences ns <+: firstOccurrences (ns ++ l) ∧
        ∀ n, ((ns ++ l).count n : Int) = ns.count n + l.count n) := by
  constructor
  · obtain ⟨answers, ha, rfl⟩ := GeneratePollEntries_ok cl guildID h entries hok
    obtain ⟨evs, hh, _, _, hgood, _⟩ := collectAnswers_spec cl guildID h
    obtain ⟨htally, hnf, fow, limit, noms, rounds, hevs, hrand⟩ := hgood answers ha
    have hnames : fetchedNames evs = fow.toList ++ noms ++ fetchedNames rounds := by
      rw [hevs, fetchedNames_cons, fetchedNames_cons]
      cases fow <;> simp [Event.names]
    refine ⟨fow, limit, noms, rounds, ?_, ?_, ?_, ?_⟩
    · rw [GeneratePollEntries_history, hh, hevs]
    · intro e he
      refine ⟨hrand e he, hnf e ?_⟩
      rw [hevs]
      exact List.mem_cons_of_mem _ (List.mem_cons_of_mem _ he)
    · rw [ha, htally, hnames]
    · rw [htally, hnames]
      simp [renderEntries, tally, List.map_map, Function.comp_def]
  · intro ns l
    refine ⟨mergeNames_tally ns l, firstOccurrences_prefix ns l, ?_⟩
    intro n
    rw [List.count_append]
    push_cast
    rfl

/-- C8 at the scenario: favorite "Chess", nominations "Go" and "Chess", nothing
from the catalog; the set is Chess:2, Go:1 and the answers are "Chess", "Go",
"Reroll". -/
theorem GeneratePollEntries_content_witness :
    (collectAnswers chessGo (lit "g") []).1 = .ok [(lit "Chess", 2), (lit "Go", 1)] ∧
      (GeneratePollEntries chessGo (lit "g") []).1.toOption.map answerTexts =
        some [some (lit "Chess"), some (lit "Go"), some (lit "Reroll")] ∧
      ∃ fow limit noms rounds,
        (GeneratePollEntries chessGo (lit "g") []).2 =
            [] ++ Event.GetFow (lit "g") (.ok fow) ::
              Event.GetTopNominations (lit "g") limit (.ok noms) :: rounds ∧
          (∀ e ∈ rounds, e.isRandomRequest = true ∧ e.failed = false) ∧
          (collectAnswers chessGo (lit "g") []).1 =
            .ok (tally (fow.toList ++ noms ++ fetchedNames rounds)) ∧
          (renderEntries [(lit "Chess", 2), (lit "Go", 1)]) =
            (firstOccurrences (fow.toList ++ noms ++ fetchedNames rounds)).map
                (fun n =>
                  { AnswerID := 0
                    Media := some { Text := truncateActivityName n, Emoji := none } }) ++
              [rerollAnswer] :=
  ⟨rfl, by decide,
    (GeneratePollEntries_content chessGo (lit "g") []
      (renderEntries [(lit "Chess", 2), (lit "Go", 1)]) rfl).1⟩

/-- C9: `GeneratePollEntries` makes fetches only (the favorite, the nominations,
random activities); it returns an error exactly when one of the fetches it made
failed, and a list of answers when none failed; its result is either a list or
an error, never both. -/
theorem GeneratePollEntries_error_iff (cl : Clients) (guildID : GoString) (h : History) :
    ∃ evs : History,
      (GeneratePollEntries cl guildID h).2 = h ++ evs ∧
      (∀ e ∈ evs, e.isFetch = true) ∧
      ((∃ err, (GeneratePollEntries cl guildID h).1 = .error err) ↔
        ∃ e ∈ evs, e.failed = true) ∧
      ((∀ e ∈ evs, e.failed = false) ↔
        ∃ entries, (GeneratePollEntries cl guildID h).1 = .ok entries) := by
  obtain ⟨evs, hh, hfetch, _, hgood, hbad⟩ := collectAnswers_spec cl guildID h
  have hiff : (∃ err, (GeneratePollEntries cl guildID h).1 = .error err) ↔
      ∃ e ∈ evs, e.failed = true := by
    constructor
    · rintro ⟨err, he⟩
      exact hbad err ((GeneratePollEntries_error cl guildID h err).mp he)
    · rintro ⟨e, hmem, hfail⟩
      cases hc : (collectAnswers cl guildID h).1 with
      | error err => exact ⟨err, (GeneratePollEntries_error cl guildID h err).mpr hc⟩
      | ok answers =>
        have := (hgood answers hc).2.1 e hmem
        rw [this] at hfail
        exact absurd hfail (by simp)
  refine ⟨evs, by rw [GeneratePollEntries_history, hh], hfetch, hiff, ?_⟩
  constructor
  · intro hall
    cases hg : (GeneratePollEntries cl guildID h).1 with
    | ok entries => exact ⟨entries, rfl⟩
    | error err =>
      obtain ⟨e, hmem, hfail⟩ := hiff.mp ⟨err, hg⟩
      rw [hall e hmem] at hfail
      exact absurd hfail (by simp)
  · rintro ⟨entries, hok⟩ e hmem
    cases hf : e.failed with
    | false => rfl
    | true =>
      obtain ⟨err, he⟩ := hiff.mpr ⟨e, hmem, hf⟩
      rw [hok] at he
      exact absurd he (by simp)

/-- C9 at a catalog that fails: the build returns an error; and at the empty
pool, where no fetch fails: it returns a list. -/
theorem GeneratePollEntries_error_iff_witness :
    (∃ err, (GeneratePollEntries failingCatalog (lit "g") []).1 = .error err) ∧
      (∃ entries, (GeneratePollEntries emptyPool (lit "g") []).1 = .ok entries) := by
  constructor
  · obtain ⟨evs, hh, _, hiff, _⟩ := GeneratePollEntries_error_iff failingCatalog (lit "g") []
    refine hiff.mpr ⟨Event.GetRandomActivities (lit "g") 7 (.error (.Other 0)), ?_, rfl⟩
    have hd : (GeneratePollEntries failingCatalog (lit "g") []).2 =
        [Event.GetFow (lit "g") (.ok none), Event.GetTopNominations (lit "g") 7 (.ok []),
          Event.GetRandomActivities (lit "g") 7 (.error (.Other 0))] := rfl
    rw [hd] at hh
    simp only [List.nil_append] at hh
    rw [← hh]
    simp
  · obtain ⟨evs, hh, _, _, hall⟩ := GeneratePollEntries_error_iff emptyPool (lit "g") []
    refine hall.mp ?_
    simp only [List.nil_append] at hh
    rw [← hh]
    decide

/-! ## The start and end commands -/

theorem ExtendsBy.refl (p : Event → Bool) (h : History) : ExtendsBy p h h :=
  ⟨[], by simp, by simp⟩

theorem ExtendsBy.snoc {p : Event → Bool} {h h' : History} (hx : ExtendsBy p h h') (e : Event)
    (he : p e = true) : ExtendsBy p h (h' ++ [e]) := by
  obtain ⟨evs, rfl, hall⟩ := hx
  refine ⟨evs ++ [e], by simp, ?_⟩
  intro x hxm
  rcases List.mem_append.mp hxm with hm | hm
  · exact hall x hm
  · rw [List.mem_singleton.mp hm]
    exact he

theorem ExtendsBy.trans {p : Event → Bool} {h h' h'' : History} (h1 : ExtendsBy p h h')
    (h2 : ExtendsBy p h' h'') : ExtendsBy p h h'' := by
  obtain ⟨evs, rfl, hall⟩ := h1
  obtain ⟨evs', rfl, hall'⟩ := h2
  refine ⟨evs ++ evs', by simp, ?_⟩
  intro x hxm
  rcases List.mem_append.mp hxm with hm | hm
  · exact hall x hm
  · exact hall' x hm

theorem GeneratePollEntries_noSetFow (cl : Clients) (guildID : GoString) (h : History) :
    ExtendsBy (fun e => !e.isSetFow) h (GeneratePollEntries cl guildID h).2 := by
  obtain ⟨evs, hh, hfetch, _⟩ := collectAnswers_spec cl guildID h
  refine ⟨evs, by rw [GeneratePollEntries_history, hh], ?_⟩
  intro e he
  have := hfetch e he
  cases e <;> simp_all [Event.isFetch, Event.isSetFow]

theorem waitForResults_noSetFow (cl : Clients) (pollID : PollInfo) (h : History) :
    ExtendsBy (fun e => !e.isSetFow) h (waitForResults cl pollID h).2 := by
  unfold waitForResults
  simp only []
  repeat' split
  all_goals exact (ExtendsBy.refl _ h).snoc _ rfl

theorem backoffRetry_noSetFow (cl : Clients) (pollID : PollInfo) :
    ∀ (retries : Nat) (h : History),
      ExtendsBy (fun e => !e.isSetFow) h (backoffRetry cl pollID retries h).2 := by
  intro retries
  induction retries with
  | zero =>
    intro h
    exact waitForResults_noSetFow cl pollID h
  | succ n ih =>
    intro h
    have hw := waitForResults_noSetFow cl pollID h
    unfold backoffRetry
    simp only []
    split
    · exact hw
    · exact hw.trans (ih _)

theorem expireAndWait_noSetFow (cl : Clients) (pollID : PollInfo) (h : History) :
    ExtendsBy (fun e => !e.isSetFow) h (expireAndWait cl pollID h).2 := by
  unfold expireAndWait
  simp only []
  repeat' split
  all_goals
    repeat' first
      | exact ExtendsBy.refl _ _
      | refine ExtendsBy.snoc ?_ _ rfl
      | refine ExtendsBy.trans ?_ (backoffRetry_noSetFow _ _ _ _)

/-- The first part of `EndPollCommand.Execute` never writes the favorite. -/
theorem fetchFinalizedPoll_noSetFow (c : EndPollCommand) (cl : Clients) (h : History) :
    ExtendsBy (fun e => !e.isSetFow) h (fetchFinalizedPoll c cl h).2 := by
  unfold fetchFinalizedPoll
  simp only []
  repeat' split
  all_goals
    repeat' first
      | exact ExtendsBy.refl _ _
      | refine ExtendsBy.snoc ?_ _ rfl
      | refine ExtendsBy.trans ?_ (expireAndWait_noSetFow _ _ _)

/-- `StartPollCommand.Execute` never writes the favorite. -/
theorem StartPoll_noSetFow (c : StartPollCommand) (cl : Clients) (h : History) :
    ExtendsBy (fun e => !e.isSetFow) h (c.Execute cl h).2 := by
  unfold StartPollCommand.Execute
  simp only []
  repeat' split
  all_goals
    repeat' first
      | exact ExtendsBy.refl _ _
      | refine ExtendsBy.snoc ?_ _ rfl
      | refine ExtendsBy.trans ?_ (GeneratePollEntries_noSetFow _ _ _)

theorem expireAndWait_finalized (cl : Clients) (pollID : PollInfo) (h : History) (poll : Poll)
    (hp : (expireAndWait cl pollID h).1 = .inr poll) : notFinalized poll = false := by
  unfold expireAndWait at hp
  simp only [] at hp
  repeat' split at hp
  all_goals simp_all

/-- The poll `EndPollCommand.Execute` hands to `determinePollWinner` is
finalized. -/
theorem fetchFinalizedPoll_finalized (c : EndPollCommand) (cl : Clients) (h : History)
    (poll : Poll) (hp : (fetchFinalizedPoll c cl h).1 = .inr poll) :
    notFinalized poll = false := by
  unfold fetchFinalizedPoll at hp
  simp only [] at hp
  repeat' split at hp
  all_goals first
    | exact expireAndWait_finalized _ _ _ _ hp
    | simp_all

/-- C10: let `poll` be the poll `EndPollCommand.Execute` has fetched; it is
finalized.  If one of its entries has a count strictly above every other (no
tie) and the answer with that entry's ID has the text "Reroll", then
`determinePollWinner` returns "Reroll" without a tie.  Whenever it returns
that, `EndPollCommand.Execute` is exactly the run of `StartPollCommand.Execute`
for the same guild with the active-poll check skipped, continued from the
history reached (same response, same error, same calls), and no call of the
whole run writes the favorite. -/
theorem EndPoll_reroll (sortFunc : SortFunc) (c : EndPollCommand) (cl : Clients) (h : History)
    (poll : Poll) (hfetch : (fetchFinalizedPoll c cl h).1 = .inr poll) :
    notFinalized poll = false ∧
    (∀ (results : PollResults) (top : PollAnswerCount) (l1 l2 : List PollAnswerCount)
        (a : PollAnswer) (media : PollMedia),
      sortFunc.Sorts → poll.Results = some results →
      results.AnswerCounts.getD [] = (l1 ++ top :: l2).map some →
      (∀ x ∈ l1 ++ l2, x.Count < top.Count) →
      poll.Answers.find? (fun a => decide (a.AnswerID = top.ID)) = some a →
      a.Media = some media → media.Text = lit "Reroll" →
      determinePollWinner sortFunc poll = some (lit "Reroll", false)) ∧
    (determinePollWinner sortFunc poll = some (lit "Reroll", false) →
      EndPollCommand.Execute sortFunc c cl h =
          StartPollCommand.Execute { GuildID := c.GuildID, skipActivePollCheck := true } cl
            (fetchFinalizedPoll c cl h).2 ∧
        ExtendsBy (fun e => !e.isSetFow) h (fetchFinalizedPoll c cl h).2 ∧
        ExtendsBy (fun e => !e.isSetFow) h (EndPollCommand.Execute sortFunc c cl h).2) := by
  refine ⟨fetchFinalizedPoll_finalized c cl h poll hfetch, ?_, ?_⟩
  · intro results top l1 l2 a media hsf hR hA hdom ha hm ht
    rw [determinePollWinner_of_top sortFunc hsf poll results top l1 l2 hR hA hdom]
    simp only [winnerText, ha, hm, ht]
  · intro hwin
    have hexec : EndPollCommand.Execute sortFunc c cl h =
        StartPollCommand.Execute { GuildID := c.GuildID, skipActivePollCheck := true } cl
          (fetchFinalizedPoll c cl h).2 := by
      unfold EndPollCommand.Execute
      simp only [hfetch, hwin]
      simp [NewStartPollCommand, StartPollCommand.SkipActivePollCheck]
    refine ⟨hexec, fetchFinalizedPoll_noSetFow c cl h, ?_⟩
    rw [hexec]
    exact (fetchFinalizedPoll_noSetFow c cl h).trans (StartPoll_noSetFow _ cl _)

/-- C10 at a group whose finalized poll has "Reroll" ahead of "Chess" by 4
votes to 1: ending the poll starts a new one and returns its link. -/
theorem EndPoll_reroll_witness :
    determinePollWinner insertionSortFunc
        (pollWith [lit "Chess", lit "Reroll"] [(1, 1), (2, 4)]) = some (lit "Reroll", false) ∧
      (EndPollCommand.Execute insertionSortFunc (NewEndPollCommand (lit "g")) rerollWins [] =
        StartPollCommand.Execute { GuildID := lit "g", skipActivePollCheck := true } rerollWins
          (fetchFinalizedPoll (NewEndPollCommand (lit "g")) rerollWins []).2) ∧
      (EndPollCommand.Execute insertionSortFunc (NewEndPollCommand (lit "g")) rerollWins []).1 =
        .Return (some (NewWebhookEdit
          (lit "Poll created: https://discord.com/channels/g/c/1"))) none :=
  ⟨(EndPoll_reroll insertionSortFunc (NewEndPollCommand (lit "g")) rerollWins []
      (pollWith [lit "Chess", lit "Reroll"] [(1, 1), (2, 4)]) rfl).2.1 _ ⟨2, 4⟩ [⟨1, 1⟩] []
      _ ⟨lit "Reroll", none⟩ insertionSortFunc_sorts rfl rfl (by decide) rfl rfl rfl,
   ((EndPoll_reroll insertionSortFunc (NewEndPollCommand (lit "g")) rerollWins []
      (pollWith [lit "Chess", lit "Reroll"] [(1, 1), (2, 4)]) rfl).2.2 (by decide)).1,
   by decide⟩

/-! ## The record of a group along a run -/

theorem replay_append (g : GoString) (s : GroupState) (evs evs' : History) :
    GroupState.replay g s (evs ++ evs') = GroupState.replay g (GroupState.replay g s evs) evs' := by
  simp [GroupState.replay]

theorem apply_of_not_write (g : GoString) (s : GroupState) (e : Event)
    (he : e.isWrite = false) : GroupState.apply g s e = s := by
  cases e <;> simp_all [Event.isWrite, GroupState.apply]

/-- Calls that are not writes leave the record of the group as it is. -/
theorem replay_of_no_write (g : GoString) (s : GroupState) (evs : History)
    (h : ∀ e ∈ evs, (!e.isWrite) = true) : GroupState.replay g s evs = s := by
  induction evs generalizing s with
  | nil => rfl
  | cons e evs ih =>
    have he : e.isWrite = false := by simpa using h e (List.mem_cons_self _ _)
    have hrest : ∀ x ∈ evs, (!x.isWrite) = true := fun x hx => h x (List.mem_cons_of_mem _ hx)
    show GroupState.replay g (GroupState.apply g s e) evs = s
    rw [apply_of_not_write g s e he]
    exact ih s hrest

theorem callsSince_append (h evs : History) : callsSince h (h ++ evs) = evs := by
  simp [callsSince]

theorem ExtendsBy.callsSince_eq {p : Event → Bool} {h h' : History} (hx : ExtendsBy p h h') :
    h' = h ++ callsSince h h' ∧ ∀ e ∈ callsSince h h', p e = true := by
  obtain ⟨evs, rfl, hall⟩ := hx
  rw [callsSince_append]
  exact ⟨rfl, hall⟩

theorem ExtendsBy.mono {p q : Event → Bool} {h h' : History} (hx : ExtendsBy p h h')
    (hpq : ∀ e, p e = true → q e = true) : ExtendsBy q h h' := by
  obtain ⟨evs, rfl, hall⟩ := hx
  exact ⟨evs, rfl, fun e he => hpq e (hall e he)⟩

theorem ExtendsWhenPoll.after {p : Event → Bool} {h h' : History}
    {r : (Outcome ⊕ Poll) × History} (h1 : ExtendsBy p h h') (h2 : ExtendsWhenPoll p h' r) :
    ExtendsWhenPoll p h r := by
  unfold ExtendsWhenPoll at h2 ⊢
  cases hr : r.1 with
  | inl o => trivial
  | inr poll =>
    rw [hr] at h2
    exact h1.trans h2

theorem GeneratePollEntries_reads (cl : Clients) (guildID : GoString) (h : History) :
    ExtendsBy (fun e => !e.isWrite && !e.isPollAction) h (GeneratePollEntries cl guildID h).2 := by
  obtain ⟨evs, hh, hfetch, _⟩ := collectAnswers_spec cl guildID h
  refine ⟨evs, by rw [GeneratePollEntries_history, hh], ?_⟩
  intro e he
  have := hfetch e he
  cases e <;> simp_all [Event.isFetch, Event.isWrite, Event.isPollAction]

theorem waitForResults_no_write (cl : Clients) (pollID : PollInfo) (h : History) :
    ExtendsBy (fun e => !e.isWrite) h (waitForResults cl pollID h).2 := by
  unfold waitForResults
  simp only []
  repeat' split
  all_goals exact (ExtendsBy.refl _ h).snoc _ rfl

theorem backoffRetry_no_write (cl : Clients) (pollID : PollInfo) :
    ∀ (retries : Nat) (h : History),
      ExtendsBy (fun e => !e.isWrite) h (backoffRetry cl pollID retries h).2 := by
  intro retries
  induction retries with
  | zero =>
    intro h
    exact waitForResults_no_write cl pollID h
  | succ n ih =>
    intro h
    have hw := waitForResults_no_write cl pollID h
    unfold backoffRetry
    simp only []
    split
    · exact hw
    · exact hw.trans (ih _)

theorem expireAndWait_no_write (cl : Clients) (pollID : PollInfo) (h : History) :
    ExtendsBy (fun e => !e.isWrite) h (expireAndWait cl pollID h).2 := by
  unfold expireAndWait
  simp only []
  repeat' split
  all_goals
    repeat' first
      | exact ExtendsBy.refl _ _
      | refine ExtendsBy.snoc ?_ _ rfl
      | refine ExtendsBy.trans ?_ (backoffRetry_no_write _ _ _ _)

theorem expireAndWait_whenPoll (cl : Clients) (pollID : PollInfo) (h : History) :
    ExtendsWhenPoll (fun e => !e.isWrite) h (expireAndWait cl pollID h) := by
  unfold ExtendsWhenPoll
  cases hr : (expireAndWait cl pollID h).1 with
  | inl o => trivial
  | inr poll => exact expireAndWait_no_write cl pollID h

theorem fetchFinalizedPoll_whenPoll (c : EndPollCommand) (cl : Clients) (h : History) :
    ExtendsWhenPoll (fun e => !e.isWrite) h (fetchFinalizedPoll c cl h) := by
  unfold fetchFinalizedPoll
  simp only []
  repeat' split
  all_goals first
    | exact True.intro
    | (refine ExtendsWhenPoll.after ?_ (expireAndWait_whenPoll _ _ _)
       repeat' first
         | exact ExtendsBy.refl _ _
         | refine ExtendsBy.snoc ?_ _ rfl)
    | (show ExtendsBy _ _ _
       repeat' first
         | exact ExtendsBy.refl _ _
         | refine ExtendsBy.snoc ?_ _ rfl)

/-- When the first part of `EndPollCommand.Execute` hands on a poll, it has
made no write to the record of the group. -/
theorem fetchFinalizedPoll_no_write (c : EndPollCommand) (cl : Clients) (h : History)
    (poll : Poll) (hp : (fetchFinalizedPoll c cl h).1 = .inr poll) :
    ExtendsBy (fun e => !e.isWrite) h (fetchFinalizedPoll c cl h).2 := by
  have hw := fetchFinalizedPoll_whenPoll c cl h
  unfold ExtendsWhenPoll at hw
  rw [hp] at hw
  exact hw

theorem recoverTruncatedActivity_no_write (cl : Clients) (name guildID : GoString)
    (h : History) :
    ExtendsBy (fun e => !e.isWrite) h (recoverTruncatedActivity cl name guildID h).2 := by
  unfold recoverTruncatedActivity
  simp only []
  repeat' split
  all_goals
    repeat' first
      | exact ExtendsBy.refl _ _
      | refine ExtendsBy.snoc ?_ _ rfl

theorem replay_since (g : GoString) (s : GroupState) (h h' : History) (evs : History)
    (hx : ExtendsBy (fun e => !e.isWrite) h h') :
    GroupState.replay g s (callsSince h (h' ++ evs)) = GroupState.replay g s evs := by
  obtain ⟨evs0, rfl, hall⟩ := hx
  rw [List.append_assoc, callsSince_append, replay_append, replay_of_no_write g s evs0 hall]

/-- C11: when `EndPollCommand.Execute` has fetched a finalized poll for which
`determinePollWinner` reports a tie, and the two clearing calls succeed, it
returns the tie response with no error, having made two writes only: it clears
the active poll and clears the nominations.  The favorite of the group is as
before, the active poll pointer is gone and the nomination pool is empty. -/
theorem EndPoll_tie (sortFunc : SortFunc) (c : EndPollCommand) (cl : Clients) (h : History)
    (poll : Poll) (hfetch : (fetchFinalizedPoll c cl h).1 = .inr poll)
    (htie : reportsTie (determinePollWinner sortFunc poll))
    (hc : cl.ClearActivePoll (fetchFinalizedPoll c cl h).2 c.GuildID = none)
    (hn : cl.ClearNominations
      ((fetchFinalizedPoll c cl h).2 ++ [Event.ClearActivePoll c.GuildID none]) c.GuildID = none) :
    EndPollCommand.Execute sortFunc c cl h =
        (.Return (some (NewWebhookEdit (lit "Ended the poll with a tie"))) none,
          (fetchFinalizedPoll c cl h).2 ++
            [Event.ClearActivePoll c.GuildID none, Event.ClearNominations c.GuildID none]) ∧
      ExtendsBy (fun e => !e.isWrite) h (fetchFinalizedPoll c cl h).2 ∧
      ∀ s : GroupState,
        (GroupState.replay c.GuildID s
            (callsSince h (EndPollCommand.Execute sortFunc c cl h).2)).favorite = s.favorite ∧
          (GroupState.replay c.GuildID s
            (callsSince h (EndPollCommand.Execute sortFunc c cl h).2)).activePoll = none ∧
          (GroupState.replay c.GuildID s
            (callsSince h (EndPollCommand.Execute sortFunc c cl h).2)).nominations = [] := by
  obtain ⟨w, hw⟩ := htie
  have hexec : EndPollCommand.Execute sortFunc c cl h =
      (.Return (some (NewWebhookEdit (lit "Ended the poll with a tie"))) none,
        (fetchFinalizedPoll c cl h).2 ++
          [Event.ClearActivePoll c.GuildID none, Event.ClearNominations c.GuildID none]) := by
    unfold EndPollCommand.Execute
    simp only [hfetch, hw]
    simp [finishEndPoll, hc, hn]
  have hnw := fetchFinalizedPoll_no_write c cl h poll hfetch
  refine ⟨hexec, hnw, ?_⟩
  intro s
  rw [hexec]
  simp only [replay_since c.GuildID s h _ _ hnw]
  simp [GroupState.replay, GroupState.apply]

/-- C11 at finalized results A:2, B:2 and a group with favorite "Go": a tie;
the favorite stays "Go", the pointer and the nominations are cleared. -/
theorem EndPoll_tie_witness :
    (EndPollCommand.Execute insertionSortFunc (NewEndPollCommand (lit "g"))
        (withPoll (pollWith [lit "A", lit "B"] [(1, 2), (2, 2)])) []).1 =
        .Return (some (NewWebhookEdit (lit "Ended the poll with a tie"))) none ∧
      GroupState.replay (lit "g") sampleState
        (callsSince [] (EndPollCommand.Execute insertionSortFunc (NewEndPollCommand (lit "g"))
          (withPoll (pollWith [lit "A", lit "B"] [(1, 2), (2, 2)])) []).2) =
        { activePoll := none, favorite := some (lit "Go"), nominations := [] } := by
  have hT := EndPoll_tie insertionSortFunc (NewEndPollCommand (lit "g"))
    (withPoll (pollWith [lit "A", lit "B"] [(1, 2), (2, 2)])) []
    (pollWith [lit "A", lit "B"] [(1, 2), (2, 2)]) rfl ⟨lit "", by decide⟩ rfl rfl
  exact ⟨by rw [hT.1], by decide⟩

/-- C12: when `EndPollCommand.Execute` has fetched a finalized poll for which
`determinePollWinner` returns a text other than "Reroll" without a tie, the
recovery of the name succeeds with `name` and the three writes succeed, it
returns the response naming `name` with no error; the favorite of the group is
then `name`, the active poll pointer is gone and the nomination pool is
empty. -/
theorem EndPoll_winner (sortFunc : SortFunc) (c : EndPollCommand) (cl : Clients) (h : History)
    (poll : Poll) (text name : GoString)
    (hfetch : (fetchFinalizedPoll c cl h).1 = .inr poll)
    (hwin : determinePollWinner sortFunc poll = some (text, false))
    (hne : text ≠ lit "Reroll")
    (hrec : (recoverTruncatedActivity cl text c.GuildID (fetchFinalizedPoll c cl h).2).1 =
      .ok name)
    (hs : cl.SetFow (recoverTruncatedActivity cl text c.GuildID (fetchFinalizedPoll c cl h).2).2
      c.GuildID name = none)
    (hc : cl.ClearActivePoll
      ((recoverTruncatedActivity cl text c.GuildID (fetchFinalizedPoll c cl h).2).2 ++
        [Event.SetFow c.GuildID name none]) c.GuildID = none)
    (hn : cl.ClearNominations
      ((recoverTruncatedActivity cl text c.GuildID (fetchFinalizedPoll c cl h).2).2 ++
        [Event.SetFow c.GuildID name none] ++ [Event.ClearActivePoll c.GuildID none])
      c.GuildID = none) :
    EndPollCommand.Execute sortFunc c cl h =
        (.Return (some (NewWebhookEdit (lit "Poll ended\nWinner: " ++ name))) none,
          (recoverTruncatedActivity cl text c.GuildID (fetchFinalizedPoll c cl h).2).2 ++
            [Event.SetFow c.GuildID name none, Event.ClearActivePoll c.GuildID none,
              Event.ClearNominations c.GuildID none]) ∧
      ∀ s : GroupState,
        GroupState.replay c.GuildID s
            (callsSince h (EndPollCommand.Execute sortFunc c cl h).2) =
          { activePoll := none, favorite := some name, nominations := [] } := by
  have hexec : EndPollCommand.Execute sortFunc c cl h =
      (.Return (some (NewWebhookEdit (lit "Poll ended\nWinner: " ++ name))) none,
        (recoverTruncatedActivity cl text c.GuildID (fetchFinalizedPoll c cl h).2).2 ++
          [Event.SetFow c.GuildID name none, Event.ClearActivePoll c.GuildID none,
            Event.ClearNominations c.GuildID none]) := by
    have hn' := hn
    simp only [List.append_assoc, List.cons_append, List.nil_append] at hn'
    unfold EndPollCommand.Execute
    simp only [hfetch, hwin]
    simp [hne, hrec, hs, finishEndPoll, hc, hn']
  have hnw := (fetchFinalizedPoll_no_write c cl h poll hfetch).trans
    (recoverTruncatedActivity_no_write cl text c.GuildID _)
  refine ⟨hexec, ?_⟩
  intro s
  rw [hexec]
  simp only [replay_since c.GuildID s h _ _ hnw]
  simp [GroupState.replay, GroupState.apply]

/-- C12 at finalized results Chess:3, Reroll:1: the favorite becomes "Chess",
the pointer and the nominations are cleared. -/
theorem EndPoll_winner_witness :
    (EndPollCommand.Execute insertionSortFunc (NewEndPollCommand (lit "g"))
        (withPoll (pollWith [lit "Chess", lit "Reroll"] [(1, 3), (2, 1)])) []).1 =
        .Return (some (NewWebhookEdit (lit "Poll ended\nWinner: Chess"))) none ∧
      GroupState.replay (lit "g") sampleState
        (callsSince [] (EndPollCommand.Execute insertionSortFunc (NewEndPollCommand (lit "g"))
          (withPoll (pollWith [lit "Chess", lit "Reroll"] [(1, 3), (2, 1)])) []).2) =
        { activePoll := none, favorite := some (lit "Chess"), nominations := [] } := by
  have hT := EndPoll_winner insertionSortFunc (NewEndPollCommand (lit "g"))
    (withPoll (pollWith [lit "Chess", lit "Reroll"] [(1, 3), (2, 1)])) []
    (pollWith [lit "Chess", lit "Reroll"] [(1, 3), (2, 1)]) (lit "Chess") (lit "Chess")
    rfl (by decide) (by decide) rfl rfl rfl rfl
  exact ⟨by rw [hT.1]; decide, hT.2 sampleState⟩

/-- C20: when `EndPollCommand.Execute` has fetched a finalized poll for which
`determinePollWinner` returns, without a tie, a text of 55 bytes ending in
"..." and the catalog fails to recover the name, it returns the error and no
response, and it has made no write: the favorite, the active poll pointer and
the nomination pool of the group are as before. -/
theorem EndPoll_recovery_failure (sortFunc : SortFunc) (c : EndPollCommand) (cl : Clients)
    (h : History) (poll : Poll) (text : GoString) (err : GoError)
    (hfetch : (fetchFinalizedPoll c cl h).1 = .inr poll)
    (hwin : determinePollWinner sortFunc poll = some (text, false))
    (hlen : text.length = 55) (hdots : text.drop 52 = lit "...")
    (hfail : cl.RecoverActivity (fetchFinalizedPoll c cl h).2 c.GuildID (text.take 52) =
      .error err) :
    EndPollCommand.Execute sortFunc c cl h =
        (.Return none (some (.Errorf "recoverTruncatedActivity: %v"
            (.Errorf "RecoverActivity: %v" err))),
          (fetchFinalizedPoll c cl h).2 ++
            [Event.RecoverActivity c.GuildID (text.take 52) (.error err)]) ∧
      ExtendsBy (fun e => !e.isWrite) h (EndPollCommand.Execute sortFunc c cl h).2 ∧
      ∀ s : GroupState,
        GroupState.replay c.GuildID s
          (callsSince h (EndPollCommand.Execute sortFunc c cl h).2) = s := by
  have hne : text ≠ lit "Reroll" := by
    intro heq
    rw [heq] at hlen
    revert hlen
    decide
  have hexec : EndPollCommand.Execute sortFunc c cl h =
      (.Return none (some (.Errorf "recoverTruncatedActivity: %v"
          (.Errorf "RecoverActivity: %v" err))),
        (fetchFinalizedPoll c cl h).2 ++
          [Event.RecoverActivity c.GuildID (text.take 52) (.error err)]) := by
    unfold EndPollCommand.Execute
    simp only [hfetch, hwin]
    simp [hne, recoverTruncatedActivity, hlen, hdots, hfail]
  have hnw : ExtendsBy (fun e => !e.isWrite) h (EndPollCommand.Execute sortFunc c cl h).2 := by
    rw [hexec]
    exact (fetchFinalizedPoll_no_write c cl h poll hfetch).snoc _ rfl
  refine ⟨hexec, hnw, ?_⟩
  intro s
  obtain ⟨_, hall⟩ := hnw.callsSince_eq
  exact replay_of_no_write c.GuildID s _ hall

/-- C20 at a poll won by a truncated name the catalog cannot recover: an error,
no response, and the record of the group is as before. -/
theorem EndPoll_recovery_failure_witness :
    (EndPollCommand.Execute insertionSortFunc (NewEndPollCommand (lit "g"))
        (lostName (pollWith [truncatedName, lit "Reroll"] [(1, 3), (2, 1)])) []).1 =
        .Return none (some (.Errorf "recoverTruncatedActivity: %v"
          (.Errorf "RecoverActivity: %v" (.Other 7)))) ∧
      GroupState.replay (lit "g") sampleState
        (callsSince [] (EndPollCommand.Execute insertionSortFunc (NewEndPollCommand (lit "g"))
          (lostName (pollWith [truncatedName, lit "Reroll"] [(1, 3), (2, 1)])) []).2) =
        sampleState := by
  have hT := EndPoll_recovery_failure insertionSortFunc (NewEndPollCommand (lit "g"))
    (lostName (pollWith [truncatedName, lit "Reroll"] [(1, 3), (2, 1)])) []
    (pollWith [truncatedName, lit "Reroll"] [(1, 3), (2, 1)]) truncatedName (.Other 7)
    rfl (by decide) (by decide) (by decide) rfl
  exact ⟨by rw [hT.1], hT.2.2 sampleState⟩

/-- C13, refuted as stated: for a group whose active poll points to a message
reported as not found, when the store fails to clear the pointer,
`EndPollCommand.Execute` returns that failure with no response (not the
"unable to retrieve the poll" response) and the pointer stays in place. -/
theorem EndPoll_stale_pointer_counterexample :
    (EndPollCommand.Execute insertionSortFunc (NewEndPollCommand (lit "g")) brokenStore []).1 =
        .Return none (some (.Errorf "ClearActivePoll: %v" (.Other 1))) ∧
      Event.ChannelMessage (lit "c") (lit "0") (.error (.RESTError StatusNotFound)) ∈
        (EndPollCommand.Execute insertionSortFunc (NewEndPollCommand (lit "g")) brokenStore []).2 ∧
      (GroupState.replay (lit "g") sampleState
        (callsSince [] (EndPollCommand.Execute insertionSortFunc (NewEndPollCommand (lit "g"))
          brokenStore []).2)).activePoll =
        some { ChannelID := lit "c", MessageID := lit "0" } := by
  refine ⟨by decide, ?_, by decide⟩
  have hh : (EndPollCommand.Execute insertionSortFunc (NewEndPollCommand (lit "g"))
      brokenStore []).2 =
      [Event.GetGuild (lit "g") none,
        Event.GetActivePoll (lit "g") (.ok (some { ChannelID := lit "c", MessageID := lit "0" })),
        Event.Discord none,
        Event.ChannelMessage (lit "c") (lit "0") (.error (.RESTError StatusNotFound)),
        Event.ClearActivePoll (lit "g") (some (.Other 1))] := rfl
  rw [hh]
  simp

/-- C13, amended: let the fetch of the message of the active poll fail.  If the
failure is "not found" and the store clears the pointer, `EndPollCommand.Execute`
returns the "unable to retrieve the poll" response together with the fetch
error, and the only write is the clearing of the pointer: the favorite and the
nomination pool are as before.  If the failure is "not found" and the store
fails to clear the pointer, it returns the store's error with no response and
the record is as before.  If the failure is not "not found", it returns the
same response and error without any write: the pointer stays in place. -/
theorem EndPoll_message_fetch_failure (sortFunc : SortFunc) (c : EndPollCommand) (cl : Clients)
    (h : History) (pollID : PollInfo) (err : GoError)
    (hg : cl.GetGuild h c.GuildID = none)
    (hp : cl.GetActivePoll (h ++ [Event.GetGuild c.GuildID none]) c.GuildID =
      .ok (some pollID))
    (hd : cl.Discord (h ++ [Event.GetGuild c.GuildID none] ++
      [Event.GetActivePoll c.GuildID (.ok (some pollID))]) = none)
    (hm : cl.ChannelMessage (h ++ [Event.GetGuild c.GuildID none] ++
      [Event.GetActivePoll c.GuildID (.ok (some pollID))] ++ [Event.Discord none])
      pollID.ChannelID pollID.MessageID = .error err) :
    (err = .RESTError StatusNotFound →
      cl.ClearActivePoll (h ++ [Event.GetGuild c.GuildID none] ++
        [Event.GetActivePoll c.GuildID (.ok (some pollID))] ++ [Event.Discord none] ++
        [Event.ChannelMessage pollID.ChannelID pollID.MessageID (.error err)]) c.GuildID = none →
      (EndPollCommand.Execute sortFunc c cl h).1 =
          .Return (some unableToRetrieve) (some (.Errorf "ChannelMessage: %v" err)) ∧
        callsSince h (EndPollCommand.Execute sortFunc c cl h).2 =
          [Event.GetGuild c.GuildID none, Event.GetActivePoll c.GuildID (.ok (some pollID)),
            Event.Discord none,
            Event.ChannelMessage pollID.ChannelID pollID.MessageID (.error err),
            Event.ClearActivePoll c.GuildID none] ∧
        ∀ s : GroupState,
          GroupState.replay c.GuildID s (callsSince h (EndPollCommand.Execute sortFunc c cl h).2) =
            { s with activePoll := none }) ∧
    (err = .RESTError StatusNotFound →
      ∀ err1, cl.ClearActivePoll (h ++ [Event.GetGuild c.GuildID none] ++
        [Event.GetActivePoll c.GuildID (.ok (some pollID))] ++ [Event.Discord none] ++
        [Event.ChannelMessage pollID.ChannelID pollID.MessageID (.error err)]) c.GuildID =
          some err1 →
      (EndPollCommand.Execute sortFunc c cl h).1 =
          .Return none (some (.Errorf "ClearActivePoll: %v" err1)) ∧
        ∀ s : GroupState,
          GroupState.replay c.GuildID s (callsSince h (EndPollCommand.Execute sortFunc c cl h).2) =
            s) ∧
    (err ≠ .RESTError StatusNotFound →
      (EndPollCommand.Execute sortFunc c cl h).1 =
          .Return (some unableToRetrieve) (some (.Errorf "ChannelMessage: %v" err)) ∧
        callsSince h (EndPollCommand.Execute sortFunc c cl h).2 =
          [Event.GetGuild c.GuildID none, Event.GetActivePoll c.GuildID (.ok (some pollID)),
            Event.Discord none,
            Event.ChannelMessage pollID.ChannelID pollID.MessageID (.error err)] ∧
        ∀ s : GroupState,
          GroupState.replay c.GuildID s (callsSince h (EndPollCommand.Execute sortFunc c cl h).2) =
            s) := by
  refine ⟨?_, ?_, ?_⟩
  · intro he hc
    subst he
    have hexec : EndPollCommand.Execute sortFunc c cl h =
        (.Return (some unableToRetrieve)
            (some (.Errorf "ChannelMessage: %v" (.RESTError StatusNotFound))),
          h ++ [Event.GetGuild c.GuildID none] ++
            [Event.GetActivePoll c.GuildID (.ok (some pollID))] ++ [Event.Discord none] ++
            [Event.ChannelMessage pollID.ChannelID pollID.MessageID
              (.error (.RESTError StatusNotFound))] ++
            [Event.ClearActivePoll c.GuildID none]) := by
      unfold EndPollCommand.Execute fetchFinalizedPoll
      simp only [hg, hp, hd, hm, hc, if_true, unableToRetrieve]
    rw [hexec]
    refine ⟨rfl, by simp [callsSince], ?_⟩
    intro s
    simp [callsSince, GroupState.replay, GroupState.apply]
  · intro he err1 hc
    subst he
    have hexec : EndPollCommand.Execute sortFunc c cl h =
        (.Return none (some (.Errorf "ClearActivePoll: %v" err1)),
          h ++ [Event.GetGuild c.GuildID none] ++
            [Event.GetActivePoll c.GuildID (.ok (some pollID))] ++ [Event.Discord none] ++
            [Event.ChannelMessage pollID.ChannelID pollID.MessageID
              (.error (.RESTError StatusNotFound))] ++
            [Event.ClearActivePoll c.GuildID (some err1)]) := by
      unfold EndPollCommand.Execute fetchFinalizedPoll
      simp only [hg, hp, hd, hm, hc, if_true]
    rw [hexec]
    refine ⟨rfl, ?_⟩
    intro s
    simp [callsSince, GroupState.replay, GroupState.apply]
  · intro he
    have hexec : EndPollCommand.Execute sortFunc c cl h =
        (.Return (some unableToRetrieve) (some (.Errorf "ChannelMessage: %v" err)),
          h ++ [Event.GetGuild c.GuildID none] ++
            [Event.GetActivePoll c.GuildID (.ok (some pollID))] ++ [Event.Discord none] ++
            [Event.ChannelMessage pollID.ChannelID pollID.MessageID (.error err)]) := by
      unfold EndPollCommand.Execute fetchFinalizedPoll
      simp only [hg, hp, hd, hm, unableToRetrieve]
      cases err with
      | RESTError status =>
        have hs : status ≠ StatusNotFound := fun hst => he (by rw [hst])
        simp only [hs, if_false]
      | Other tag => rfl
      | New text => rfl
      | Errorf format cause => rfl
    rw [hexec]
    refine ⟨rfl, by simp [callsSince], ?_⟩
    intro s
    simp [callsSince, GroupState.replay, GroupState.apply]

/-- C13 (amended) at a group with a stale pointer whose store works (the pointer
is cleared) and at a group whose message fetch fails with status 500 (the
pointer stays). -/
theorem EndPoll_message_fetch_failure_witness :
    (GroupState.replay (lit "g") sampleState
        (callsSince [] (EndPollCommand.Execute insertionSortFunc (NewEndPollCommand (lit "g"))
          stalePointer []).2) = { sampleState with activePoll := none }) ∧
      (GroupState.replay (lit "g") sampleState
        (callsSince [] (EndPollCommand.Execute insertionSortFunc (NewEndPollCommand (lit "g"))
          serverError []).2) = sampleState) :=
  ⟨((EndPoll_message_fetch_failure insertionSortFunc (NewEndPollCommand (lit "g")) stalePointer
      [] { ChannelID := lit "c", MessageID := lit "0" } (.RESTError StatusNotFound)
      rfl rfl rfl rfl).1 rfl rfl).2.2 sampleState,
   ((EndPoll_message_fetch_failure insertionSortFunc (NewEndPollCommand (lit "g")) serverError
      [] { ChannelID := lit "c", MessageID := lit "0" } (.RESTError 500)
      rfl rfl rfl rfl).2.2 (by decide)).2.2 sampleState⟩

theorem SoftResponse.intro (guildID : GoString) (h : History) (o : Outcome) (evs : History)
    (text : GoString) (ho : o = .Return (some (NewWebhookEdit text)) none)
    (hall : ∀ e ∈ evs, (!e.isWrite && !e.isPollAction) = true) :
    SoftResponse guildID h (o, h ++ evs) text := by
  refine ⟨ho, ⟨evs, rfl, hall⟩, ?_⟩
  intro s
  rw [callsSince_append]
  apply replay_of_no_write
  intro e he
  have := hall e he
  simp only [Bool.and_eq_true] at this
  exact this.1

theorem lit_poll_created_ne (x : GoString) :
    lit "Poll created: " ++ x ≠ lit "There is already an active poll" := by
  intro heq
  have h1 : (lit "Poll created: " ++ x).head? = some 80 := rfl
  have h2 : (lit "There is already an active poll").head? = some 84 := rfl
  rw [heq, h2] at h1
  revert h1
  decide

/-- With the active-poll check skipped, `StartPollCommand.Execute` never answers
that there is already an active poll. -/
theorem StartPoll_skip_not_blocked (c : StartPollCommand) (cl : Clients) (h : History)
    (hskip : c.skipActivePollCheck = true) :
    (c.Execute cl h).1 ≠
      .Return (some (NewWebhookEdit (lit "There is already an active poll"))) none := by
  unfold StartPollCommand.Execute
  simp only [hskip]
  repeat' split
  all_goals
    intro hcon
    try simp only [Outcome.Return.injEq, Option.some.injEq, WebhookEdit.mk.injEq, NewWebhookEdit,
      reduceCtorEq, false_and, and_false, and_true] at hcon
  all_goals first
    | exact lit_poll_created_ne _ hcon
    | exact absurd hcon (by decide)
    | simp_all

/-- C14: (1) `StartPollCommand.Execute` for a group without a poll channel,
(2) `StartPollCommand.Execute` for a group with a poll channel and an active
poll when the active-poll check is not skipped, and (3)
`EndPollCommand.Execute` for a group without an active poll each return an
informational response and no error, after reads only: no write to the record
of the group, no poll created or expired, and the active poll pointer, the
favorite and the nomination pool are as before.  (4) With the check skipped,
`StartPollCommand.Execute` for a group with a poll channel and an active poll
goes on to ask for the Discord session and never answers that there is already
an active poll. -/
theorem soft_conditions (sortFunc : SortFunc) (cl : Clients) (h : History) (g : GoString)
    (hg : cl.GetGuild h g = none) :
    (∀ skip, cl.GetPollChannel (h ++ [Event.GetGuild g none]) g = .ok none →
      SoftResponse g h
        (StartPollCommand.Execute { GuildID := g, skipActivePollCheck := skip } cl h)
        (lit "The poll channel has not been set")) ∧
    (∀ chanID pollID,
      cl.GetPollChannel (h ++ [Event.GetGuild g none]) g = .ok (some chanID) →
      cl.GetActivePoll (h ++ [Event.GetGuild g none] ++
        [Event.GetPollChannel g (.ok (some chanID))]) g = .ok (some pollID) →
      SoftResponse g h
        (StartPollCommand.Execute { GuildID := g, skipActivePollCheck := false } cl h)
        (lit "There is already an active poll")) ∧
    (cl.GetActivePoll (h ++ [Event.GetGuild g none]) g = .ok none →
      SoftResponse g h (EndPollCommand.Execute sortFunc { GuildID := g } cl h)
        (lit "There is no active poll to end")) ∧
    (∀ chanID pollID,
      cl.GetPollChannel (h ++ [Event.GetGuild g none]) g = .ok (some chanID) →
      cl.GetActivePoll (h ++ [Event.GetGuild g none] ++
        [Event.GetPollChannel g (.ok (some chanID))]) g = .ok (some pollID) →
      (StartPollCommand.Execute { GuildID := g, skipActivePollCheck := true } cl h).1 ≠
          .Return (some (NewWebhookEdit (lit "There is already an active poll"))) none ∧
        ExtendsBy (fun _ => true)
          (h ++ [Event.GetGuild g none] ++ [Event.GetPollChannel g (.ok (some chanID))] ++
            [Event.GetActivePoll g (.ok (some pollID))] ++
            [Event.Discord (cl.Discord (h ++ [Event.GetGuild g none] ++
              [Event.GetPollChannel g (.ok (some chanID))] ++
              [Event.GetActivePoll g (.ok (some pollID))]))])
          (StartPollCommand.Execute { GuildID := g, skipActivePollCheck := true } cl h).2) := by
  refine ⟨?_, ?_, ?_, ?_⟩
  · intro skip hc
    have hexec : StartPollCommand.Execute { GuildID := g, skipActivePollCheck := skip } cl h =
        (.Return (some (NewWebhookEdit (lit "The poll channel has not been set"))) none,
          h ++ [Event.GetGuild g none, Event.GetPollChannel g (.ok none)]) := by
      unfold StartPollCommand.Execute
      simp only [hg, hc, List.append_assoc, List.singleton_append]
    rw [hexec]
    exact SoftResponse.intro g h _ _ _ rfl (by simp [Event.isWrite, Event.isPollAction])
  · intro chanID pollID hc hp
    have hexec : StartPollCommand.Execute { GuildID := g, skipActivePollCheck := false } cl h =
        (.Return (some (NewWebhookEdit (lit "There is already an active poll"))) none,
          h ++ [Event.GetGuild g none, Event.GetPollChannel g (.ok (some chanID)),
            Event.GetActivePoll g (.ok (some pollID))]) := by
      unfold StartPollCommand.Execute
      simp only [hg, hc, hp]
      simp
    rw [hexec]
    exact SoftResponse.intro g h _ _ _ rfl (by simp [Event.isWrite, Event.isPollAction])
  · intro hp
    have hexec : EndPollCommand.Execute sortFunc { GuildID := g } cl h =
        (.Return (some (NewWebhookEdit (lit "There is no active poll to end"))) none,
          h ++ [Event.GetGuild g none, Event.GetActivePoll g (.ok none)]) := by
      unfold EndPollCommand.Execute fetchFinalizedPoll
      simp only [hg, hp]
      simp
    rw [hexec]
    exact SoftResponse.intro g h _ _ _ rfl (by simp [Event.isWrite, Event.isPollAction])
  · intro chanID pollID hc hp
    refine ⟨StartPoll_skip_not_blocked _ cl h rfl, ?_⟩
    unfold StartPollCommand.Execute
    simp only [hg, hc, hp]
    simp only [Bool.not_true, Bool.false_and, Bool.false_eq_true, if_false]
    repeat' split
    all_goals
      repeat' first
        | exact ExtendsBy.refl _ _
        | refine ExtendsBy.snoc ?_ _ rfl
        | refine ExtendsBy.trans ?_ ((GeneratePollEntries_noSetFow _ _ _).mono (fun _ _ => rfl))

/-- C14 at a group with nothing stored (no poll channel, no active poll) and at
a group with a poll channel and an active poll. -/
theorem soft_conditions_witness :
    SoftResponse (lit "g") []
        (StartPollCommand.Execute (NewStartPollCommand (lit "g")) emptyPool [])
        (lit "The poll channel has not been set") ∧
      SoftResponse (lit "g") []
        (StartPollCommand.Execute (NewStartPollCommand (lit "g")) activeGroup [])
        (lit "There is already an active poll") ∧
      SoftResponse (lit "g") []
        (EndPollCommand.Execute insertionSortFunc (NewEndPollCommand (lit "g")) emptyPool [])
        (lit "There is no active poll to end") ∧
      (StartPollCommand.Execute { GuildID := lit "g", skipActivePollCheck := true }
          activeGroup []).1 ≠
        .Return (some (NewWebhookEdit (lit "There is already an active poll"))) none :=
  ⟨(soft_conditions insertionSortFunc emptyPool [] (lit "g") rfl).1 false rfl,
   (soft_conditions insertionSortFunc activeGroup [] (lit "g") rfl).2.1 (lit "c")
      { ChannelID := lit "c", MessageID := lit "0" } rfl rfl,
   (soft_conditions insertionSortFunc emptyPool [] (lit "g") rfl).2.2.1 rfl,
   ((soft_conditions insertionSortFunc activeGroup [] (lit "g") rfl).2.2.2 (lit "c")
      { ChannelID := lit "c", MessageID := lit "0" } rfl rfl).1⟩

theorem countP_since (h h' evs : History)
    (hx : ExtendsBy (fun e => !e.isWrite && !e.isPollAction) h h') :
    (callsSince h (h' ++ evs)).countP Event.isPollAction = evs.countP Event.isPollAction := by
  obtain ⟨evs0, rfl, hall⟩ := hx
  rw [List.append_assoc, callsSince_append, List.countP_append]
  have h0 : evs0.countP Event.isPollAction = 0 := by
    rw [List.countP_eq_zero]
    intro e he
    have := hall e he
    simp only [Bool.and_eq_true, Bool.not_eq_true'] at this
    simp [this.2]
  omega

/-- C15: let the group have a poll channel and pass the active-poll check (the
check is skipped or no active poll is recorded), and let the acquisition of
the session and `GeneratePollEntries` succeed with `entries`.  If the creation
of the poll message succeeds with `msg` and the store write succeeds,
`StartPollCommand.Execute` creates exactly one poll, in the poll channel, with
answers `entries`, duration 48 and multiselect allowed, writes the active poll
pointer (channel ID, ID of `msg`) and nothing else, and returns the response
with the link built from the guild ID, the channel ID and the ID of `msg`,
with no error.  If the creation fails, it returns the error and no response and
writes nothing: the pointer is as before. -/
theorem StartPoll_success (c : StartPollCommand) (cl : Clients) (h h4 : History)
    (chanID : GoString) (pollID : Option PollInfo) (entries : List PollAnswer)
    (hg : cl.GetGuild h c.GuildID = none)
    (hc : cl.GetPollChannel (h ++ [Event.GetGuild c.GuildID none]) c.GuildID = .ok (some chanID))
    (hp : cl.GetActivePoll (h ++ [Event.GetGuild c.GuildID none] ++
      [Event.GetPollChannel c.GuildID (.ok (some chanID))]) c.GuildID = .ok pollID)
    (hpass : c.skipActivePollCheck = true ∨ pollID = none)
    (hd : cl.Discord (h ++ [Event.GetGuild c.GuildID none] ++
      [Event.GetPollChannel c.GuildID (.ok (some chanID))] ++
      [Event.GetActivePoll c.GuildID (.ok pollID)]) = none)
    (hh4 : h4 = h ++ [Event.GetGuild c.GuildID none] ++
      [Event.GetPollChannel c.GuildID (.ok (some chanID))] ++
      [Event.GetActivePoll c.GuildID (.ok pollID)] ++ [Event.Discord none])
    (hgen : (GeneratePollEntries cl c.GuildID h4).1 = .ok entries) :
    (∀ msg : Message,
      cl.ChannelMessageSendComplex (GeneratePollEntries cl c.GuildID h4).2 chanID
        (newPoll entries) = .ok msg →
      cl.SetActivePoll ((GeneratePollEntries cl c.GuildID h4).2 ++
        [Event.ChannelMessageSendComplex chanID (newPoll entries) (.ok msg)]) c.GuildID
        { ChannelID := chanID, MessageID := msg.ID } = none →
      c.Execute cl h =
          (.Return (some (NewWebhookEdit
              (lit "Poll created: " ++ msgLink c.GuildID chanID msg.ID))) none,
            (GeneratePollEntries cl c.GuildID h4).2 ++
              [Event.ChannelMessageSendComplex chanID (newPoll entries) (.ok msg)] ++
              [Event.SetActivePoll c.GuildID { ChannelID := chanID, MessageID := msg.ID }
                none]) ∧
        (newPoll entries).Answers = entries ∧ (newPoll entries).Duration = 48 ∧
        (newPoll entries).AllowMultiselect = true ∧
        (callsSince h (c.Execute cl h).2).countP Event.isPollAction = 1 ∧
        ∀ s : GroupState,
          GroupState.replay c.GuildID s (callsSince h (c.Execute cl h).2) =
            { s with activePoll := some { ChannelID := chanID, MessageID := msg.ID } }) ∧
    (∀ err : GoError,
      cl.ChannelMessageSendComplex (GeneratePollEntries cl c.GuildID h4).2 chanID
        (newPoll entries) = .error err →
      (c.Execute cl h).1 =
          .Return none (some (.Errorf "ChannelMessageSendComplex: %v" err)) ∧
        ExtendsBy (fun e => !e.isWrite) h (c.Execute cl h).2 ∧
        ∀ s : GroupState, GroupState.replay c.GuildID s (callsSince h (c.Execute cl h).2) = s) := by
  subst hh4
  have hcheck : (!c.skipActivePollCheck && pollID.isSome) = false := by
    rcases hpass with hs | hn
    · simp [hs]
    · simp [hn]
  have hreads : ExtendsBy (fun e => !e.isWrite && !e.isPollAction) h
      (GeneratePollEntries cl c.GuildID (h ++ [Event.GetGuild c.GuildID none] ++
        [Event.GetPollChannel c.GuildID (.ok (some chanID))] ++
        [Event.GetActivePoll c.GuildID (.ok pollID)] ++ [Event.Discord none])).2 := by
    refine ExtendsBy.trans ?_ (GeneratePollEntries_reads _ _ _)
    repeat' first
      | exact ExtendsBy.refl _ _
      | refine ExtendsBy.snoc ?_ _ rfl
  have hnw := hreads.mono (q := fun e => !e.isWrite) (fun e he => by
    simp only [Bool.and_eq_true] at he
    exact he.1)
  constructor
  · intro msg hm hs
    have hexec : c.Execute cl h =
        (.Return (some (NewWebhookEdit
            (lit "Poll created: " ++ msgLink c.GuildID chanID msg.ID))) none,
          (GeneratePollEntries cl c.GuildID (h ++ [Event.GetGuild c.GuildID none] ++
            [Event.GetPollChannel c.GuildID (.ok (some chanID))] ++
            [Event.GetActivePoll c.GuildID (.ok pollID)] ++ [Event.Discord none])).2 ++
            [Event.ChannelMessageSendComplex chanID (newPoll entries) (.ok msg)] ++
            [Event.SetActivePoll c.GuildID { ChannelID := chanID, MessageID := msg.ID }
              none]) := by
      unfold StartPollCommand.Execute
      simp only [hg, hc, hp, hcheck, hd, hgen, hm, hs, Bool.false_eq_true, if_false]
    refine ⟨hexec, rfl, rfl, rfl, ?_, ?_⟩
    · rw [hexec, List.append_assoc, countP_since h _ _ hreads]
      simp [Event.isPollAction]
    · intro s
      rw [hexec, List.append_assoc, replay_since c.GuildID s h _ _ hnw]
      simp [GroupState.replay, GroupState.apply]
  · intro err hm
    have hexec : c.Execute cl h =
        (.Return none (some (.Errorf "ChannelMessageSendComplex: %v" err)),
          (GeneratePollEntries cl c.GuildID (h ++ [Event.GetGuild c.GuildID none] ++
            [Event.GetPollChannel c.GuildID (.ok (some chanID))] ++
            [Event.GetActivePoll c.GuildID (.ok pollID)] ++ [Event.Discord none])).2 ++
            [Event.ChannelMessageSendComplex chanID (newPoll entries) (.error err)]) := by
      unfold StartPollCommand.Execute
      simp only [hg, hc, hp, hcheck, hd, hgen, hm, Bool.false_eq_true, if_false]
    have hx : ExtendsBy (fun e => !e.isWrite) h (c.Execute cl h).2 := by
      rw [hexec]
      exact hnw.snoc _ rfl
    refine ⟨by rw [hexec], hx, ?_⟩
    intro s
    obtain ⟨_, hall⟩ := hx.callsSince_eq
    exact replay_of_no_write c.GuildID s _ hall

/-- C15 at a group with poll channel "c" and an empty pool: the poll created
has the single answer "Reroll", the pointer becomes (c, 1) and the response
carries the link; and at a group where Discord refuses the poll: the record is
as before. -/
theorem StartPoll_success_witness :
    (StartPollCommand.Execute (NewStartPollCommand (lit "g")) readyGroup []).1 =
        .Return (some (NewWebhookEdit
          (lit "Poll created: https://discord.com/channels/g/c/1"))) none ∧
      GroupState.replay (lit "g") idleState
        (callsSince [] (StartPollCommand.Execute (NewStartPollCommand (lit "g"))
          readyGroup []).2) =
        { idleState with activePoll := some { ChannelID := lit "c", MessageID := lit "1" } } ∧
      GroupState.replay (lit "g") idleState
        (callsSince [] (StartPollCommand.Execute (NewStartPollCommand (lit "g"))
          noPermission []).2) = idleState := by
  have h1 := (StartPoll_success (NewStartPollCommand (lit "g")) readyGroup [] _ (lit "c") none
    [rerollAnswer] rfl rfl rfl (Or.inr rfl) rfl rfl rfl).1
    { ID := lit "1", Poll := some (newPoll [rerollAnswer]) } rfl rfl
  have h2 := (StartPoll_success (NewStartPollCommand (lit "g")) noPermission [] _ (lit "c") none
    [rerollAnswer] rfl rfl rfl (Or.inr rfl) rfl rfl rfl).2 (.RESTError 403) rfl
  exact ⟨by decide, h1.2.2.2.2.2 idleState, h2.2.2 idleState⟩

/-! ## Weights of the candidates -/

/-- An ordered map with distinct keys is its list of keys paired with the value
stored under each. -/
theorem map_pair_repr (m : OrderedMap) (hnd : (m.map Prod.fst).Nodup) :
    m = (m.map Prod.fst).map (fun n => (n, OrderedMap.GetOrDefault m n 0)) := by
  induction m with
  | nil => rfl
  | cons p m ih =>
    obtain ⟨k, v⟩ := p
    simp only [List.map_cons, List.nodup_cons] at hnd
    have hk : OrderedMap.GetOrDefault ((k, v) :: m) k 0 = v := by
      simp [OrderedMap.GetOrDefault, List.lookup_cons]
    simp only [List.map_cons, hk, List.cons.injEq, true_and]
    conv_lhs => rw [ih hnd.2]
    apply List.map_congr_left
    intro n hn
    have hne : n ≠ k := fun h => hnd.1 (h ▸ hn)
    have hb : (n == k) = false := by simpa using hne
    simp [OrderedMap.GetOrDefault, List.lookup_cons, hb]

/-- The closed form of a merge: the keys already there stay in place, the new
names follow in order of first occurrence, and every weight is the weight
before (0 for a new name) plus the number of occurrences in the merged list. -/
theorem mergeNames_map_pair (names : List GoString) :
    ∀ (K : List GoString) (f : GoString → Int), K.Nodup →
      mergeNames (K.map (fun n => (n, f n))) names =
        (K ++ (firstOccurrences names).filter (fun x => decide (x ∉ K))).map
          (fun n => (n, (if n ∈ K then f n else 0) + (names.count n : Int))) := by
  induction names with
  | nil =>
    intro K f hK
    simp only [mergeNames, List.foldl_nil, firstOccurrences, List.filter_nil, List.append_nil,
      List.count_nil, Nat.cast_zero, add_zero]
    apply List.map_congr_left
    intro n hn
    simp [hn]
  | cons a l ih =>
    intro K f hK
    have hstep : mergeNames (K.map (fun n => (n, f n))) (a :: l) =
        mergeNames (OrderedMap.Set (K.map (fun n => (n, f n))) a
          (OrderedMap.GetOrDefault (K.map (fun n => (n, f n))) a 0 + 1)) l := by
      simp [mergeNames]
    rw [hstep]
    unfold OrderedMap.GetOrDefault
    rw [Set_map_pair _ hK, lookup_map_pair]
    by_cases ha : a ∈ K
    · simp only [ha, if_true]
      rw [ih K (fun n => if n = a then f a + 1 else f n) hK]
      have hl : (firstOccurrences (a :: l)).filter (fun x => decide (x ∉ K)) =
          (firstOccurrences l).filter (fun x => decide (x ∉ K)) := by
        simp only [firstOccurrences, List.filter_cons, ha, not_true_eq_false, decide_False,
          Bool.false_eq_true, if_false, List.filter_filter]
        apply List.filter_congr
        intro x _
        by_cases hx : x ∈ K
        · simp [hx]
        · have hxa : x ≠ a := fun h => hx (h ▸ ha)
          simp [hx, hxa]
      rw [hl]
      apply List.map_congr_left
      intro n _
      by_cases hna : n = a
      · subst hna
        simp only [ha, if_true, List.count_cons_self, Nat.cast_add, Nat.cast_one, Prod.mk.injEq,
          true_and]
        omega
      · have hc : List.count n (a :: l) = List.count n l := List.count_cons_of_ne hna l
        simp only [hna, if_false, hc]
    · simp only [ha, if_false]
      have hrepr : K.map (fun n => (n, f n)) ++ [(a, (0 : Int) + 1)] =
          (K ++ [a]).map (fun n => (n, if n = a then 1 else f n)) := by
        simp only [List.map_append, List.map_cons, List.map_nil, if_true, zero_add]
        congr 1
        apply List.map_congr_left
        intro n hn
        have hna : n ≠ a := fun h => ha (h ▸ hn)
        simp [hna]
      have hnd : (K ++ [a]).Nodup := by
        rw [List.nodup_append]
        refine ⟨hK, by simp, ?_⟩
        intro x hx hy
        rw [List.mem_singleton] at hy
        exact ha (hy ▸ hx)
      rw [hrepr, ih (K ++ [a]) _ hnd]
      have hl : K ++ [a] ++ (firstOccurrences l).filter (fun x => decide (x ∉ K ++ [a])) =
          K ++ (firstOccurrences (a :: l)).filter (fun x => decide (x ∉ K)) := by
        simp only [firstOccurrences, List.filter_cons, ha, not_false_eq_true, decide_True,
          if_true, List.filter_filter, List.append_assoc, List.singleton_append]
        congr 2
        apply List.filter_congr
        intro x _
        by_cases hx : x ∈ K
        · simp [hx]
        · by_cases hxa : x = a
          · simp [hxa]
          · simp [hx, hxa]
      rw [hl]
      apply List.map_congr_left
      intro n _
      by_cases hna : n = a
      · subst hna
        simp only [List.mem_append, List.mem_singleton, or_true, if_true, ha, if_false,
          List.count_cons_self, Nat.cast_add, Nat.cast_one, Prod.mk.injEq, true_and]
        omega
      · have hc : List.count n (a :: l) = List.count n l := List.count_cons_of_ne hna l
        simp only [List.mem_append, List.mem_singleton, hna, or_false, if_false, hc]
theorem tally_keys (ns : List GoString) : (tally ns).map Prod.fst = firstOccurrences ns := by
  simp [tally, List.map_map, Function.comp_def]

theorem tally_weight_pos (ns : List GoString) : ∀ p ∈ tally ns, 1 ≤ p.2 := by
  intro p hp
  obtain ⟨n, hn, rfl⟩ := List.mem_map.mp hp
  have hmem : n ∈ ns := (mem_firstOccurrences ns n).mp hn
  have : 0 < ns.count n := List.count_pos_iff.mpr hmem
  simp only
  omega

/-- C16: the favorite seed puts its name in the map with weight 1.  A merge
step on a map with distinct keys keeps the keys distinct, keeps every
candidate already there in its place, raises the weight of each by exactly the
number of times its name occurs in the merged list (so leaves it unchanged
when the name does not occur) and never lowers a weight; if all weights were at
least 1 before, they all are after.  The map `GeneratePollEntries` assembles
has distinct keys and all its weights are at least 1. -/
theorem candidate_weights :
    (∀ fow : GoString, OrderedMap.Set [] fow 1 = [(fow, 1)]) ∧
    (∀ (m : OrderedMap) (names : List GoString), (m.map Prod.fst).Nodup →
      ((mergeNames m names).map Prod.fst).Nodup ∧
        m.map Prod.fst <+: (mergeNames m names).map Prod.fst ∧
        (∀ k v, (k, v) ∈ m → (k, v + (names.count k : Int)) ∈ mergeNames m names) ∧
        ((∀ p ∈ m, 1 ≤ p.2) → ∀ p ∈ mergeNames m names, 1 ≤ p.2)) ∧
    (∀ (cl : Clients) (guildID : GoString) (h : History) (answers : OrderedMap),
      (collectAnswers cl guildID h).1 = .ok answers →
        (answers.map Prod.fst).Nodup ∧ ∀ p ∈ answers, 1 ≤ p.2) := by
  refine ⟨fun fow => rfl, ?_, ?_⟩
  · intro m names hnd
    have hm := map_pair_repr m hnd
    have hmerge : mergeNames m names =
        (m.map Prod.fst ++
          (firstOccurrences names).filter (fun x => decide (x ∉ m.map Prod.fst))).map
          (fun n => (n, (if n ∈ m.map Prod.fst then OrderedMap.GetOrDefault m n 0 else 0) +
            (names.count n : Int))) := by
      conv_lhs => rw [hm]
      exact mergeNames_map_pair names _ _ hnd
    have hkeys : (mergeNames m names).map Prod.fst =
        m.map Prod.fst ++
          (firstOccurrences names).filter (fun x => decide (x ∉ m.map Prod.fst)) := by
      rw [hmerge, List.map_map]
      simp [Function.comp_def]
    refine ⟨?_, ?_, ?_, ?_⟩
    · rw [hkeys, List.nodup_append]
      refine ⟨hnd, (nodup_firstOccurrences names).filter _, ?_⟩
      intro x hx hy
      simp only [List.mem_filter, decide_eq_true_eq] at hy
      exact hy.2 hx
    · rw [hkeys]
      exact List.prefix_append _ _
    · intro k v hkv
      have hk : k ∈ m.map Prod.fst := List.mem_map.mpr ⟨(k, v), hkv, rfl⟩
      have hv : OrderedMap.GetOrDefault m k 0 = v := by
        rw [hm] at hkv
        obtain ⟨n, _, hn⟩ := List.mem_map.mp hkv
        simp only [Prod.mk.injEq] at hn
        rw [← hn.2, hn.1]
      rw [hmerge]
      refine List.mem_map.mpr ⟨k, List.mem_append_left _ hk, ?_⟩
      simp only [hk, if_true, hv]
    · intro hge p hp
      rw [hmerge] at hp
      obtain ⟨n, hn, rfl⟩ := List.mem_map.mp hp
      simp only
      by_cases hk : n ∈ m.map Prod.fst
      · have hin : (n, OrderedMap.GetOrDefault m n 0) ∈
            (m.map Prod.fst).map (fun n => (n, OrderedMap.GetOrDefault m n 0)) :=
          List.mem_map.mpr ⟨n, hk, rfl⟩
        rw [← hm] at hin
        have h1 := hge _ hin
        simp only at h1
        simp only [hk, if_true]
        omega
      · rcases List.mem_append.mp hn with h1 | h1
        · exact absurd h1 hk
        · simp only [List.mem_filter] at h1
          have hmem : n ∈ names := (mem_firstOccurrences names n).mp h1.1
          have : 0 < names.count n := List.count_pos_iff.mpr hmem
          simp only [hk, if_false]
          omega
  · intro cl guildID h answers ha
    obtain ⟨evs, _, _, _, hgood, _⟩ := collectAnswers_spec cl guildID h
    obtain ⟨htally, _, _⟩ := hgood answers ha
    rw [htally]
    exact ⟨by rw [tally_keys]; exact nodup_firstOccurrences _, tally_weight_pos _⟩

/-- C16 at the scenario: merging "Go", "Chess" into the map holding "Chess" with
weight 1 keeps "Chess" (weight 2), and the map assembled has weights of at
least 1. -/
theorem candidate_weights_witness :
    (lit "Chess", (1 : Int) + ([lit "Go", lit "Chess"].count (lit "Chess") : Int)) ∈
        mergeNames [(lit "Chess", 1)] [lit "Go", lit "Chess"] ∧
      ∀ p ∈ [(lit "Chess", (2 : Int)), (lit "Go", 1)], 1 ≤ p.2 :=
  ⟨(candidate_weights.2.1 [(lit "Chess", 1)] [lit "Go", lit "Chess"] (by decide)).2.2.1
      (lit "Chess") 1 (by decide),
   (candidate_weights.2.2 chessGo (lit "g") [] [(lit "Chess", 2), (lit "Go", 1)] rfl).2⟩

/-! ## Truncation followed by recovery -/

theorem truncate_long (name : GoString) (hlen : name.length > 55) :
    (truncateActivityName name).length = 55 ∧
      (truncateActivityName name).drop 52 = lit "..." ∧
      (truncateActivityName name).take 52 = name.take 52 := by
  have hT : truncateActivityName name = name.take 52 ++ lit "..." := by
    simp [truncateActivityName, hlen]
  have h52 : (name.take 52).length = 52 := by
    rw [List.length_take]
    omega
  rw [hT]
  refine ⟨?_, ?_, ?_⟩
  · rw [List.length_append, h52, lit_dots_length]
  · exact List.drop_left' h52
  · exact List.take_left' h52

theorem truncate_short (name : GoString) (hlen : name.length ≤ 55) :
    truncateActivityName name = name := by
  simp [truncateActivityName, Nat.not_lt.mpr hlen]

/-- C17, refuted as stated: the name of 28 times "é" has 28 characters, at most
55, and does not end in "..."; as worded, recovering its truncation returns the
name with no catalog call.  Yet the truncation cuts it (it has 56 bytes) and
the recovery makes a catalog call on a prefix of 52 bytes and does not return
the name. -/
theorem truncate_then_recover_characters_counterexample :
    charCount accentedName = 28 ∧ ¬ (lit "..." <:+ accentedName) ∧
      (recoverTruncatedActivity emptyPool (truncateActivityName accentedName) (lit "g") []).2 =
        [Event.RecoverActivity (lit "g") (accentedName.take 52)
          (.ok (accentedName.take 52))] ∧
      recoverTruncatedActivity emptyPool (truncateActivityName accentedName) (lit "g") [] ≠
        (.ok accentedName, []) := by
  refine ⟨by decide, by decide, rfl, ?_⟩
  intro hcon
  have h2 := congrArg (fun r => r.2.length) hcon
  revert h2
  decide

/-- C17, amended (lengths and positions in bytes): for a name longer than 55
bytes, recovering its truncation makes exactly one catalog call, on the first
52 bytes of the name, and returns what the
catalog returns (its name, or its error wrapped).  For a name of at most 55
bytes that does not both have 55 bytes and end in "...", recovering its
truncation returns the name without any call.  A name of exactly 55 bytes that
ends in "..." is left unchanged by the truncation, and recovering it still
makes the catalog call on its first 52 bytes. -/
theorem truncate_then_recover (cl : Clients) (name guildID : GoString) (h : History) :
    (name.length > 55 →
      (recoverTruncatedActivity cl (truncateActivityName name) guildID h).2 =
          h ++ [Event.RecoverActivity guildID (name.take 52)
            (cl.RecoverActivity h guildID (name.take 52))] ∧
        (∀ fullName, cl.RecoverActivity h guildID (name.take 52) = .ok fullName →
          (recoverTruncatedActivity cl (truncateActivityName name) guildID h).1 =
            .ok fullName) ∧
        (∀ err, cl.RecoverActivity h guildID (name.take 52) = .error err →
          (recoverTruncatedActivity cl (truncateActivityName name) guildID h).1 =
            .error (.Errorf "RecoverActivity: %v" err))) ∧
    (name.length ≤ 55 → ¬(name.length = 55 ∧ name.drop 52 = lit "...") →
      recoverTruncatedActivity cl (truncateActivityName name) guildID h = (.ok name, h)) ∧
    (name.length = 55 → name.drop 52 = lit "..." →
      truncateActivityName name = name ∧
        (recoverTruncatedActivity cl (truncateActivityName name) guildID h).2 =
          h ++ [Event.RecoverActivity guildID (name.take 52)
            (cl.RecoverActivity h guildID (name.take 52))] ∧
        (∀ fullName, cl.RecoverActivity h guildID (name.take 52) = .ok fullName →
          (recoverTruncatedActivity cl (truncateActivityName name) guildID h).1 =
            .ok fullName)) := by
  refine ⟨?_, ?_, ?_⟩
  · intro hlen
    obtain ⟨h55, hdrop, htake⟩ := truncate_long name hlen
    have hc : (truncateActivityName name).length = 55 ∧
        (truncateActivityName name).drop 52 = lit "..." := ⟨h55, hdrop⟩
    unfold recoverTruncatedActivity
    rw [if_pos hc, htake]
    refine ⟨?_, ?_, ?_⟩
    · cases cl.RecoverActivity h guildID (name.take 52) <;> rfl
    · intro fullName hr
      rw [hr]
    · intro err hr
      rw [hr]
  · intro hlen hnot
    rw [truncate_short name hlen]
    unfold recoverTruncatedActivity
    rw [if_neg hnot]
  · intro hlen hdots
    have hT := truncate_short name (le_of_eq hlen)
    rw [hT]
    have hc : name.length = 55 ∧ name.drop 52 = lit "..." := ⟨hlen, hdots⟩
    unfold recoverTruncatedActivity
    rw [if_pos hc]
    refine ⟨rfl, ?_, ?_⟩
    · cases cl.RecoverActivity h guildID (name.take 52) <;> rfl
    · intro fullName hr
      rw [hr]

/-- C17 (amended) at a name of 56 bytes (one call on its first 52 bytes), at "Chess" (no
call) and at a name of 55 bytes ending in "..." (unchanged, one call). -/
theorem truncate_then_recover_witness :
    (recoverTruncatedActivity emptyPool (truncateActivityName longName) (lit "g") []).2 =
        [] ++ [Event.RecoverActivity (lit "g") (longName.take 52)
          (emptyPool.RecoverActivity [] (lit "g") (longName.take 52))] ∧
      recoverTruncatedActivity emptyPool (truncateActivityName (lit "Chess")) (lit "g") [] =
        (.ok (lit "Chess"), []) ∧
      truncateActivityName dottedName = dottedName :=
  ⟨((truncate_then_recover emptyPool longName (lit "g") []).1 (by decide)).1,
   (truncate_then_recover emptyPool (lit "Chess") (lit "g") []).2.1 (by decide) (by decide),
   ((truncate_then_recover emptyPool dottedName (lit "g") []).2.2 (by decide) (by decide)).1⟩

/-! ## Index safety of the winner determination -/

/-- The outcome of `determinePollWinner` is the verdict on the slice the sort
returns, when no entry is nil. -/
theorem determinePollWinner_sorted_verdict (sortFunc : SortFunc) (hsf : sortFunc.Sorts)
    (poll : Poll) (results : PollResults) (counts : List PollAnswerCount)
    (hR : poll.Results = some results)
    (hA : results.AnswerCounts.getD [] = counts.map some) :
    ∃ s0 : List PollAnswerCount,
      sortFunc answerCountCmp (results.AnswerCounts.getD []) = s0.map some ∧
      determinePollWinner sortFunc poll = verdict poll s0 := by
  obtain ⟨s0, hs0, _, _⟩ := sorted_view sortFunc hsf counts
  refine ⟨s0, by rw [hA, hs0], ?_⟩
  unfold determinePollWinner
  rw [hR]
  simp only [hA, hs0]
  match s0 with
  | [] => rfl
  | [t] => rfl
  | t :: s :: rest => rfl

theorem winnerText_defined (poll : Poll) (t : PollAnswerCount)
    (hid : ∃ a ∈ poll.Answers, a.AnswerID = t.ID)
    (hmedia : ∀ a ∈ poll.Answers, a.Media ≠ none) :
    ∃ winner, winnerText poll (some t) = some (winner, false) := by
  obtain ⟨a0, ha0, hid0⟩ := hid
  have hsome : (poll.Answers.find? (fun a => decide (a.AnswerID = t.ID))).isSome := by
    rw [List.find?_isSome]
    exact ⟨a0, ha0, by simpa using hid0⟩
  obtain ⟨a, ha⟩ := Option.isSome_iff_exists.mp hsome
  have hmem : a ∈ poll.Answers := List.mem_of_find?_eq_some ha
  have hm := hmedia a hmem
  cases hmed : a.Media with
  | none => exact absurd hmed hm
  | some media =>
    refine ⟨media.Text, ?_⟩
    simp only [winnerText, ha, hmed]

theorem notFinalized_false (poll : Poll) (hf : notFinalized poll = false) :
    ∃ results entries, poll.Results = some results ∧ results.Finalized = true ∧
      results.AnswerCounts = some entries := by
  unfold notFinalized at hf
  cases hR : poll.Results with
  | none =>
    rw [hR] at hf
    simp at hf
  | some results =>
    rw [hR] at hf
    simp only [Bool.or_eq_false_iff, Bool.not_eq_false'] at hf
    cases hA : results.AnswerCounts with
    | none =>
      rw [hA] at hf
      simp at hf
    | some entries => exact ⟨results, entries, rfl, hf.1, hA⟩

/-- C18: for a poll with results whose answer-count entries are all non-nil,
whose top entry after the sort carries the ID of some answer, and whose answers
all carry media, `determinePollWinner` does not panic: it returns a winner
text and a tie flag.  And the poll `EndPollCommand.Execute` hands to
`determinePollWinner` has results that are non-nil and finalized, with a
non-nil list of answer counts. -/
theorem determinePollWinner_safe (sortFunc : SortFunc) (poll : Poll) :
    (∀ (results : PollResults) (counts : List PollAnswerCount),
      sortFunc.Sorts → poll.Results = some results →
      results.AnswerCounts.getD [] = counts.map some →
      (∀ t : PollAnswerCount,
        (sortFunc answerCountCmp (results.AnswerCounts.getD [])).head? = some (some t) →
        ∃ a ∈ poll.Answers, a.AnswerID = t.ID) →
      (∀ a ∈ poll.Answers, a.Media ≠ none) →
      ∃ winner tie, determinePollWinner sortFunc poll = some (winner, tie)) ∧
    (∀ (c : EndPollCommand) (cl : Clients) (h : History),
      (fetchFinalizedPoll c cl h).1 = .inr poll →
      ∃ results entries, poll.Results = some results ∧ results.Finalized = true ∧
        results.AnswerCounts = some entries) := by
  constructor
  · intro results counts hsf hR hA htop hmedia
    obtain ⟨s0, hs0, hv⟩ := determinePollWinner_sorted_verdict sortFunc hsf poll results counts hR hA
    rw [hv]
    match s0, hs0 with
    | [], _ => exact ⟨lit "", true, rfl⟩
    | [t], hs0 =>
      obtain ⟨w, hw⟩ := winnerText_defined poll t (htop t (by rw [hs0]; rfl)) hmedia
      exact ⟨w, false, hw⟩
    | t :: s :: rest, hs0 =>
      by_cases heq : t.Count = s.Count
      · exact ⟨lit "", true, by simp only [verdict, if_pos heq]⟩
      · obtain ⟨w, hw⟩ := winnerText_defined poll t (htop t (by rw [hs0]; rfl)) hmedia
        exact ⟨w, false, by simp only [verdict, if_neg heq, hw]⟩
  · intro c cl h hfetch
    exact notFinalized_false poll (fetchFinalizedPoll_finalized c cl h poll hfetch)

/-- C18 at the counts [3,7,3] over the answers "A", "B", "C", and at the poll
`EndPollCommand.Execute` fetches for a group whose poll has these results. -/
theorem determinePollWinner_safe_witness :
    (∃ winner tie, determinePollWinner insertionSortFunc
        (pollWith [lit "A", lit "B", lit "C"] [(1, 3), (2, 7), (3, 3)]) = some (winner, tie)) ∧
      ∃ results entries,
        (pollWith [lit "A", lit "B", lit "C"] [(1, 3), (2, 7), (3, 3)]).Results = some results ∧
          results.Finalized = true ∧ results.AnswerCounts = some entries :=
  ⟨(determinePollWinner_safe insertionSortFunc
      (pollWith [lit "A", lit "B", lit "C"] [(1, 3), (2, 7), (3, 3)])).1 _
      [⟨1, 3⟩, ⟨2, 7⟩, ⟨3, 3⟩] insertionSortFunc_sorts rfl rfl
      (by
        intro t ht
        have hh : (insertionSortFunc answerCountCmp
            ([(⟨1, 3⟩ : PollAnswerCount), ⟨2, 7⟩, ⟨3, 3⟩].map some)).head? =
            some (some ⟨2, 7⟩) := by decide
        have ht' : (insertionSortFunc answerCountCmp
            ([(⟨1, 3⟩ : PollAnswerCount), ⟨2, 7⟩, ⟨3, 3⟩].map some)).head? = some (some t) := ht
        rw [hh] at ht'
        simp only [Option.some.injEq] at ht'
        subst ht'
        decide)
      (by decide),
   (determinePollWinner_safe insertionSortFunc
      (pollWith [lit "A", lit "B", lit "C"] [(1, 3), (2, 7), (3, 3)])).2
      (NewEndPollCommand (lit "g"))
      (withPoll (pollWith [lit "A", lit "B", lit "C"] [(1, 3), (2, 7), (3, 3)])) [] rfl⟩

/-! ## Reach of the repeat heuristic -/

theorem repeating_tally (ns : List GoString) (hrep : repeating (tally ns) = true) :
    ∃ n, 5 < ns.count n := by
  unfold repeating at hrep
  rw [List.any_eq_true] at hrep
  obtain ⟨p, hp, hgt⟩ := hrep
  rw [List.mem_reverse] at hp
  obtain ⟨n, _, rfl⟩ := List.mem_map.mp hp
  simp only [decide_eq_true_eq] at hgt
  exact ⟨n, by omega⟩

theorem tally_weight_le (ns : List GoString) (B : Nat) (hB : ∀ n, ns.count n ≤ B) :
    ∀ p ∈ tally ns, p.2 ≤ (B : Int) := by
  intro p hp
  obtain ⟨n, _, rfl⟩ := List.mem_map.mp hp
  have := hB n
  simp only
  omega

theorem count_le_one_of_nodup (l : List GoString) (hl : l.Nodup) (n : GoString) :
    l.count n ≤ 1 := by
  induction l with
  | nil => simp
  | cons a l ih =>
    rw [List.nodup_cons] at hl
    by_cases hna : n = a
    · subst hna
      rw [List.count_cons_self, List.count_eq_zero_of_not_mem hl.1]
    · rw [List.count_cons_of_ne hna]
      exact ih hl.2

theorem count_append_nodup_le (ns l : List GoString) (B : Nat) (hB : ∀ n, ns.count n ≤ B)
    (hl : l.Nodup) : ∀ n, (ns ++ l).count n ≤ B + 1 := by
  intro n
  rw [List.count_append]
  have h1 := hB n
  have h2 : l.count n ≤ 1 := count_le_one_of_nodup l hl n
  omega

/-- When no response lists a name twice and every weight is at most `B` on entry,
the fallback loop leaves weights of at most `B` plus the number of requests it
made, and if it leaves fewer than seven names it has made at least
`min remaining (6 - B)` requests. -/
theorem fallbackRounds_reach (cl : Clients) (guildID : GoString) (hnr : NoRepeats cl) :
    ∀ (remaining : Nat) (ns : List GoString) (h : History) (B : Nat),
      (∀ n, ns.count n ≤ B) →
      ∀ answers, (fallbackRounds cl guildID remaining (tally ns) h).1 = .ok answers →
        ∃ evs : History,
          (fallbackRounds cl guildID remaining (tally ns) h).2 = h ++ evs ∧
          (∀ e ∈ evs, e.isRandomRequest = true) ∧
          (∀ p ∈ answers, p.2 ≤ (B : Int) + evs.length) ∧
          (answers.length < 7 → min remaining (6 - B) ≤ evs.length) := by
  intro remaining
  induction remaining with
  | zero =>
    intro ns h B hB answers ha
    simp only [fallbackRounds, Except.ok.injEq] at ha
    subst ha
    refine ⟨[], by simp [fallbackRounds], by simp, ?_, by simp⟩
    intro p hp
    have := tally_weight_le ns B hB p hp
    simp only [List.length_nil, Nat.cast_zero, add_zero]
    exact this
  | succ k ih =>
    intro ns h B hB answers ha
    by_cases hlen : OrderedMap.Len (tally ns) < MAX_POLL_ENTRIES
    · cases hr : cl.GetRandomActivities h guildID (MAX_POLL_ENTRIES - OrderedMap.Len (tally ns)) with
      | error err0 => simp [fallbackRounds, hlen, hr] at ha
      | ok l =>
        have hl : l.Nodup := hnr.2 _ _ _ _ hr
        have hB' := count_append_nodup_le ns l B hB hl
        by_cases hrep : repeating (tally (ns ++ l)) = true
        · simp only [fallbackRounds, hlen, hr, mergeNames_tally, hrep, if_true,
            Except.ok.injEq] at ha
          subst ha
          refine ⟨[Event.GetRandomActivities guildID
            (MAX_POLL_ENTRIES - OrderedMap.Len (tally ns)) (.ok l)], ?_, ?_, ?_, ?_⟩
          · simp [fallbackRounds, hlen, hr, mergeNames_tally, hrep]
          · simp [Event.isRandomRequest]
          · intro p hp
            have := tally_weight_le (ns ++ l) (B + 1) hB' p hp
            simp only [List.length_singleton, Nat.cast_one]
            push_cast at this
            exact this
          · intro _
            obtain ⟨n, hn⟩ := repeating_tally (ns ++ l) hrep
            have := hB' n
            simp only [List.length_singleton]
            omega
        · have hstep : fallbackRounds cl guildID (k + 1) (tally ns) h =
              fallbackRounds cl guildID k (tally (ns ++ l))
                (h ++ [Event.GetRandomActivities guildID
                  (MAX_POLL_ENTRIES - OrderedMap.Len (tally ns)) (.ok l)]) := by
            simp [fallbackRounds, hlen, hr, mergeNames_tally, hrep]
          rw [hstep] at ha ⊢
          obtain ⟨evs, hh, hrand, hw, hmin⟩ := ih (ns ++ l) _ (B + 1) hB' answers ha
          refine ⟨Event.GetRandomActivities guildID
            (MAX_POLL_ENTRIES - OrderedMap.Len (tally ns)) (.ok l) :: evs, ?_, ?_, ?_, ?_⟩
          · rw [hh]
            simp
          · intro e he
            rcases List.mem_cons.mp he with rfl | he'
            · rfl
            · exact hrand e he'
          · intro p hp
            have := hw p hp
            simp only [List.length_cons]
            push_cast at this ⊢
            omega
          · intro hlt
            have := hmin hlt
            simp only [List.length_cons]
            omega
    · simp only [fallbackRounds, hlen, if_false, Except.ok.injEq] at ha
      subst ha
      refine ⟨[], by simp [fallbackRounds, hlen], by simp, ?_, ?_⟩
      · intro p hp
        have := tally_weight_le ns B hB p hp
        simp only [List.length_nil, Nat.cast_zero, add_zero]
        exact this
      · intro hlt
        exfalso
        apply hlen
        simp only [OrderedMap.Len, MAX_POLL_ENTRIES]
        omega

/-- When no response lists a name twice, every weight in the map a successful
`GeneratePollEntries` assembles is at most 2 plus the number of requests for
random activities it made, and a run that returns fewer than
`MAX_POLL_ENTRIES` candidates has made at least 4 such requests. -/
theorem collectAnswers_reach (cl : Clients) (guildID : GoString) (h : History)
    (hnr : NoRepeats cl) (entries : List PollAnswer)
    (hok : (GeneratePollEntries cl guildID h).1 = .ok entries) :
    (∃ answers, (collectAnswers cl guildID h).1 = .ok answers ∧
      ∀ p ∈ answers, p.2 ≤ 2 +
        (((callsSince h (GeneratePollEntries cl guildID h).2).countP
          Event.isRandomRequest : Nat) : Int)) ∧
    ((entries.dropLast.length : Int) < MAX_POLL_ENTRIES →
      4 ≤ (callsSince h (GeneratePollEntries cl guildID h).2).countP Event.isRandomRequest) := by
  obtain ⟨answers, ha, rfl⟩ := GeneratePollEntries_ok cl guildID h entries hok
  rw [GeneratePollEntries_history]
  cases hf : cl.GetFow h guildID with
  | error err0 => simp [collectAnswers, hf] at ha
  | ok fow =>
    cases hn : cl.GetTopNominations (h ++ [Event.GetFow guildID (.ok fow)]) guildID
        (MAX_POLL_ENTRIES - OrderedMap.Len (tally fow.toList)) with
    | error err0 => simp [collectAnswers, hf, tally_toList, hn] at ha
    | ok noms =>
      rw [collectAnswers_eq cl guildID h fow noms hf hn] at ha ⊢
      have hnoms : noms.Nodup := hnr.1 _ _ _ _ hn
      have hfow : ∀ n, fow.toList.count n ≤ 1 := by
        intro n
        cases fow with
        | none => simp
        | some f =>
          simp only [Option.toList_some, List.count_singleton]
          split <;> omega
      have hB := count_append_nodup_le fow.toList noms 1 hfow hnoms
      obtain ⟨evs, hh, hrand, hw, hmin⟩ :=
        fallbackRounds_reach cl guildID hnr 5 (fow.toList ++ noms) _ 2 hB answers ha
      have hcalls : callsSince h
          (fallbackRounds cl guildID 5 (tally (fow.toList ++ noms))
            (h ++ [Event.GetFow guildID (.ok fow)] ++
              [Event.GetTopNominations guildID
                (MAX_POLL_ENTRIES - OrderedMap.Len (tally fow.toList)) (.ok noms)])).2 =
          Event.GetFow guildID (.ok fow) ::
            Event.GetTopNominations guildID
              (MAX_POLL_ENTRIES - OrderedMap.Len (tally fow.toList)) (.ok noms) :: evs := by
        rw [hh]
        simp [callsSince]
      have hcount : (Event.GetFow guildID (.ok fow) ::
            Event.GetTopNominations guildID
              (MAX_POLL_ENTRIES - OrderedMap.Len (tally fow.toList)) (.ok noms) ::
                evs).countP Event.isRandomRequest = evs.length := by
        simp only [List.countP_cons, Event.isRandomRequest, Bool.false_eq_true, if_false,
          add_zero]
        rw [List.countP_eq_length]
        exact hrand
      rw [hcalls, hcount]
      refine ⟨⟨answers, ha, ?_⟩, ?_⟩
      · intro p hp
        have := hw p hp
        push_cast at this
        exact this
      · intro hlt
        have hlen := length_renderEntries answers
        rw [List.length_dropLast, hlen] at hlt
        simp only [MAX_POLL_ENTRIES] at hlt
        have := hmin (by omega)
        omega

theorem emptyPool_noRepeats : NoRepeats emptyPool := by
  constructor
  · intro h g limit l hl
    simp only [emptyPool, Except.ok.injEq] at hl
    rw [← hl]
    exact List.nodup_nil
  · intro h g limit l hl
    simp only [emptyPool, Except.ok.injEq] at hl
    rw [← hl]
    exact List.nodup_nil

theorem goEverywhere_noRepeats : NoRepeats goEverywhere := by
  constructor
  · intro h g limit l hl
    simp only [goEverywhere, Except.ok.injEq] at hl
    rw [← hl]
    exact List.nodup_singleton _
  · intro h g limit l hl
    simp only [goEverywhere, Except.ok.injEq] at hl
    rw [← hl]
    exact List.nodup_singleton _

theorem repeating_false_of_le (answers : OrderedMap) (hle : ∀ p ∈ answers, p.2 ≤ 5) :
    repeating answers = false := by
  cases hrep : repeating answers with
  | false => rfl
  | true =>
    unfold repeating at hrep
    rw [List.any_eq_true] at hrep
    obtain ⟨p, hp, hgt⟩ := hrep
    rw [List.mem_reverse] at hp
    simp only [decide_eq_true_eq] at hgt
    have := hle p hp
    omega

/-- The fallback loop only requests random activities, from any map. -/
theorem fallbackRounds_extends (cl : Clients) (guildID : GoString) :
    ∀ (remaining : Nat) (answers : OrderedMap) (h : History),
      ExtendsBy (fun e => e.isRandomRequest) h
        (fallbackRounds cl guildID remaining answers h).2 := by
  intro remaining
  induction remaining with
  | zero =>
    intro answers h
    exact ExtendsBy.refl _ _
  | succ k ih =>
    intro answers h
    unfold fallbackRounds
    simp only []
    repeat' split
    all_goals
      repeat' first
        | exact ExtendsBy.refl _ _
        | refine ExtendsBy.snoc ?_ _ rfl
        | refine ExtendsBy.trans ?_ (ih _ _)

/-- The loop cut after `k` rounds is the beginning of the loop run for `k + j`
rounds: when the cut loop ends without error, the longer run starts with the
same calls. -/
theorem fallbackRounds_prefix (cl : Clients) (guildID : GoString) (j : Nat) :
    ∀ (k : Nat) (answers : OrderedMap) (h : History) (answers' : OrderedMap),
      (fallbackRounds cl guildID k answers h).1 = .ok answers' →
      ExtendsBy (fun e => e.isRandomRequest) (fallbackRounds cl guildID k answers h).2
        (fallbackRounds cl guildID (k + j) answers h).2 := by
  intro k
  induction k with
  | zero =>
    intro answers h answers' _
    rw [Nat.zero_add]
    exact fallbackRounds_extends cl guildID j answers h
  | succ k ih =>
    intro answers h answers' ha
    have hkj : k + 1 + j = (k + j) + 1 := by omega
    rw [hkj]
    by_cases hlen : OrderedMap.Len answers < MAX_POLL_ENTRIES
    · cases hr : cl.GetRandomActivities h guildID (MAX_POLL_ENTRIES - OrderedMap.Len answers) with
      | error err0 => simp [fallbackRounds, hlen, hr] at ha
      | ok l =>
        by_cases hrep : repeating (mergeNames answers l) = true
        · simp only [fallbackRounds, hlen, hr, hrep, if_true]
          exact ExtendsBy.refl _ _
        · simp only [fallbackRounds, hlen, hr, hrep, if_true] at ha ⊢
          exact ih _ _ answers' ha
    · simp only [fallbackRounds, hlen, if_false]
      exact ExtendsBy.refl _ _

/-- C19: let no response of the nomination or catalog source list a name twice.
After the favorite and the nominations are merged, the fallback loop cut after
`k` rounds leaves weights of at most `2 + k`, so for `k < 4` the check for a
weight above 5 does not fire (the loop cannot be stopped by it before the
fourth round has completed), and the cut loop is the beginning of the loop
`GeneratePollEntries` runs.  Every weight in the map a successful
`GeneratePollEntries` assembles is at most 2 plus the number of requests for
random activities made, and a run that returns fewer than `MAX_POLL_ENTRIES`
candidates before "Reroll" has made at least 4 such requests. -/
theorem repeat_heuristic_reach (cl : Clients) (guildID : GoString) (h : History)
    (hnr : NoRepeats cl) :
    (∀ (fow : Option GoString) (noms : List GoString),
      cl.GetFow h guildID = .ok fow →
      cl.GetTopNominations (h ++ [Event.GetFow guildID (.ok fow)]) guildID
        (MAX_POLL_ENTRIES - OrderedMap.Len (tally fow.toList)) = .ok noms →
      ∀ (k : Nat) (answers : OrderedMap),
        (fallbackRounds cl guildID k (tally (fow.toList ++ noms))
          (h ++ [Event.GetFow guildID (.ok fow)] ++
            [Event.GetTopNominations guildID
              (MAX_POLL_ENTRIES - OrderedMap.Len (tally fow.toList)) (.ok noms)])).1 =
          .ok answers →
        (∀ p ∈ answers, p.2 ≤ 2 + (k : Int)) ∧
          (k < 4 → repeating answers = false) ∧
          (k ≤ 5 → ExtendsBy (fun e => e.isRandomRequest)
            (fallbackRounds cl guildID k (tally (fow.toList ++ noms))
              (h ++ [Event.GetFow guildID (.ok fow)] ++
                [Event.GetTopNominations guildID
                  (MAX_POLL_ENTRIES - OrderedMap.Len (tally fow.toList)) (.ok noms)])).2
            (collectAnswers cl guildID h).2)) ∧
    (∀ entries : List PollAnswer, (GeneratePollEntries cl guildID h).1 = .ok entries →
      (∃ answers, (collectAnswers cl guildID h).1 = .ok answers ∧
        ∀ p ∈ answers, p.2 ≤ 2 +
          (((callsSince h (GeneratePollEntries cl guildID h).2).countP
            Event.isRandomRequest : Nat) : Int)) ∧
      ((entries.dropLast.length : Int) < MAX_POLL_ENTRIES →
        4 ≤ (callsSince h (GeneratePollEntries cl guildID h).2).countP
          Event.isRandomRequest)) := by
  constructor
  · intro fow noms hf hn k answers ha
    have hnoms : noms.Nodup := hnr.1 _ _ _ _ hn
    have hfow : ∀ n, fow.toList.count n ≤ 1 := by
      intro n
      cases fow with
      | none => simp
      | some f =>
        simp only [Option.toList_some, List.count_singleton]
        split <;> omega
    have hB := count_append_nodup_le fow.toList noms 1 hfow hnoms
    obtain ⟨evs, hh, _, hw, _⟩ :=
      fallbackRounds_reach cl guildID hnr k (fow.toList ++ noms) _ 2 hB answers ha
    obtain ⟨evs', hh', _, hlen', _⟩ := fallbackRounds_spec cl guildID k (fow.toList ++ noms)
      (h ++ [Event.GetFow guildID (.ok fow)] ++
        [Event.GetTopNominations guildID
          (MAX_POLL_ENTRIES - OrderedMap.Len (tally fow.toList)) (.ok noms)])
    have hevs : evs = evs' := List.append_cancel_left (hh.symm.trans hh')
    have hk : evs.length ≤ k := by
      rw [hevs]
      exact hlen'
    have hweights : ∀ p ∈ answers, p.2 ≤ 2 + (k : Int) := by
      intro p hp
      have := hw p hp
      push_cast at this
      omega
    refine ⟨hweights, ?_, ?_⟩
    · intro hk4
      apply repeating_false_of_le
      intro p hp
      have := hweights p hp
      omega
    · intro hk5
      rw [collectAnswers_eq cl guildID h fow noms hf hn]
      obtain ⟨j, hj⟩ : ∃ j, 5 = k + j := ⟨5 - k, by omega⟩
      rw [hj]
      exact fallbackRounds_prefix cl guildID j k _ _ answers ha
  · intro entries hok
    exact collectAnswers_reach cl guildID h hnr entries hok

/-- C19 at a group with favorite "Go" whose nomination and catalog sources always
return "Go": after three rounds the weight is 5 and the check does not fire;
the fourth round raises it to 6 = 2 + 4, the check fires, and the run ends with
exactly 4 requests and the single candidate "Go". -/
theorem repeat_heuristic_reach_witness :
    ((∀ p ∈ [(lit "Go", (5 : Int))], p.2 ≤ 2 + ((3 : Nat) : Int)) ∧
        repeating [(lit "Go", 5)] = false) ∧
      (∀ p ∈ [(lit "Go", (6 : Int))], p.2 ≤ 2 + ((4 : Nat) : Int)) ∧
      repeating [(lit "Go", 6)] = true ∧
      (collectAnswers goEverywhere (lit "g") []).1 = .ok [(lit "Go", 6)] ∧
      4 ≤ (callsSince [] (GeneratePollEntries goEverywhere (lit "g") []).2).countP
        Event.isRandomRequest ∧
      (callsSince [] (GeneratePollEntries goEverywhere (lit "g") []).2).countP
        Event.isRandomRequest = 4 :=
  ⟨⟨((repeat_heuristic_reach goEverywhere (lit "g") [] goEverywhere_noRepeats).1
        (some (lit "Go")) [lit "Go"] rfl rfl 3 [(lit "Go", 5)] rfl).1,
      ((repeat_heuristic_reach goEverywhere (lit "g") [] goEverywhere_noRepeats).1
        (some (lit "Go")) [lit "Go"] rfl rfl 3 [(lit "Go", 5)] rfl).2.1 (by decide)⟩,
    ((repeat_heuristic_reach goEverywhere (lit "g") [] goEverywhere_noRepeats).1
      (some (lit "Go")) [lit "Go"] rfl rfl 4 [(lit "Go", 6)] rfl).1,
    by decide, rfl,
    ((repeat_heuristic_reach goEverywhere (lit "g") [] goEverywhere_noRepeats).2
      (renderEntries [(lit "Go", 6)]) rfl).2 (by decide),
    by decide⟩

end FlavorOfTheWeek
